import Mathlib

/-!
# Kummer's confluent hypergeometric function 1F1: the regime dispatcher

A shallow embedding of `src/specfunc/hyperg_1F1.c`.

* A C `double` is an element of a linearly ordered field `R` with a floor
  function.  Every finite double is a rational number, so `R := ℚ` runs the
  definitions on concrete inputs and `R := ℝ` gives the statements for all
  reals.  Arithmetic is exact: rounding, NaN and infinities are outside the
  model, and `x / 0 = 0` as in Mathlib.
* A C `int` is an element of `ℤ`; signed overflow (undefined in C) is outside
  the model.
* An out-parameter `double * result` together with the `int` return value
  is the pair `(value, status)`.
* Everything the file calls but does not define (libm, the GSL primitives of
  other translation units, the constants of `gsl_math.h`) is a field of the
  environment `Env`.
-/

namespace Gsl

/-- Status codes of `gsl_errno.h` that occur in the embedded sources. -/
inductive Status
  | GSL_SUCCESS
  | GSL_EDOM
  | GSL_EINVAL
  | GSL_EFAILED
  | GSL_EMAXITER
  | GSL_EUNDRFLW
  | GSL_EOVRFLW
  | GSL_ELOSS
  deriving DecidableEq, Repr

/-- Modelled from the spec: the numeric values of the status codes (the header
`gsl_errno.h` is not among the sources).  Success is zero and every error code
is positive, which is all that `s += status; if (s == 0)` relies on. -/
def Status.code : Status → ℤ
  | .GSL_SUCCESS => 0
  | .GSL_EDOM => 1
  | .GSL_EINVAL => 4
  | .GSL_EFAILED => 5
  | .GSL_EMAXITER => 11
  | .GSL_EUNDRFLW => 15
  | .GSL_EOVRFLW => 16
  | .GSL_ELOSS => 17

/-- Ways in which a call fails to produce a `(value, status)` pair at all. -/
inductive Fault
  /-- Control reached the closing brace of a non-void function: no value is
  returned and the out-parameter is never written. -/
  | noReturn
  /-- The iteration budget given to an unbounded `while` loop ran out. -/
  | outOfFuel
  deriving DecidableEq, Repr

/-- The value and sign written by `gsl_sf_lngamma_sgn_impl` with its status. -/
structure LnGammaSgn (R : Type) where
  lg : R
  sgn : R
  stat : Status

/-- The value and precision written by a series evaluator with its status. -/
structure SeriesResult (R : Type) where
  val : R
  prec : R
  stat : Status

/-- Everything `hyperg_1F1.c` uses without defining it. -/
structure Env (R : Type) where
  /-- Constant `GSL_MACH_EPS` of `gsl_math.h`. -/
  GSL_MACH_EPS : R
  /-- Constant `GSL_SQRT_MACH_EPS` of `gsl_math.h`. -/
  GSL_SQRT_MACH_EPS : R
  /-- Constant `GSL_LOG_DBL_MAX` of `gsl_math.h`. -/
  GSL_LOG_DBL_MAX : R
  /-- Constant `GSL_SQRT_DBL_MIN` of `gsl_math.h`. -/
  GSL_SQRT_DBL_MIN : R
  /-- Constant `DBL_MAX` of `float.h`. -/
  DBL_MAX : R
  /-- Constant `INT_MAX` of `limits.h`. -/
  INT_MAX : ℤ
  /-- Constant `M_PI` of `math.h`. -/
  M_PI : R
  /-- Function `exp` of libm. -/
  exp : R → R
  /-- Function `log` of libm. -/
  log : R → R
  /-- Function `sqrt` of libm. -/
  sqrt : R → R
  /-- Function `sin` of libm. -/
  sin : R → R
  /-- Function `acos` of libm. -/
  acos : R → R
  gsl_sf_exp_impl : R → R × Status
  gsl_sf_exp_sgn_impl : R → R → R × Status
  gsl_sf_expm1_impl : R → R × Status
  gsl_sf_exprel_impl : R → R × Status
  gsl_sf_exprel_2_impl : R → R × Status
  gsl_sf_exprel_n_impl : ℤ → R → R × Status
  gsl_sf_lngamma_impl : R → R × Status
  gsl_sf_lngamma_sgn_impl : R → LnGammaSgn R
  gsl_sf_bessel_I1_scaled_impl : R → R × Status
  gsl_sf_bessel_J1_impl : R → R × Status
  gsl_sf_bessel_Inu_scaled_impl : R → R → R × Status
  gsl_sf_hyperg_1F1_series_impl : R → R → R → SeriesResult R
  gsl_sf_hyperg_2F0_series_impl : R → R → R → ℤ → SeriesResult R
  /-- The content of the local `ln_F` of `hyperg_1F1_asymp_posx`, which is
  read without ever having been assigned: the source does not determine it. -/
  ln_F_indeterminate : R

section Defs

variable {R : Type} [LinearOrderedField R] [FloorRing R]

/-- Macro `locMAX(a,b)`. -/
def locMAX (a b : R) : R := if a > b then a else b

/-- Macro `locEPS`, that is `1000.0*GSL_MACH_EPS`. -/
def locEPS (E : Env R) : R := 1000 * E.GSL_MACH_EPS

/-- Function `rint` of libm in the default rounding mode: the nearest
integer, a tie going to the even neighbour. -/
def rint (x : R) : ℤ :=
  let f := ⌊x⌋
  let d := x - (f : R)
  if d < 1 / 2 then f
  else if 1 / 2 < d then f + 1
  else if f % 2 = 0 then f else f + 1

/-- Asymptotic result for 1F1(a, b, x), x → -∞ (lines 21-55). -/
def hyperg_1F1_asymp_negx (E : Env R) (a b x : R) : R × Status :=
  let gb := E.gsl_sf_lngamma_sgn_impl b
  let gbma := E.gsl_sf_lngamma_sgn_impl (b - a)
  if gb.stat = .GSL_SUCCESS ∧ gbma.stat = .GSL_SUCCESS then
    let s20 := E.gsl_sf_hyperg_2F0_series_impl a (1 + a - b) (-1 / x) (-1)
    let F := s20.val
    let ln_pre := gb.lg - a * E.log (-x) - gbma.lg
    let ln_F := E.log |F|
    if ln_pre + ln_F < E.GSL_LOG_DBL_MAX - 1 then
      (gb.sgn * gbma.sgn * E.exp ln_pre * F, s20.stat)
    else (0, .GSL_EOVRFLW)
  else (0, .GSL_EDOM)

/-- Asymptotic result for 1F1(a, b, x), x → +∞ (lines 61-95).  The status of
the 2F0 series is dropped and `ln_F` is read unassigned, as in the source. -/
def hyperg_1F1_asymp_posx (E : Env R) (a b x : R) : R × Status :=
  let gb := E.gsl_sf_lngamma_sgn_impl b
  let ga := E.gsl_sf_lngamma_sgn_impl a
  if ga.stat = .GSL_SUCCESS ∧ gb.stat = .GSL_SUCCESS then
    let s20 := E.gsl_sf_hyperg_2F0_series_impl (b - a) (1 - a) (1 / x) (-1)
    let F := s20.val
    let ln_pre := gb.lg - ga.lg + x + (a - b) * E.log x
    let ln_F := E.ln_F_indeterminate
    if ln_pre + ln_F < E.GSL_LOG_DBL_MAX then
      (gb.sgn * ga.sgn * E.exp ln_pre * F, .GSL_SUCCESS)
    else (0, .GSL_EOVRFLW)
  else (0, .GSL_EDOM)

/-- Asymptotic result for x < 2b-4a, 2b-4a large (lines 101-119). -/
def hyperg_1F1_large2bm4a (E : Env R) (a b x : R) : R × Status :=
  let eta := 2 * b - 4 * a
  let cos2th := x / eta
  let sin2th := 1 - cos2th
  let th := E.acos (E.sqrt cos2th)
  let pre_h := 1 / 4 * E.M_PI * E.M_PI * eta * eta * cos2th * sin2th
  let lg_b := (E.gsl_sf_lngamma_impl b).1
  let lnpre := lg_b + 1 / 2 * x + 1 / 2 * (1 - b) * E.log (1 / 4 * x * eta) - 1 / 4 * E.log pre_h
  let ser := E.sin (a * E.M_PI) + E.sin (1 / 4 * eta * (2 * th - E.sin (2 * th)) + 1 / 4 * E.M_PI)
  let lnr := lnpre + E.log |ser|
  E.gsl_sf_exp_sgn_impl lnr ser

/-- The six recurrence values and the running ratio of Luke's method. -/
structure LukeState (R : Type) where
  n : ℤ
  F : R
  prec : R
  Bnm3 : R
  Bnm2 : R
  Bnm1 : R
  Anm3 : R
  Anm2 : R
  Anm1 : R

/-- The `while(1)` loop of `hyperg_1F1_luke` (lines 152-202).  The loop
leaves at the latest when `n > nmax`, so it runs fewer than `nmax` times;
the first argument counts the remaining iterations. -/
def hyperg_1F1_luke_loop (E : Env R) (a c x x3 : R) : ℕ → LukeState R → LukeState R
  | 0, s => s
  | k + 1, s =>
    let RECUR_BIG : R := 10 ^ 50
    let nmax : ℤ := 5000
    let n : R := (s.n : R)
    let npam1 := n + a - 1
    let npcm1 := n + c - 1
    let npam2 := n + a - 2
    let npcm2 := n + c - 2
    let tnm1 := 2 * n - 1
    let tnm3 := 2 * n - 3
    let tnm5 := 2 * n - 5
    let F1 := (n - a - 2) / (2 * tnm3 * npcm1)
    let F2 := (n + a) * npam1 / (4 * tnm1 * tnm3 * npcm2 * npcm1)
    let F3 := -npam2 * npam1 * (n - a - 2) / (8 * tnm3 * tnm3 * tnm5 * (n + c - 3) * npcm2 * npcm1)
    let Ec := -npam1 * (n - c - 1) / (2 * tnm3 * npcm2 * npcm1)
    let An := (1 + F1 * x) * s.Anm1 + (Ec + F2 * x) * x * s.Anm2 + F3 * x3 * s.Anm3
    let Bn := (1 + F1 * x) * s.Bnm1 + (Ec + F2 * x) * x * s.Bnm2 + F3 * x3 * s.Bnm3
    let r := An / Bn
    let prec := |(s.F - r) / s.F|
    if prec < E.GSL_MACH_EPS ∨ s.n > nmax then
      { s with F := r, prec := prec }
    else if |An| > RECUR_BIG ∨ |Bn| > RECUR_BIG then
      hyperg_1F1_luke_loop E a c x x3 k
        { n := s.n + 1, F := r, prec := prec,
          Bnm3 := s.Bnm2 / RECUR_BIG, Bnm2 := s.Bnm1 / RECUR_BIG, Bnm1 := Bn / RECUR_BIG,
          Anm3 := s.Anm2 / RECUR_BIG, Anm2 := s.Anm1 / RECUR_BIG, Anm1 := An / RECUR_BIG }
    else if |An| < 1 / RECUR_BIG ∨ |Bn| < 1 / RECUR_BIG then
      hyperg_1F1_luke_loop E a c x x3 k
        { n := s.n + 1, F := r, prec := prec,
          Bnm3 := s.Bnm2 * RECUR_BIG, Bnm2 := s.Bnm1 * RECUR_BIG, Bnm1 := Bn * RECUR_BIG,
          Anm3 := s.Anm2 * RECUR_BIG, Anm2 := s.Anm1 * RECUR_BIG, Anm1 := An * RECUR_BIG }
    else
      hyperg_1F1_luke_loop E a c x x3 k
        { n := s.n + 1, F := r, prec := prec,
          Bnm3 := s.Bnm2, Bnm2 := s.Bnm1, Bnm1 := Bn,
          Anm3 := s.Anm2, Anm2 := s.Anm1, Anm1 := An }

/-- Luke's rational approximation (lines 129-210); returns the value, the
precision written to `*prec` and the status. -/
def hyperg_1F1_luke (E : Env R) (a c xin : R) : SeriesResult R :=
  let x := -xin
  let x3 := x * x * x
  let t0 := a / c
  let t1 := (a + 1) / (2 * c)
  let t2 := (a + 2) / (2 * (c + 1))
  let Bnm3 : R := 1
  let Bnm2 := 1 + t1 * x
  let Bnm1 := 1 + t2 * x * (1 + t1 / 3 * x)
  let Anm3 : R := 1
  let Anm2 := Bnm2 - t0 * x
  let Anm1 := Bnm1 - t0 * (1 + t2 * x) * x + t0 * t1 * (c / (c + 1)) * x * x
  let s := hyperg_1F1_luke_loop E a c x x3 5000
    { n := 3, F := 1, prec := 0, Bnm3 := Bnm3, Bnm2 := Bnm2, Bnm1 := Bnm1,
      Anm3 := Anm3, Anm2 := Anm2, Anm1 := Anm1 }
  if s.prec > 10 * locEPS E then ⟨s.F, s.prec, .GSL_ELOSS⟩
  else ⟨s.F, s.prec, .GSL_SUCCESS⟩

/-- The state of `hyperg_1F1_luke` on entering its loop (lines 134-150). -/
def hyperg_1F1_luke_init (a c xin : R) : LukeState R :=
  let x := -xin
  let t0 := a / c
  let t1 := (a + 1) / (2 * c)
  let t2 := (a + 2) / (2 * (c + 1))
  let Bnm3 : R := 1
  let Bnm2 := 1 + t1 * x
  let Bnm1 := 1 + t2 * x * (1 + t1 / 3 * x)
  let Anm3 : R := 1
  let Anm2 := Bnm2 - t0 * x
  let Anm1 := Bnm1 - t0 * (1 + t2 * x) * x + t0 * t1 * (c / (c + 1)) * x * x
  { n := 3, F := 1, prec := 0, Bnm3 := Bnm3, Bnm2 := Bnm2, Bnm1 := Bnm1,
    Anm3 := Anm3, Anm2 := Anm2, Anm1 := Anm1 }

/-- The state of `hyperg_1F1_luke` on leaving its loop (line 203); the
function `hyperg_1F1_luke` reads its value, its precision and its status off
this state. -/
def hyperg_1F1_luke_final (E : Env R) (a c xin : R) : LukeState R :=
  hyperg_1F1_luke_loop E a c (-xin) (-xin * -xin * -xin) 5000 (hyperg_1F1_luke_init a c xin)

/-- The value `An` (or `Bn`) that one pass of the loop of `hyperg_1F1_luke`
computes from the three values before it (lines 154-167). -/
def hyperg_1F1_luke_rec (a c x x3 : R) (n : ℤ) (p1 p2 p3 : R) : R :=
  let n : R := (n : R)
  let npam1 := n + a - 1
  let npcm1 := n + c - 1
  let npam2 := n + a - 2
  let npcm2 := n + c - 2
  let tnm1 := 2 * n - 1
  let tnm3 := 2 * n - 3
  let tnm5 := 2 * n - 5
  let F1 := (n - a - 2) / (2 * tnm3 * npcm1)
  let F2 := (n + a) * npam1 / (4 * tnm1 * tnm3 * npcm2 * npcm1)
  let F3 := -npam2 * npam1 * (n - a - 2) / (8 * tnm3 * tnm3 * tnm5 * (n + c - 3) * npcm2 * npcm1)
  let Ec := -npam1 * (n - c - 1) / (2 * tnm3 * npcm2 * npcm1)
  (1 + F1 * x) * p1 + (Ec + F2 * x) * x * p2 + F3 * x3 * p3

/-- The `while` loop of `hyperg_1F1_1_series` (lines 223-227).  The source
puts no bound on it; the first argument is the number of iterations allowed. -/
def hyperg_1F1_1_series_loop (E : Env R) (b x : R) : ℕ → R → R → R → Except Fault R
  | 0, term, sum, _ =>
    if |term / sum| > 10 * E.GSL_MACH_EPS then .error .outOfFuel else .ok sum
  | k + 1, term, sum, n =>
    if |term / sum| > 10 * E.GSL_MACH_EPS then
      let term1 := term * (x / (b + n - 1))
      hyperg_1F1_1_series_loop E b x k term1 (sum + term1) (n + 1)
    else .ok sum

/-- Series for 1F1(1,b,x), b > 0 (lines 216-230). -/
def hyperg_1F1_1_series (E : Env R) (fuel : ℕ) (b x : R) : Except Fault (R × Status) :=
  match hyperg_1F1_1_series_loop E b x fuel 1 1 1 with
  | .error f => .error f
  | .ok sum => .ok (sum, .GSL_SUCCESS)

/-- Closed forms of 1F1(1,b,x) for integer b (lines 236-256). -/
def hyperg_1F1_1_int (E : Env R) (b : ℤ) (x : R) : R × Status :=
  if b < 1 then (0, .GSL_EDOM)
  else if b = 1 then E.gsl_sf_exp_impl x
  else if b = 2 then E.gsl_sf_exprel_impl x
  else if b = 3 then E.gsl_sf_exprel_2_impl x
  else E.gsl_sf_exprel_n_impl (b - 1) x

/-- The loop `while(bp > b+0.1)` of `hyperg_1F1_1` (lines 292-296), with the
number of iterations left as first argument. -/
def hyperg_1F1_1_recur (b x : R) : ℕ → R → R → R
  | 0, _, M => M
  | k + 1, bp, M =>
    if bp > b + 1 / 10 then hyperg_1F1_1_recur b x k (bp - 1) (1 + x / (bp - 1) * M)
    else M

/-- Evaluator of 1F1(1,b,x) for real b ≥ 1 (lines 264-317). -/
def hyperg_1F1_1 (E : Env R) (fuel : ℕ) (b x : R) : Except Fault (R × Status) :=
  let ax := |x|
  let ib : ℤ := ⌊b + 1 / 10⌋
  if b < 1 then .ok (0, .GSL_EDOM)
  else if b = 1 then .ok (E.gsl_sf_exp_impl x)
  else if b ≥ 14 / 10 * ax then hyperg_1F1_1_series E fuel b x
  else if |b - (ib : R)| < locEPS E ∧ ib < E.INT_MAX then .ok (hyperg_1F1_1_int E ib x)
  else if x > 0 then
    if x > 20 ∧ b < 75 / 100 * x then .ok (hyperg_1F1_asymp_posx E 1 b x)
    else if b < 100000 then
      let steps : ℤ := ⌈14 / 10 * x - b⌉ + 1
      let bp := b + (steps : R)
      match hyperg_1F1_1_series E fuel bp x with
      | .error f => .error f
      | .ok M => .ok (hyperg_1F1_1_recur b x steps.toNat bp M.1, .GSL_SUCCESS)
    else .ok (hyperg_1F1_large2bm4a E 1 b x)
  else
    if ax < 10 ∧ b < 10 then hyperg_1F1_1_series E fuel b x
    else if ax ≥ 100 ∧ locMAX |2 - b| 1 < 99 / 100 * ax then
      .ok (hyperg_1F1_asymp_negx E 1 b x)
    else
      let l := hyperg_1F1_luke E 1 b x
      .ok (l.val, l.stat)

/-- Limit of 1F1(a,b,x)/Gamma(b) for b → 0 (lines 323-362). -/
def hyperg_1F1_renorm_b0 (E : Env R) (a x : R) : R × Status :=
  let eta := a * x
  if eta > 0 then
    let root_eta := E.sqrt eta
    let I := E.gsl_sf_bessel_I1_scaled_impl (2 * root_eta)
    if I.2 ≠ .GSL_SUCCESS then (0, I.2)
    else
      let lnr := 1 / 2 * x + 1 / 2 * E.log eta + |x| + E.log I.1
      E.gsl_sf_exp_impl lnr
  else if eta = 0 then (0, .GSL_SUCCESS)
  else
    let root_eta := E.sqrt (-eta)
    let J := E.gsl_sf_bessel_J1_impl (2 * root_eta)
    if J.2 ≠ .GSL_SUCCESS then (0, J.2)
    else
      let lnr := 1 / 2 * x + 1 / 2 * E.log (-eta) + |x| + E.log J.1
      let ex := E.gsl_sf_exp_impl lnr
      (-ex.1, ex.2)

/-- The `for(k=1; k<maxiter; k++)` loop of `hyperg_1F1_CF1_p_ser`
(lines 461-467); returns the sum and the value of `k` on leaving the loop.
The first argument counts the remaining iterations. -/
def hyperg_1F1_CF1_p_ser_loop (E : Env R) (a b x : R) : ℕ → ℤ → R → R → R → R × ℤ
  | 0, k, sum, _, _ => (sum, k)
  | f + 1, k, sum, pk, rhok =>
    if k < 5000 then
      let ak := (a + (k : R)) * x / ((b - x + (k : R) - 1) * (b - x + (k : R)))
      let rhok1 := -ak * (1 + rhok) / (1 + ak * (1 + rhok))
      let pk1 := pk * rhok1
      let sum1 := sum + pk1
      if |pk1 / sum1| < 2 * E.GSL_MACH_EPS then (sum1, k)
      else hyperg_1F1_CF1_p_ser_loop E a b x f (k + 1) sum1 pk1 rhok1
    else (sum, k)

/-- Ratio 1F1'(a,b,x)/1F1(a,b,x) by Gautschi's series (lines 447-474). -/
def hyperg_1F1_CF1_p_ser (E : Env R) (a b x : R) : R × Status :=
  if a = 0 then (0, .GSL_SUCCESS)
  else
    let maxiter : ℤ := 5000
    let r := hyperg_1F1_CF1_p_ser_loop E a b x 5000 1 1 1 0
    if r.2 = maxiter then (a / (b - x) * r.1, .GSL_EMAXITER)
    else (a / (b - x) * r.1, .GSL_SUCCESS)

/-- The backward recursion `while(bp > b+0.1)` of `hyperg_1F1_small_a_bgt0`
(lines 645-651); returns `Mb`.  The first argument counts the iterations
left. -/
def hyperg_1F1_small_a_bgt0_recur (a b x : R) : ℕ → R → R → R → R
  | 0, _, _, Mb => Mb
  | k + 1, bp, Mbp1, Mb =>
    if bp > b + 1 / 10 then
      let Mbm1 := ((x + bp - 1) * Mb - x * (bp - a) / bp * Mbp1) / (bp - 1)
      hyperg_1F1_small_a_bgt0_recur a b x k (bp - 1) Mb Mbm1
    else Mb

/-- Evaluator of 1F1(a,b,x) for |a| ≤ 1, b > 0 (lines 604-673). -/
def hyperg_1F1_small_a_bgt0 (E : Env R) (fuel : ℕ) (a b x : R) : Except Fault (R × Status) :=
  let bma := b - a
  let oma := 1 - a
  let ap1mb := 1 + a - b
  let abs_bma := |bma|
  let abs_oma := |oma|
  let abs_ap1mb := |ap1mb|
  let ax := |x|
  let series : R × Status :=
    ((E.gsl_sf_hyperg_1F1_series_impl a b x).val, (E.gsl_sf_hyperg_1F1_series_impl a b x).stat)
  if a = 0 then .ok (1, .GSL_SUCCESS)
  else if a = 1 then hyperg_1F1_1 E fuel b x
  else if a = -1 then .ok (1 + a / b * x, .GSL_SUCCESS)
  else if b ≥ 14 / 10 * ax then .ok series
  else if x > 0 then
    if x > 20 ∧ abs_bma * abs_oma < 9 / 10 * x then .ok (hyperg_1F1_asymp_posx E a b x)
    else if b < 100000 then
      let steps : ℤ := ⌈14 / 10 * x - b⌉ + 1
      let bp := b + (steps : R)
      let Mbp1 := (E.gsl_sf_hyperg_1F1_series_impl a (bp + 1) x).val
      let Mb := (E.gsl_sf_hyperg_1F1_series_impl a bp x).val
      .ok (hyperg_1F1_small_a_bgt0_recur a b x steps.toNat bp Mbp1 Mb, .GSL_SUCCESS)
    else .ok (hyperg_1F1_large2bm4a E a b x)
  else
    if ax < 10 ∧ b < 10 then .ok series
    else if ax ≥ 100 ∧ locMAX abs_ap1mb 1 < 99 / 100 * ax then
      .ok (hyperg_1F1_asymp_negx E a b x)
    else
      let l := hyperg_1F1_luke E a b x
      .ok (l.val, l.stat)

/-- Evaluator of 1F1(b+eps,b,x) for |eps| ≤ 1, b > 0, by a Kummer
transformation (lines 679-694). -/
def hyperg_1F1_beps_bgt0 (E : Env R) (fuel : ℕ) (eps b x : R) : Except Fault (R × Status) :=
  match hyperg_1F1_small_a_bgt0 E fuel (-eps) b (-x) with
  | .error f => .error f
  | .ok (Kummer_1F1, stat_K) =>
    if (stat_K = .GSL_SUCCESS ∨ stat_K = .GSL_ELOSS) ∧ Kummer_1F1 ≠ 0 then
      let lnK := E.log |Kummer_1F1|
      let sgK : R := if Kummer_1F1 > 0 then 1 else -1
      .ok (E.gsl_sf_exp_sgn_impl (lnK + x) sgK)
    else .ok (0, stat_K)

/-- Closed form of 1F1(a,2a,x) through a scaled Bessel function, a ≥ 1/2
(lines 704-727). -/
def hyperg_1F1_beq2a_pos (E : Env R) (a x : R) : R × Status :=
  if x = 0 then (1, .GSL_SUCCESS)
  else
    let I := E.gsl_sf_bessel_Inu_scaled_impl (a - 1 / 2) (1 / 2 * |x|)
    if I.2 = .GSL_SUCCESS then
      let lg := (E.gsl_sf_lngamma_impl (a + 1 / 2)).1
      let lr := lg + locMAX x 0 + (1 / 2 - a) * E.log (1 / 4 * |x|) + E.log |I.1|
      E.gsl_sf_exp_impl lr
    else (0, I.2)

/-- Middle parts of the diagonal recursion along b = 2a (lines 739-754):
from M(a,b) and M(a+1,b+2) the pair (M(a+1,b+1), M(a,b+1)); the status is
always success. -/
def hyperg_1F1_diag_step (a b x Mab Map1bp2 : R) : R × R :=
  if a = b then (Mab, Mab - x / (b + 1) * Map1bp2)
  else
    let Map1bp1 := Mab - x * (a - b) / (b * (b + 1)) * Map1bp2
    (Map1bp1, (a * Map1bp1 - b * Mab) / (a - b))

/-- Endpoint of the diagonal recursion (lines 765-774): from M(a,b) and
M(a+1,b+2) the pair (M(a+1,b), M(a+1,b+1)); the status is always success. -/
def hyperg_1F1_diag_end_step (a b x Mab Map1bp2 : R) : R × R :=
  let Map1bp1 := Mab - x * (a - b) / (b * (b + 1)) * Map1bp2
  (Mab + x / b * Map1bp1, Map1bp1)

/-- The forward recurrence loops of `hyperg_1F1_ab_posint` over an `int`
index, `for(n=...; n<stop; n++)` (lines 839-843, 894-898, 985-989); returns
`Mn`.  The first argument counts the iterations left. -/
def hyperg_1F1_ab_posint_forward (b : ℤ) (x : R) (stop : ℤ) : ℕ → ℤ → R → R → R
  | 0, _, _, Mn => Mn
  | k + 1, n, Mnm1, Mn =>
    if n < stop then
      let Mnp1 := (((b - n : ℤ) : R) * Mnm1 + (((2 * n - b : ℤ) : R) + x) * Mn) / (n : R)
      hyperg_1F1_ab_posint_forward b x stop k (n + 1) Mn Mnp1
    else Mn

/-- The backward recurrence loop of `hyperg_1F1_ab_posint`,
`for(n=a; n>0; n--)` (lines 928-932); returns `Mn`. -/
def hyperg_1F1_ab_posint_backward (b : ℤ) (x : R) : ℕ → ℤ → R → R → R
  | 0, _, _, Mn => Mn
  | k + 1, n, Mnp1, Mn =>
    if n > 0 then
      let Mnm1 := ((n : R) * Mnp1 - (((2 * n - b : ℤ) : R) + x) * Mn) / ((b - n : ℤ) : R)
      hyperg_1F1_ab_posint_backward b x k (n - 1) Mn Mnm1
    else Mn

/-- Evaluator for a and b both positive integers (lines 780-993). -/
def hyperg_1F1_ab_posint (E : Env R) (a b : ℤ) (x : R) : R × Status :=
  let ax := |x|
  if a = b then E.gsl_sf_exp_impl x
  else if a = 1 then E.gsl_sf_exprel_n_impl (b - 1) x
  else if b = a + 1 then
    let K := E.gsl_sf_exprel_n_impl a (-x)
    if K.1 = 0 then (0, K.2)
    else if K.2 = .GSL_SUCCESS then
      let lK := E.log |K.1|
      let lr := lK + x
      E.gsl_sf_exp_sgn_impl lr K.1
    else (0, K.2)
  else if a = b + 1 then (E.exp x * (1 + x / (b : R)), .GSL_SUCCESS)
  else if a = b + 2 then
    (E.exp x * (1 + x / (b : R) * (2 + x / ((b + 1 : ℤ) : R))), .GSL_SUCCESS)
  else if b = 2 * a then hyperg_1F1_beq2a_pos E (a : R) x
  else if (b < 10 ∧ a < 10 ∧ ax < 5) ∨ ((b : R) > (a : R) * ax) ∨ (b > a ∧ ax < 5) then
    ((E.gsl_sf_hyperg_1F1_series_impl (a : R) (b : R) x).val,
      (E.gsl_sf_hyperg_1F1_series_impl (a : R) (b : R) x).stat)
  else if a > b then
    if x + E.log |x / (b : R)| < E.GSL_LOG_DBL_MAX - 2 then
      let ex := E.exp x
      let Mnm1 := ex
      let Mn := ex * (1 + x / (b : R))
      (hyperg_1F1_ab_posint_forward b x a (a - (b + 1)).toNat (b + 1) Mnm1 Mn, .GSL_SUCCESS)
    else (0, .GSL_EOVRFLW)
  else if 2 * a > b then
    let seeds : ℤ × R × R × ℤ :=
      if b % 2 = 0 then
        let a_start := Int.tdiv b 2 + 1
        if b = 2 then
          let r1 := E.gsl_sf_exprel_impl x
          let r2 := E.gsl_sf_exp_impl x
          (a_start, r1.1, r2.1, r1.2.code + r2.2.code)
        else
          let r1 := hyperg_1F1_beq2a_pos E ((Int.tdiv b 2 : ℤ) : R) x
          let r2 := hyperg_1F1_beq2a_pos E ((Int.tdiv b 2 + 1 : ℤ) : R) x
          let d := hyperg_1F1_diag_end_step ((Int.tdiv b 2 : ℤ) : R) (b : R) x r1.1 r2.1
          (a_start, r1.1, d.1, r1.2.code + r2.2.code + Status.GSL_SUCCESS.code)
      else
        let a_start := Int.tdiv (b + 1) 2
        if b = 1 then
          let r2 := E.gsl_sf_exp_impl x
          (a_start, 0, r2.1, r2.2.code)
        else
          let r0 := hyperg_1F1_beq2a_pos E ((Int.tdiv (b - 1) 2 : ℤ) : R) x
          let r2 := hyperg_1F1_beq2a_pos E ((Int.tdiv (b + 1) 2 : ℤ) : R) x
          let d := hyperg_1F1_diag_step ((Int.tdiv (b - 1) 2 : ℤ) : R) ((b - 1 : ℤ) : R) x r0.1 r2.1
          (a_start, d.1, d.2, r0.2.code + r2.2.code + Status.GSL_SUCCESS.code)
    let a_start := seeds.1
    let Mnm1 := seeds.2.1
    let Mn := seeds.2.2.1
    let s := seeds.2.2.2
    if s = 0 then
      (hyperg_1F1_ab_posint_forward b x a (a - a_start).toNat a_start Mnm1 Mn, .GSL_SUCCESS)
    else (0, .GSL_EFAILED)
  else if (b : R) > ((2 * a : ℤ) : R) + x then
    let cf := hyperg_1F1_CF1_p_ser E (a : R) (b : R) x
    let rap := cf.1
    let stat_CF1 := cf.2
    let ra := 1 + x / (a : R) * rap
    if stat_CF1 = .GSL_SUCCESS ∨ stat_CF1 = .GSL_EMAXITER then
      let Ma := E.GSL_SQRT_DBL_MIN
      let Map1 := ra * Ma
      let Mn := hyperg_1F1_ab_posint_backward b x a.toNat a Map1 Ma
      (Ma / Mn, stat_CF1)
    else (0, stat_CF1)
  else
    let ra : R :=
      if (b : R) > x then
        let rap := (hyperg_1F1_CF1_p_ser E (a : R) (b : R) x).1
        1 + x / (a : R) * rap
      else
        let rap_Kummer := (hyperg_1F1_CF1_p_ser E ((b - a - 1 : ℤ) : R) (b : R) (-x)).1
        let ra_Kummer := 1 + (-x / ((b - a - 1 : ℤ) : R)) * rap_Kummer
        1 / ra_Kummer
    let Ma := E.GSL_SQRT_DBL_MIN
    let Mnm1 := Ma
    let Mn := ra * Mnm1
    let Mn1 := hyperg_1F1_ab_posint_forward b x b (b - (a + 1)).toNat (a + 1) Mnm1 Mn
    (Ma / Mn1 * E.exp x, .GSL_SUCCESS)

/-- The Horner loop `for(k=N-1; k>=0; k--)` of `hyperg_1F1_a_negint_poly`
(lines 1012-1022): the first argument is `k+1`. -/
def hyperg_1F1_a_negint_poly_loop (E : Env R) (a : ℤ) (b x : R) : ℕ → R → R × Status
  | 0, poly => (poly, .GSL_SUCCESS)
  | k + 1, poly =>
    let t := (((a + (k : ℤ) : ℤ) : R)) / (b + (k : R)) * (x / (((k : ℤ) + 1 : ℤ) : R))
    let r := t + 1 / poly
    if r > 9 / 10 * E.DBL_MAX / poly then (0, .GSL_EOVRFLW)
    else hyperg_1F1_a_negint_poly_loop E a b x k (poly * r)

/-- Terminating polynomial for a ≤ 0 by Horner's scheme (lines 1000-1026). -/
def hyperg_1F1_a_negint_poly (E : Env R) (a : ℤ) (b x : R) : R × Status :=
  if a = 0 then (1, .GSL_SUCCESS)
  else
    let N : ℤ := -a
    hyperg_1F1_a_negint_poly_loop E a b x N.toNat 1

/-- Evaluator for integers a ≤ -1, b ≤ -1, b ≤ a (lines 1031-1069). -/
def hyperg_1F1_ab_negint (E : Env R) (a b : ℤ) (x : R) : R × Status :=
  if x = 0 then (1, .GSL_SUCCESS)
  else if x > 0 then hyperg_1F1_a_negint_poly E a (b : R) x
  else
    let K := hyperg_1F1_a_negint_poly E (b - a) (b : R) (-x)
    let ex := E.gsl_sf_exp_impl x
    if K.2 = .GSL_SUCCESS ∧ ex.2 = .GSL_SUCCESS then (ex.1 * K.1, .GSL_SUCCESS)
    else if K.2 = .GSL_EOVRFLW then (0, K.2)
    else if ex.2 = .GSL_EUNDRFLW then (0, ex.2)
    else (0, .GSL_EFAILED)

/-- The forward recurrence loops of `hyperg_1F1_ab_pos` over a `double`
index, `for(n=...; n<stop; n += 1.0)` (lines 1109-1113, 1225-1229); returns
the final index and `Mn`.  The first argument counts the iterations left. -/
def hyperg_1F1_ab_pos_forward (b x stop : R) : ℕ → R → R → R → R × R
  | 0, n, _, Mn => (n, Mn)
  | k + 1, n, Mnm1, Mn =>
    if n < stop then
      let Mnp1 := ((b - n) * Mnm1 + (2 * n - b + x) * Mn) / n
      hyperg_1F1_ab_pos_forward b x stop k (n + 1) Mn Mnp1
    else (n, Mn)

/-- The backward recurrence loop of `hyperg_1F1_ab_pos`,
`for(n=a; n>0.5; n -= 1.0)` (lines 1159-1163); returns the final index and
`Mn`. -/
def hyperg_1F1_ab_pos_backward (b x : R) : ℕ → R → R → R → R × R
  | 0, n, _, Mn => (n, Mn)
  | k + 1, n, Mnp1, Mn =>
    if n > 1 / 2 then
      let Mnm1 := (n * Mnp1 - (2 * n - b + x) * Mn) / (b - n)
      hyperg_1F1_ab_pos_backward b x k (n - 1) Mn Mnm1
    else (n, Mn)

/-- Evaluator for generic positive a, b (lines 1074-1240). -/
def hyperg_1F1_ab_pos (E : Env R) (fuel : ℕ) (a b x : R) : Except Fault (R × Status) :=
  let ax := |x|
  if (b < 10 ∧ a < 10 ∧ ax < 5) ∨ (b > a * ax) ∨ (b > a ∧ ax < 5) then
    .ok ((E.gsl_sf_hyperg_1F1_series_impl a b x).val,
      (E.gsl_sf_hyperg_1F1_series_impl a b x).stat)
  else if |b - a| ≤ 1 then hyperg_1F1_beps_bgt0 E fuel (a - b) b x
  else if a > b + 1 then
    if b ≥ -x then
      let N : R := ((⌊a - b⌋ : ℤ) : R)
      let eps := a - b - N
      match hyperg_1F1_beps_bgt0 E fuel (eps - 1) b x with
      | .error f => .error f
      | .ok (M0, stat_0) =>
        match hyperg_1F1_beps_bgt0 E fuel eps b x with
        | .error f => .error f
        | .ok (M1, stat_1) =>
          if stat_0 = .GSL_SUCCESS ∧ stat_1 = .GSL_SUCCESS then
            let stop := a - 1 / 10
            let start := b + eps
            .ok ((hyperg_1F1_ab_pos_forward b x stop ⌈stop - start⌉.toNat start M0 M1).2,
              .GSL_SUCCESS)
          else .ok (0, .GSL_EFAILED)
    else if b > 2 * a + x then
      let l := hyperg_1F1_luke E a b x
      .ok (l.val, l.stat)
    else
      let l := hyperg_1F1_luke E a b x
      .ok (l.val, l.stat)
  else if b > 2 * a + x then
    let cf := hyperg_1F1_CF1_p_ser E a b x
    let rap := cf.1
    let stat_CF1 := cf.2
    let ra := 1 + x / a * rap
    if stat_CF1 = .GSL_SUCCESS ∨ stat_CF1 = .GSL_EMAXITER then
      let Ma := E.GSL_SQRT_DBL_MIN
      let Map1 := ra * Ma
      let r := hyperg_1F1_ab_pos_backward b x ⌈a - 1 / 2⌉.toNat a Map1 Ma
      let n := r.1
      let Mn := r.2
      match hyperg_1F1_small_a_bgt0 E fuel n b x with
      | .error f => .error f
      | .ok (Mn_true, stat_Mt) =>
        if stat_Mt = .GSL_SUCCESS then .ok ((Ma / Mn) * Mn_true, stat_CF1)
        else .ok (0, stat_Mt)
    else .ok (0, stat_CF1)
  else
    let ra : R :=
      if b > x then
        let rap := (hyperg_1F1_CF1_p_ser E a b x).1
        1 + x / a * rap
      else
        let rap_Kummer := (hyperg_1F1_CF1_p_ser E (b - a - 1) b (-x)).1
        let ra_Kummer := 1 + (-x / (b - a - 1)) * rap_Kummer
        1 / ra_Kummer
    let Ma := E.GSL_SQRT_DBL_MIN
    let Mnm1 := Ma
    let Mn0 := ra * Mnm1
    let stop := b - 1 / 2
    let start := a + 1
    let r := hyperg_1F1_ab_pos_forward b x stop ⌈stop - start⌉.toNat start Mnm1 Mn0
    let n := r.1
    let Mn := r.2
    match hyperg_1F1_beps_bgt0 E fuel (n - b) b x with
    | .error f => .error f
    | .ok (Mn_true, stat_Mt) =>
      if stat_Mt = .GSL_SUCCESS then .ok (Ma / Mn * Mn_true, .GSL_SUCCESS)
      else .ok (0, stat_Mt)

/-- The generic negative case (lines 1243-1247).  The body of the source
function is empty: it writes nothing to `*result` and returns no status. -/
def hyperg_1F1_ab_neg (_a _b _x : R) : Except Fault (R × Status) :=
  .error .noReturn

/-- The integer-parameter dispatcher (lines 1252-1314). -/
def gsl_sf_hyperg_1F1_int_impl (E : Env R) (a b : ℤ) (x : R) : R × Status :=
  if x = 0 then (1, .GSL_SUCCESS)
  else if a = b then E.gsl_sf_exp_impl x
  else if b = 0 then (0, .GSL_EDOM)
  else if a = 0 then (1, .GSL_SUCCESS)
  else if b < 0 ∧ (a < b ∨ a > 0) then (0, .GSL_EDOM)
  else if x > 100 ∧
      locMAX 1 |((b - a : ℤ) : R)| * locMAX 1 |((1 - a : ℤ) : R)| < 1 / 2 * x then
    hyperg_1F1_asymp_posx E (a : R) (b : R) x
  else if x < -100 ∧
      locMAX 1 |((a : ℤ) : R)| * locMAX 1 |((1 + a - b : ℤ) : R)| < 1 / 2 * |x| then
    hyperg_1F1_asymp_negx E (a : R) (b : R) x
  else if a < 0 ∧ b < 0 then hyperg_1F1_ab_negint E a b x
  else if a < 0 ∧ b > 0 then
    let K := hyperg_1F1_ab_posint E (b - a) b (-x)
    let Kummer_1F1 := K.1
    let stat_K := K.2
    if stat_K = .GSL_SUCCESS then
      if Kummer_1F1 = 0 then (0, .GSL_SUCCESS)
      else
        let lnr := E.log |Kummer_1F1| + x
        E.gsl_sf_exp_sgn_impl lnr Kummer_1F1
    else (0, stat_K)
  else hyperg_1F1_ab_posint E a b x

/-- The real-parameter dispatcher (lines 1317-1550). -/
def gsl_sf_hyperg_1F1_impl (E : Env R) (fuel : ℕ) (a b x : R) : Except Fault (R × Status) :=
  let bma := b - a
  let a_integer : Bool := decide (|a - (rint a : R)| < locEPS E)
  let b_integer : Bool := decide (|b - (rint b : R)| < locEPS E)
  let bma_integer : Bool := decide (|bma - (rint bma : R)| < locEPS E)
  let b_neg_integer : Bool := decide (b < -(1 / 10)) && b_integer
  let a_neg_integer : Bool := decide (a < -(1 / 10)) && a_integer
  let bma_neg_integer : Bool := decide (bma < -(1 / 10)) && bma_integer
  if x = 0 then .ok (1, .GSL_SUCCESS)
  else if b = 0 then .ok (0, .GSL_EDOM)
  else if a = 0 then .ok (1, .GSL_SUCCESS)
  else if a = b then .ok (E.gsl_sf_exp_impl x)
  else if |b| < 10 * locEPS E then
    if |a| < 10 * locEPS E then
      let e := E.gsl_sf_expm1_impl x
      let exm1 := e.1
      let stat_e := e.2
      if stat_e = .GSL_SUCCESS then
        let sa : R := if a > 0 then 1 else -1
        let sb : R := if b > 0 then 1 else -1
        let se : R := if exm1 > 0 then 1 else -1
        let lnr := E.log |a| - E.log |b| + E.log |exm1|
        let h := E.gsl_sf_exp_sgn_impl lnr (sa * sb * se)
        let hx := h.1
        let stat_hx := h.2
        if stat_hx = .GSL_SUCCESS then
          .ok (if hx = E.DBL_MAX then hx else 1 + hx, .GSL_SUCCESS)
        else .ok (0, stat_hx)
      else .ok (0, stat_e)
    else
      let F := hyperg_1F1_renorm_b0 E a x
      let F_renorm := F.1
      let stat_F := F.2
      if F_renorm = 0 then .ok (0, stat_F)
      else
        let sF : R := if F_renorm > 0 then 1 else -1
        let sb : R := if b > 0 then 1 else -1
        let lnr := E.log |F_renorm| - E.log |b|
        .ok (E.gsl_sf_exp_sgn_impl lnr (sF * sb))
  else if a_integer && b_integer then
    let inta : ℤ := ⌊a + 1 / 10⌋
    let intb : ℤ := ⌊b + 1 / 10⌋
    .ok (gsl_sf_hyperg_1F1_int_impl E inta intb x)
  else if b_neg_integer then .ok (0, .GSL_EDOM)
  else if (|x| < 5 ∧ |a| < 10 ∧ |b| < 10) ∨ (b > 8 / 10 * locMAX |a| 1 * |x|) then
    .ok ((E.gsl_sf_hyperg_1F1_series_impl a b x).val,
      (E.gsl_sf_hyperg_1F1_series_impl a b x).stat)
  else if (|x| < 5 ∧ |bma| < 10 ∧ |b| < 10) ∨ (b > 8 / 10 * locMAX |bma| 1 * |x|) then
    let Ex := E.exp x
    let K := E.gsl_sf_hyperg_1F1_series_impl bma b (-x)
    .ok (Ex * K.val, K.stat)
  else if x < -10 ∧ locMAX |a| 1 * locMAX |1 + a - b| 1 < 99 / 100 * |x|
      ∧ !b_neg_integer ∧ !bma_neg_integer then
    .ok (hyperg_1F1_asymp_negx E a b x)
  else if x > 10 ∧ locMAX |bma| 1 * locMAX |1 - a| 1 < 99 / 100 * |x|
      ∧ !b_neg_integer ∧ !a_neg_integer then
    .ok (hyperg_1F1_asymp_posx E a b x)
  else if b > locEPS E ∧ |bma| < E.GSL_SQRT_MACH_EPS ∧ |b| > |x| then
    let eps := bma
    let e := E.gsl_sf_exp_impl (a * x / b)
    let exab := e.1
    let stat_e := e.2
    if stat_e = .GSL_SUCCESS then
      let v2 := a / (2 * b * b * (b + 1))
      let v3 := a * (b - 2 * a) / (3 * b * b * b * (b + 1) * (b + 2))
      let v := v2 + v3 * x
      .ok (exab * (1 + eps * x * x * v), .GSL_SUCCESS)
    else .ok (0, stat_e)
  else if -1 ≤ a ∧ a ≤ 1 ∧ b > 0 then hyperg_1F1_small_a_bgt0 E fuel a b x
  else if a < 0 ∧ b > 0 then
    match hyperg_1F1_ab_pos E fuel (b - a) b (-x) with
    | .error f => .error f
    | .ok (Kummer_1F1, stat_K) =>
      if stat_K = .GSL_SUCCESS then
        if Kummer_1F1 = 0 then .ok (0, .GSL_SUCCESS)
        else
          let lnr := E.log |Kummer_1F1| + x
          .ok (E.gsl_sf_exp_sgn_impl lnr Kummer_1F1)
      else .ok (0, stat_K)
  else if a > 0 ∧ b < 0 then
    match hyperg_1F1_ab_neg (b - a) b (-x) with
    | .error f => .error f
    | .ok (Kummer_1F1, stat_K) =>
      if stat_K = .GSL_SUCCESS then
        if Kummer_1F1 = 0 then .ok (0, stat_K)
        else
          let lnr := E.log |Kummer_1F1| + x
          .ok (E.gsl_sf_exp_sgn_impl lnr Kummer_1F1)
      else .ok (0, stat_K)
  else if a < 0 ∧ b < 0 then hyperg_1F1_ab_neg a b x
  else hyperg_1F1_ab_pos E fuel a b x

/-- The branches of the if-else ladder of `gsl_sf_hyperg_1F1_impl`, in the
order of the source. -/
inductive Regime
  | x_zero
  | b_zero
  | a_zero
  | a_eq_b
  | b_tiny
  | integer_pair
  | b_neg_integer
  | series
  | kummer_series
  | asymp_negx
  | asymp_posx
  | a_near_b
  | small_a
  | kummer_pos
  | kummer_neg
  | generic_neg
  | generic_pos
  deriving DecidableEq, Repr

/-- The branch of `gsl_sf_hyperg_1F1_impl` (lines 1322-1550) that an input
selects: the tests of the ladder in the order of the source, with the name
of the branch in place of its body. -/
def gsl_sf_hyperg_1F1_regime (E : Env R) (a b x : R) : Regime :=
  let bma := b - a
  let a_integer : Bool := decide (|a - (rint a : R)| < locEPS E)
  let b_integer : Bool := decide (|b - (rint b : R)| < locEPS E)
  let bma_integer : Bool := decide (|bma - (rint bma : R)| < locEPS E)
  let b_neg_integer : Bool := decide (b < -(1 / 10)) && b_integer
  let a_neg_integer : Bool := decide (a < -(1 / 10)) && a_integer
  let bma_neg_integer : Bool := decide (bma < -(1 / 10)) && bma_integer
  if x = 0 then .x_zero
  else if b = 0 then .b_zero
  else if a = 0 then .a_zero
  else if a = b then .a_eq_b
  else if |b| < 10 * locEPS E then .b_tiny
  else if a_integer && b_integer then .integer_pair
  else if b_neg_integer then .b_neg_integer
  else if (|x| < 5 ∧ |a| < 10 ∧ |b| < 10) ∨ (b > 8 / 10 * locMAX |a| 1 * |x|) then .series
  else if (|x| < 5 ∧ |bma| < 10 ∧ |b| < 10) ∨ (b > 8 / 10 * locMAX |bma| 1 * |x|) then
    .kummer_series
  else if x < -10 ∧ locMAX |a| 1 * locMAX |1 + a - b| 1 < 99 / 100 * |x|
      ∧ !b_neg_integer ∧ !bma_neg_integer then .asymp_negx
  else if x > 10 ∧ locMAX |bma| 1 * locMAX |1 - a| 1 < 99 / 100 * |x|
      ∧ !b_neg_integer ∧ !a_neg_integer then .asymp_posx
  else if b > locEPS E ∧ |bma| < E.GSL_SQRT_MACH_EPS ∧ |b| > |x| then .a_near_b
  else if -1 ≤ a ∧ a ≤ 1 ∧ b > 0 then .small_a
  else if a < 0 ∧ b > 0 then .kummer_pos
  else if a > 0 ∧ b < 0 then .kummer_neg
  else if a < 0 ∧ b < 0 then .generic_neg
  else .generic_pos

/-- What the dispatch theorems need of the machine epsilon: it is positive
and at most 1e-5, so that `10*locEPS ≤ 0.1`. -/
def Env.EpsOK (E : Env R) : Prop :=
  0 < E.GSL_MACH_EPS ∧ E.GSL_MACH_EPS ≤ 1 / 100000

/-- Modelled from the spec: the contract of the primitive
`gsl_sf_exp_sgn_impl`, which is not among the sources (§4.7, "value' =
exp(log|M'| + x) with sign tracked separately"): when it reports success its
value is the sign of its second argument times the exponential of its first. -/
def Env.ExpSgnContract (E : Env R) : Prop :=
  ∀ u sgn : R, (E.gsl_sf_exp_sgn_impl u sgn).2 = .GSL_SUCCESS →
    (E.gsl_sf_exp_sgn_impl u sgn).1 = (if sgn ≥ 0 then 1 else -1) * E.exp u

/-- Modelled from the spec: the law of the libm functions `exp` and `log`
that the recombination "exp(log|M'| + x)" of §4.7 rests on,
exp(log k + u) = k·exp(u) for k > 0. -/
def Env.ExpLogLaw (E : Env R) : Prop :=
  ∀ k u : R, 0 < k → E.exp (E.log k + u) = k * E.exp u

/-- The running values of `hyperg_2F0_series` (`src/specfunc/hyperg_2F0.c`). -/
structure Series2F0State (R : Type) where
  an : R
  bn : R
  n : R
  sum : R
  del : R
  abs_del : R
  max_abs_del : R

/-- The `while` loop of `hyperg_2F0_series` (hyperg_2F0.c, lines 27-52).  It
leaves at the latest when `n` reaches 200; the first argument counts the
iterations left.  The overflow exit of line 32, which returns from the
function, gives `.error sum`. -/
def hyperg_2F0_series_loop (E : Env R) (x : R) :
    ℕ → Series2F0State R → Except R (Series2F0State R)
  | 0, s => .ok s
  | k + 1, s =>
    if s.abs_del / |s.sum| > E.GSL_MACH_EPS ∧ s.n < 200 then
      let u := s.an * (s.bn / s.n * x)
      let abs_u := |u|
      if abs_u > 1 ∧ s.max_abs_del > E.DBL_MAX / abs_u then .error s.sum
      else
        let del := s.del * u
        let sum := s.sum + del
        let abs_del := |del|
        let max_abs_del := locMAX abs_del s.max_abs_del
        let an := s.an + 1
        let bn := s.bn + 1
        let n := s.n + 1
        if an = 0 ∨ bn = 0 then .ok ⟨an, bn, n, sum, del, abs_del, max_abs_del⟩
        else hyperg_2F0_series_loop E x k ⟨an, bn, n, sum, del, abs_del, max_abs_del⟩
    else .ok s

/-- The asymptotic series 2F0(a,b,x) with its precision estimate
(hyperg_2F0.c, lines 13-63). -/
def hyperg_2F0_series (E : Env R) (a b x : R) : SeriesResult R :=
  match hyperg_2F0_series_loop E x 200 ⟨a, b, 1, 1, 1, 1, 1⟩ with
  | .error sum => ⟨sum, 1, .GSL_EOVRFLW⟩
  | .ok s =>
    let max_abs_del := s.max_abs_del * E.GSL_MACH_EPS
    let err := |E.GSL_MACH_EPS * s.n + max_abs_del|
    let prec := err / (err + |s.sum|)
    if prec > locEPS E then ⟨s.sum, prec, .GSL_ELOSS⟩
    else ⟨s.sum, prec, .GSL_SUCCESS⟩

/-- The branches of the if-else ladder of `gsl_sf_hyperg_1F1_int_impl`, in
the order of the source. -/
inductive IntRegime
  | x_zero
  | a_eq_b
  | b_zero
  | a_zero
  | undefined
  | asymp_posx
  | asymp_negx
  | ab_negint
  | kummer_posint
  | ab_posint
  deriving DecidableEq, Repr

/-- The branch of `gsl_sf_hyperg_1F1_int_impl` (lines 1255-1313) that an
input selects: the tests of the ladder in the order of the source, with the
name of the branch in place of its body. -/
def gsl_sf_hyperg_1F1_int_regime (a b : ℤ) (x : R) : IntRegime :=
  if x = 0 then .x_zero
  else if a = b then .a_eq_b
  else if b = 0 then .b_zero
  else if a = 0 then .a_zero
  else if b < 0 ∧ (a < b ∨ a > 0) then .undefined
  else if x > 100 ∧
      locMAX 1 |((b - a : ℤ) : R)| * locMAX 1 |((1 - a : ℤ) : R)| < 1 / 2 * x then
    .asymp_posx
  else if x < -100 ∧
      locMAX 1 |((a : ℤ) : R)| * locMAX 1 |((1 + a - b : ℤ) : R)| < 1 / 2 * |x| then
    .asymp_negx
  else if a < 0 ∧ b < 0 then .ab_negint
  else if a < 0 ∧ b > 0 then .kummer_posint
  else .ab_posint

end Defs

/-! ## Vectors of `char` (`src/vector/gsl_vector_char.h`) -/

/-- The number of values of the type `size_t`, taken as 64 bits wide. -/
def SIZE_T_MOD : ℕ := 2 ^ 64

/-- The subtraction of two `size_t` values, which wraps around. -/
def size_t_sub (a b : ℕ) : ℕ := (a + SIZE_T_MOD - b % SIZE_T_MOD) % SIZE_T_MOD

/-- The structure `gsl_vector_char` (lines 9-15): `size` and `stride` are
`size_t` values, `data` is the memory that the pointer `data` addresses, and
a `char` is an integer.  The field `parent` is not used by the accessors. -/
structure gsl_vector_char where
  size : ℕ
  stride : ℕ
  data : ℕ → ℤ

/-- Modelled from the spec: what the macros `GSL_ERROR_RETURN` and
`GSL_ERROR_RETURN_NOTHING` of `gsl_errno.h` (absent) leave behind: the status
they signal to the error handler, if any, beside the value returned. -/
structure Signalled (α : Type) where
  value : α
  err : Option Status

/-- The accessor `gsl_vector_char_ptr` (lines 45-54), with range checking
on: the offset of the element from `v->data`, or the null pointer (`none`)
and the signal `GSL_EINVAL`. -/
def gsl_vector_char_ptr (v : gsl_vector_char) (i : ℕ) : Signalled (Option ℕ) :=
  if i ≥ v.size then ⟨none, some .GSL_EINVAL⟩
  else ⟨some ((i * v.stride) % SIZE_T_MOD), none⟩

/-- The accessor `gsl_vector_char_get` (lines 58-67), with range checking
on. -/
def gsl_vector_char_get (v : gsl_vector_char) (i : ℕ) : Signalled ℤ :=
  if i ≥ v.size then ⟨0, some .GSL_EINVAL⟩
  else ⟨v.data ((i * v.stride) % SIZE_T_MOD), none⟩

/-- The accessor `gsl_vector_char_set` (lines 71-80), with range checking
on: the vector after the call and the signal. -/
def gsl_vector_char_set (v : gsl_vector_char) (i : ℕ) (c : ℤ) : Signalled gsl_vector_char :=
  if i ≥ v.size then ⟨v, some .GSL_EINVAL⟩
  else ⟨{ v with data := Function.update v.data ((i * v.stride) % SIZE_T_MOD) c }, none⟩

/-- Modelled from the spec: the Primitive Library of §2 (exponential,
logarithm, log-gamma with sign, Bessel functions, the exprel family) and the
series evaluators of `hyperg.c`, none of which is among the sources, over the
rationals.  The constants are those of IEEE double precision
(`GSL_LOG_DBL_MAX` rounded down to 709).  A transcendental function cannot be
evaluated exactly on rationals, so each one is replaced by a rational function
of low order that keeps its value at the origin (`exp 0 = 1`, `log 1 = 0`,
`lngamma 1 = lngamma 2 = 0`); the overflow and underflow guards of the
exponential primitives are kept.  It serves to run the dispatchers on
concrete inputs. -/
def ratEnv : Env ℚ where
  GSL_MACH_EPS := 1 / 2 ^ 52
  GSL_SQRT_MACH_EPS := 1 / 2 ^ 26
  GSL_LOG_DBL_MAX := 709
  GSL_SQRT_DBL_MIN := 1 / 2 ^ 511
  DBL_MAX := 2 ^ 1024 - 2 ^ 971
  INT_MAX := 2147483647
  M_PI := 355 / 113
  exp := fun x => 1 + x + x ^ 2 / 2
  log := fun x => x - 1
  sqrt := fun x => (1 + x) / 2
  sin := fun x => x
  acos := fun x => 1 - x
  gsl_sf_exp_impl := fun x =>
    if x > 709 then (0, .GSL_EOVRFLW)
    else if x < -708 then (0, .GSL_EUNDRFLW)
    else (1 + x + x ^ 2 / 2, .GSL_SUCCESS)
  gsl_sf_exp_sgn_impl := fun x sgn =>
    if x > 709 then (0, .GSL_EOVRFLW)
    else if x < -708 then (0, .GSL_EUNDRFLW)
    else ((if sgn ≥ 0 then 1 else -1) * (1 + x + x ^ 2 / 2), .GSL_SUCCESS)
  gsl_sf_expm1_impl := fun x => (x + x ^ 2 / 2, .GSL_SUCCESS)
  gsl_sf_exprel_impl := fun x => (1 + x / 2, .GSL_SUCCESS)
  gsl_sf_exprel_2_impl := fun x => (1 + x / 3, .GSL_SUCCESS)
  gsl_sf_exprel_n_impl := fun n x => (1 + x / ((n : ℚ) + 1), .GSL_SUCCESS)
  gsl_sf_lngamma_impl := fun x => ((x - 1) * (x - 2) / 2, .GSL_SUCCESS)
  gsl_sf_lngamma_sgn_impl := fun x => ⟨(x - 1) * (x - 2) / 2, 1, .GSL_SUCCESS⟩
  gsl_sf_bessel_I1_scaled_impl := fun x => (x / 2, .GSL_SUCCESS)
  gsl_sf_bessel_J1_impl := fun x => (x / 2, .GSL_SUCCESS)
  gsl_sf_bessel_Inu_scaled_impl := fun _ x => (1 + x, .GSL_SUCCESS)
  gsl_sf_hyperg_1F1_series_impl := fun a b x => ⟨1 + a / b * x, 0, .GSL_SUCCESS⟩
  gsl_sf_hyperg_2F0_series_impl := fun a b x _ => ⟨1 + a * b * x, 0, .GSL_SUCCESS⟩
  ln_F_indeterminate := 0

section DefsCF

variable {R : Type} [LinearOrderedField R] [FloorRing R]

/-- The function `hyperg_1F1_ab_posint` (lines 780-993) with the
continued-fraction evaluator it calls made a parameter `cf`: taking
`hyperg_1F1_CF1_p_ser` for `cf` gives the function back.  It serves to state
which calls of the evaluator the function depends on. -/
def hyperg_1F1_ab_posint_cf (cf : R → R → R → R × Status) (E : Env R) (a b : ℤ) (x : R) : R × Status :=
  let ax := |x|
  if a = b then E.gsl_sf_exp_impl x
  else if a = 1 then E.gsl_sf_exprel_n_impl (b - 1) x
  else if b = a + 1 then
    let K := E.gsl_sf_exprel_n_impl a (-x)
    if K.1 = 0 then (0, K.2)
    else if K.2 = .GSL_SUCCESS then
      let lK := E.log |K.1|
      let lr := lK + x
      E.gsl_sf_exp_sgn_impl lr K.1
    else (0, K.2)
  else if a = b + 1 then (E.exp x * (1 + x / (b : R)), .GSL_SUCCESS)
  else if a = b + 2 then
    (E.exp x * (1 + x / (b : R) * (2 + x / ((b + 1 : ℤ) : R))), .GSL_SUCCESS)
  else if b = 2 * a then hyperg_1F1_beq2a_pos E (a : R) x
  else if (b < 10 ∧ a < 10 ∧ ax < 5) ∨ ((b : R) > (a : R) * ax) ∨ (b > a ∧ ax < 5) then
    ((E.gsl_sf_hyperg_1F1_series_impl (a : R) (b : R) x).val,
      (E.gsl_sf_hyperg_1F1_series_impl (a : R) (b : R) x).stat)
  else if a > b then
    if x + E.log |x / (b : R)| < E.GSL_LOG_DBL_MAX - 2 then
      let ex := E.exp x
      let Mnm1 := ex
      let Mn := ex * (1 + x / (b : R))
      (hyperg_1F1_ab_posint_forward b x a (a - (b + 1)).toNat (b + 1) Mnm1 Mn, .GSL_SUCCESS)
    else (0, .GSL_EOVRFLW)
  else if 2 * a > b then
    let seeds : ℤ × R × R × ℤ :=
      if b % 2 = 0 then
        let a_start := Int.tdiv b 2 + 1
        if b = 2 then
          let r1 := E.gsl_sf_exprel_impl x
          let r2 := E.gsl_sf_exp_impl x
          (a_start, r1.1, r2.1, r1.2.code + r2.2.code)
        else
          let r1 := hyperg_1F1_beq2a_pos E ((Int.tdiv b 2 : ℤ) : R) x
          let r2 := hyperg_1F1_beq2a_pos E ((Int.tdiv b 2 + 1 : ℤ) : R) x
          let d := hyperg_1F1_diag_end_step ((Int.tdiv b 2 : ℤ) : R) (b : R) x r1.1 r2.1
          (a_start, r1.1, d.1, r1.2.code + r2.2.code + Status.GSL_SUCCESS.code)
      else
        let a_start := Int.tdiv (b + 1) 2
        if b = 1 then
          let r2 := E.gsl_sf_exp_impl x
          (a_start, 0, r2.1, r2.2.code)
        else
          let r0 := hyperg_1F1_beq2a_pos E ((Int.tdiv (b - 1) 2 : ℤ) : R) x
          let r2 := hyperg_1F1_beq2a_pos E ((Int.tdiv (b + 1) 2 : ℤ) : R) x
          let d := hyperg_1F1_diag_step ((Int.tdiv (b - 1) 2 : ℤ) : R) ((b - 1 : ℤ) : R) x r0.1 r2.1
          (a_start, d.1, d.2, r0.2.code + r2.2.code + Status.GSL_SUCCESS.code)
    let a_start := seeds.1
    let Mnm1 := seeds.2.1
    let Mn := seeds.2.2.1
    let s := seeds.2.2.2
    if s = 0 then
      (hyperg_1F1_ab_posint_forward b x a (a - a_start).toNat a_start Mnm1 Mn, .GSL_SUCCESS)
    else (0, .GSL_EFAILED)
  else if (b : R) > ((2 * a : ℤ) : R) + x then
    let cf := cf (a : R) (b : R) x
    let rap := cf.1
    let stat_CF1 := cf.2
    let ra := 1 + x / (a : R) * rap
    if stat_CF1 = .GSL_SUCCESS ∨ stat_CF1 = .GSL_EMAXITER then
      let Ma := E.GSL_SQRT_DBL_MIN
      let Map1 := ra * Ma
      let Mn := hyperg_1F1_ab_posint_backward b x a.toNat a Map1 Ma
      (Ma / Mn, stat_CF1)
    else (0, stat_CF1)
  else
    let ra : R :=
      if (b : R) > x then
        let rap := (cf (a : R) (b : R) x).1
        1 + x / (a : R) * rap
      else
        let rap_Kummer := (cf ((b - a - 1 : ℤ) : R) (b : R) (-x)).1
        let ra_Kummer := 1 + (-x / ((b - a - 1 : ℤ) : R)) * rap_Kummer
        1 / ra_Kummer
    let Ma := E.GSL_SQRT_DBL_MIN
    let Mnm1 := Ma
    let Mn := ra * Mnm1
    let Mn1 := hyperg_1F1_ab_posint_forward b x b (b - (a + 1)).toNat (a + 1) Mnm1 Mn
    (Ma / Mn1 * E.exp x, .GSL_SUCCESS)

/-- The function `hyperg_1F1_ab_pos` (lines 1074-1240) with the
continued-fraction evaluator it calls made a parameter `cf`: taking
`hyperg_1F1_CF1_p_ser` for `cf` gives the function back. -/
def hyperg_1F1_ab_pos_cf (cf : R → R → R → R × Status) (E : Env R) (fuel : ℕ) (a b x : R) : Except Fault (R × Status) :=
  let ax := |x|
  if (b < 10 ∧ a < 10 ∧ ax < 5) ∨ (b > a * ax) ∨ (b > a ∧ ax < 5) then
    .ok ((E.gsl_sf_hyperg_1F1_series_impl a b x).val,
      (E.gsl_sf_hyperg_1F1_series_impl a b x).stat)
  else if |b - a| ≤ 1 then hyperg_1F1_beps_bgt0 E fuel (a - b) b x
  else if a > b + 1 then
    if b ≥ -x then
      let N : R := ((⌊a - b⌋ : ℤ) : R)
      let eps := a - b - N
      match hyperg_1F1_beps_bgt0 E fuel (eps - 1) b x with
      | .error f => .error f
      | .ok (M0, stat_0) =>
        match hyperg_1F1_beps_bgt0 E fuel eps b x with
        | .error f => .error f
        | .ok (M1, stat_1) =>
          if stat_0 = .GSL_SUCCESS ∧ stat_1 = .GSL_SUCCESS then
            let stop := a - 1 / 10
            let start := b + eps
            .ok ((hyperg_1F1_ab_pos_forward b x stop ⌈stop - start⌉.toNat start M0 M1).2,
              .GSL_SUCCESS)
          else .ok (0, .GSL_EFAILED)
    else if b > 2 * a + x then
      let l := hyperg_1F1_luke E a b x
      .ok (l.val, l.stat)
    else
      let l := hyperg_1F1_luke E a b x
      .ok (l.val, l.stat)
  else if b > 2 * a + x then
    let cf := cf a b x
    let rap := cf.1
    let stat_CF1 := cf.2
    let ra := 1 + x / a * rap
    if stat_CF1 = .GSL_SUCCESS ∨ stat_CF1 = .GSL_EMAXITER then
      let Ma := E.GSL_SQRT_DBL_MIN
      let Map1 := ra * Ma
      let r := hyperg_1F1_ab_pos_backward b x ⌈a - 1 / 2⌉.toNat a Map1 Ma
      let n := r.1
      let Mn := r.2
      match hyperg_1F1_small_a_bgt0 E fuel n b x with
      | .error f => .error f
      | .ok (Mn_true, stat_Mt) =>
        if stat_Mt = .GSL_SUCCESS then .ok ((Ma / Mn) * Mn_true, stat_CF1)
        else .ok (0, stat_Mt)
    else .ok (0, stat_CF1)
  else
    let ra : R :=
      if b > x then
        let rap := (cf a b x).1
        1 + x / a * rap
      else
        let rap_Kummer := (cf (b - a - 1) b (-x)).1
        let ra_Kummer := 1 + (-x / (b - a - 1)) * rap_Kummer
        1 / ra_Kummer
    let Ma := E.GSL_SQRT_DBL_MIN
    let Mnm1 := Ma
    let Mn0 := ra * Mnm1
    let stop := b - 1 / 2
    let start := a + 1
    let r := hyperg_1F1_ab_pos_forward b x stop ⌈stop - start⌉.toNat start Mnm1 Mn0
    let n := r.1
    let Mn := r.2
    match hyperg_1F1_beps_bgt0 E fuel (n - b) b x with
    | .error f => .error f
    | .ok (Mn_true, stat_Mt) =>
      if stat_Mt = .GSL_SUCCESS then .ok (Ma / Mn * Mn_true, .GSL_SUCCESS)
      else .ok (0, stat_Mt)

end DefsCF

section DefsPar

variable {R : Type} [LinearOrderedField R] [FloorRing R]

/-- The forward recurrence step `Mnp1 = ((b-n)*Mnm1 + (2*n-b+x)*Mn)/n` of the
loops of `hyperg_1F1_ab_posint` and `hyperg_1F1_ab_pos` (lines 840, 895, 986,
1110, 1226). -/
def hyperg_1F1_recur_forward (b x n Mnm1 Mn : R) : R :=
  ((b - n) * Mnm1 + (2 * n - b + x) * Mn) / n

/-- The backward recurrence step `Mnm1 = (n*Mnp1 - (2*n-b+x)*Mn)/(b-n)` of
the loops of `hyperg_1F1_ab_posint` and `hyperg_1F1_ab_pos` (lines 929,
1160). -/
def hyperg_1F1_recur_backward (b x n Mnp1 Mn : R) : R :=
  (n * Mnp1 - (2 * n - b + x) * Mn) / (b - n)

/-- The loop of `hyperg_1F1_luke` (lines 152-202) with the two rescaling
branches of lines 174-201 removed: the six values are shifted and never
multiplied or divided by `RECUR_BIG`.  It is the recurrence that the
rescaled loop of the source is compared with. -/
def hyperg_1F1_luke_loop_norescale (E : Env R) (a c x x3 : R) :
    ℕ → LukeState R → LukeState R
  | 0, s => s
  | k + 1, s =>
    let nmax : ℤ := 5000
    let An := hyperg_1F1_luke_rec a c x x3 s.n s.Anm1 s.Anm2 s.Anm3
    let Bn := hyperg_1F1_luke_rec a c x x3 s.n s.Bnm1 s.Bnm2 s.Bnm3
    let r := An / Bn
    let prec := |(s.F - r) / s.F|
    if prec < E.GSL_MACH_EPS ∨ s.n > nmax then
      { s with F := r, prec := prec }
    else
      hyperg_1F1_luke_loop_norescale E a c x x3 k
        { n := s.n + 1, F := r, prec := prec,
          Bnm3 := s.Bnm2, Bnm2 := s.Bnm1, Bnm1 := Bn,
          Anm3 := s.Anm2, Anm2 := s.Anm1, Anm1 := An }

/-- Luke's rational approximation (lines 129-210) with the loop without
rescaling. -/
def hyperg_1F1_luke_norescale (E : Env R) (a c xin : R) : SeriesResult R :=
  let s := hyperg_1F1_luke_loop_norescale E a c (-xin) (-xin * -xin * -xin) 5000
    (hyperg_1F1_luke_init a c xin)
  if s.prec > 10 * locEPS E then ⟨s.F, s.prec, .GSL_ELOSS⟩
  else ⟨s.F, s.prec, .GSL_SUCCESS⟩

/-- The loop `hyperg_1F1_ab_posint_forward` with its division made a
parameter `dv`. -/
def hyperg_1F1_ab_posint_forward_par (dv : R → R → R) (b : ℤ) (x : R) (stop : ℤ) :
    ℕ → ℤ → R → R → R
  | 0, _, _, Mn => Mn
  | k + 1, n, Mnm1, Mn =>
    if n < stop then
      let Mnp1 := dv (((b - n : ℤ) : R) * Mnm1 + (((2 * n - b : ℤ) : R) + x) * Mn) (n : R)
      hyperg_1F1_ab_posint_forward_par dv b x stop k (n + 1) Mn Mnp1
    else Mn

/-- The loop `hyperg_1F1_ab_posint_backward` with its division made a
parameter `dv`. -/
def hyperg_1F1_ab_posint_backward_par (dv : R → R → R) (b : ℤ) (x : R) :
    ℕ → ℤ → R → R → R
  | 0, _, _, Mn => Mn
  | k + 1, n, Mnp1, Mn =>
    if n > 0 then
      let Mnm1 := dv ((n : R) * Mnp1 - (((2 * n - b : ℤ) : R) + x) * Mn) ((b - n : ℤ) : R)
      hyperg_1F1_ab_posint_backward_par dv b x k (n - 1) Mn Mnm1
    else Mn

/-- The function `hyperg_1F1_ab_posint` (lines 780-993) with two of its
ingredients made parameters: `dv` stands for the division in the recurrence
steps and in the seed ratios `1 + x/a*rap` and `1 + (-x/(b-a-1))*rap_Kummer`,
and `seed` for the constant `GSL_SQRT_DBL_MIN` that starts the normalised
recurrences.  Taking `/` and `GSL_SQRT_DBL_MIN` gives the function back. -/
def hyperg_1F1_ab_posint_par (dv : R → R → R) (seed : R) (E : Env R) (a b : ℤ) (x : R) :
    R × Status :=
  let ax := |x|
  if a = b then E.gsl_sf_exp_impl x
  else if a = 1 then E.gsl_sf_exprel_n_impl (b - 1) x
  else if b = a + 1 then
    let K := E.gsl_sf_exprel_n_impl a (-x)
    if K.1 = 0 then (0, K.2)
    else if K.2 = .GSL_SUCCESS then
      let lK := E.log |K.1|
      let lr := lK + x
      E.gsl_sf_exp_sgn_impl lr K.1
    else (0, K.2)
  else if a = b + 1 then (E.exp x * (1 + x / (b : R)), .GSL_SUCCESS)
  else if a = b + 2 then
    (E.exp x * (1 + x / (b : R) * (2 + x / ((b + 1 : ℤ) : R))), .GSL_SUCCESS)
  else if b = 2 * a then hyperg_1F1_beq2a_pos E (a : R) x
  else if (b < 10 ∧ a < 10 ∧ ax < 5) ∨ ((b : R) > (a : R) * ax) ∨ (b > a ∧ ax < 5) then
    ((E.gsl_sf_hyperg_1F1_series_impl (a : R) (b : R) x).val,
      (E.gsl_sf_hyperg_1F1_series_impl (a : R) (b : R) x).stat)
  else if a > b then
    if x + E.log |x / (b : R)| < E.GSL_LOG_DBL_MAX - 2 then
      let ex := E.exp x
      let Mnm1 := ex
      let Mn := ex * (1 + x / (b : R))
      (hyperg_1F1_ab_posint_forward_par dv b x a (a - (b + 1)).toNat (b + 1) Mnm1 Mn, .GSL_SUCCESS)
    else (0, .GSL_EOVRFLW)
  else if 2 * a > b then
    let seeds : ℤ × R × R × ℤ :=
      if b % 2 = 0 then
        let a_start := Int.tdiv b 2 + 1
        if b = 2 then
          let r1 := E.gsl_sf_exprel_impl x
          let r2 := E.gsl_sf_exp_impl x
          (a_start, r1.1, r2.1, r1.2.code + r2.2.code)
        else
          let r1 := hyperg_1F1_beq2a_pos E ((Int.tdiv b 2 : ℤ) : R) x
          let r2 := hyperg_1F1_beq2a_pos E ((Int.tdiv b 2 + 1 : ℤ) : R) x
          let d := hyperg_1F1_diag_end_step ((Int.tdiv b 2 : ℤ) : R) (b : R) x r1.1 r2.1
          (a_start, r1.1, d.1, r1.2.code + r2.2.code + Status.GSL_SUCCESS.code)
      else
        let a_start := Int.tdiv (b + 1) 2
        if b = 1 then
          let r2 := E.gsl_sf_exp_impl x
          (a_start, 0, r2.1, r2.2.code)
        else
          let r0 := hyperg_1F1_beq2a_pos E ((Int.tdiv (b - 1) 2 : ℤ) : R) x
          let r2 := hyperg_1F1_beq2a_pos E ((Int.tdiv (b + 1) 2 : ℤ) : R) x
          let d := hyperg_1F1_diag_step ((Int.tdiv (b - 1) 2 : ℤ) : R) ((b - 1 : ℤ) : R) x r0.1 r2.1
          (a_start, d.1, d.2, r0.2.code + r2.2.code + Status.GSL_SUCCESS.code)
    let a_start := seeds.1
    let Mnm1 := seeds.2.1
    let Mn := seeds.2.2.1
    let s := seeds.2.2.2
    if s = 0 then
      (hyperg_1F1_ab_posint_forward_par dv b x a (a - a_start).toNat a_start Mnm1 Mn, .GSL_SUCCESS)
    else (0, .GSL_EFAILED)
  else if (b : R) > ((2 * a : ℤ) : R) + x then
    let cf := hyperg_1F1_CF1_p_ser E (a : R) (b : R) x
    let rap := cf.1
    let stat_CF1 := cf.2
    let ra := 1 + dv x (a : R) * rap
    if stat_CF1 = .GSL_SUCCESS ∨ stat_CF1 = .GSL_EMAXITER then
      let Ma := seed
      let Map1 := ra * Ma
      let Mn := hyperg_1F1_ab_posint_backward_par dv b x a.toNat a Map1 Ma
      (Ma / Mn, stat_CF1)
    else (0, stat_CF1)
  else
    let ra : R :=
      if (b : R) > x then
        let rap := (hyperg_1F1_CF1_p_ser E (a : R) (b : R) x).1
        1 + dv x (a : R) * rap
      else
        let rap_Kummer := (hyperg_1F1_CF1_p_ser E ((b - a - 1 : ℤ) : R) (b : R) (-x)).1
        let ra_Kummer := 1 + dv (-x) ((b - a - 1 : ℤ) : R) * rap_Kummer
        1 / ra_Kummer
    let Ma := seed
    let Mnm1 := Ma
    let Mn := ra * Mnm1
    let Mn1 := hyperg_1F1_ab_posint_forward_par dv b x b (b - (a + 1)).toNat (a + 1) Mnm1 Mn
    (Ma / Mn1 * E.exp x, .GSL_SUCCESS)

/-- The loop `hyperg_1F1_ab_pos_forward` with its division made a parameter
`dv`. -/
def hyperg_1F1_ab_pos_forward_par (dv : R → R → R) (b x stop : R) : ℕ → R → R → R → R × R
  | 0, n, _, Mn => (n, Mn)
  | k + 1, n, Mnm1, Mn =>
    if n < stop then
      let Mnp1 := dv ((b - n) * Mnm1 + (2 * n - b + x) * Mn) n
      hyperg_1F1_ab_pos_forward_par dv b x stop k (n + 1) Mn Mnp1
    else (n, Mn)

/-- The loop `hyperg_1F1_ab_pos_backward` with its division made a parameter
`dv`. -/
def hyperg_1F1_ab_pos_backward_par (dv : R → R → R) (b x : R) : ℕ → R → R → R → R × R
  | 0, n, _, Mn => (n, Mn)
  | k + 1, n, Mnp1, Mn =>
    if n > 1 / 2 then
      let Mnm1 := dv (n * Mnp1 - (2 * n - b + x) * Mn) (b - n)
      hyperg_1F1_ab_pos_backward_par dv b x k (n - 1) Mn Mnm1
    else (n, Mn)

/-- The function `hyperg_1F1_ab_pos` (lines 1074-1240) with the same two
ingredients made parameters as in `hyperg_1F1_ab_posint_par`. -/
def hyperg_1F1_ab_pos_par (dv : R → R → R) (seed : R) (E : Env R) (fuel : ℕ) (a b x : R) :
    Except Fault (R × Status) :=
  let ax := |x|
  if (b < 10 ∧ a < 10 ∧ ax < 5) ∨ (b > a * ax) ∨ (b > a ∧ ax < 5) then
    .ok ((E.gsl_sf_hyperg_1F1_series_impl a b x).val,
      (E.gsl_sf_hyperg_1F1_series_impl a b x).stat)
  else if |b - a| ≤ 1 then hyperg_1F1_beps_bgt0 E fuel (a - b) b x
  else if a > b + 1 then
    if b ≥ -x then
      let N : R := ((⌊a - b⌋ : ℤ) : R)
      let eps := a - b - N
      match hyperg_1F1_beps_bgt0 E fuel (eps - 1) b x with
      | .error f => .error f
      | .ok (M0, stat_0) =>
        match hyperg_1F1_beps_bgt0 E fuel eps b x with
        | .error f => .error f
        | .ok (M1, stat_1) =>
          if stat_0 = .GSL_SUCCESS ∧ stat_1 = .GSL_SUCCESS then
            let stop := a - 1 / 10
            let start := b + eps
            .ok ((hyperg_1F1_ab_pos_forward_par dv b x stop ⌈stop - start⌉.toNat start M0 M1).2,
              .GSL_SUCCESS)
          else .ok (0, .GSL_EFAILED)
    else if b > 2 * a + x then
      let l := hyperg_1F1_luke E a b x
      .ok (l.val, l.stat)
    else
      let l := hyperg_1F1_luke E a b x
      .ok (l.val, l.stat)
  else if b > 2 * a + x then
    let cf := hyperg_1F1_CF1_p_ser E a b x
    let rap := cf.1
    let stat_CF1 := cf.2
    let ra := 1 + dv x a * rap
    if stat_CF1 = .GSL_SUCCESS ∨ stat_CF1 = .GSL_EMAXITER then
      let Ma := seed
      let Map1 := ra * Ma
      let r := hyperg_1F1_ab_pos_backward_par dv b x ⌈a - 1 / 2⌉.toNat a Map1 Ma
      let n := r.1
      let Mn := r.2
      match hyperg_1F1_small_a_bgt0 E fuel n b x with
      | .error f => .error f
      | .ok (Mn_true, stat_Mt) =>
        if stat_Mt = .GSL_SUCCESS then .ok ((Ma / Mn) * Mn_true, stat_CF1)
        else .ok (0, stat_Mt)
    else .ok (0, stat_CF1)
  else
    let ra : R :=
      if b > x then
        let rap := (hyperg_1F1_CF1_p_ser E a b x).1
        1 + dv x a * rap
      else
        let rap_Kummer := (hyperg_1F1_CF1_p_ser E (b - a - 1) b (-x)).1
        let ra_Kummer := 1 + dv (-x) (b - a - 1) * rap_Kummer
        1 / ra_Kummer
    let Ma := seed
    let Mnm1 := Ma
    let Mn0 := ra * Mnm1
    let stop := b - 1 / 2
    let start := a + 1
    let r := hyperg_1F1_ab_pos_forward_par dv b x stop ⌈stop - start⌉.toNat start Mnm1 Mn0
    let n := r.1
    let Mn := r.2
    match hyperg_1F1_beps_bgt0 E fuel (n - b) b x with
    | .error f => .error f
    | .ok (Mn_true, stat_Mt) =>
      if stat_Mt = .GSL_SUCCESS then .ok (Ma / Mn * Mn_true, .GSL_SUCCESS)
      else .ok (0, stat_Mt)

/-- The loop `hyperg_1F1_ab_posint_forward` with a check of each divisor:
the result is `none` as soon as a pass divides by a number that fails `P`. -/
def hyperg_1F1_ab_posint_forward_chk (P : R → Prop) [DecidablePred P] (b : ℤ) (x : R)
    (stop : ℤ) : ℕ → ℤ → R → R → Option R
  | 0, _, _, Mn => some Mn
  | k + 1, n, Mnm1, Mn =>
    if n < stop then
      if P (n : R) then
        let Mnp1 := (((b - n : ℤ) : R) * Mnm1 + (((2 * n - b : ℤ) : R) + x) * Mn) / (n : R)
        hyperg_1F1_ab_posint_forward_chk P b x stop k (n + 1) Mn Mnp1
      else none
    else some Mn

/-- The loop `hyperg_1F1_ab_posint_backward` with a check of each divisor:
the result is `none` as soon as a pass divides by a number that fails `P`. -/
def hyperg_1F1_ab_posint_backward_chk (P : R → Prop) [DecidablePred P] (b : ℤ) (x : R) :
    ℕ → ℤ → R → R → Option R
  | 0, _, _, Mn => some Mn
  | k + 1, n, Mnp1, Mn =>
    if n > 0 then
      if P ((b - n : ℤ) : R) then
        let Mnm1 := ((n : R) * Mnp1 - (((2 * n - b : ℤ) : R) + x) * Mn) / ((b - n : ℤ) : R)
        hyperg_1F1_ab_posint_backward_chk P b x k (n - 1) Mn Mnm1
      else none
    else some Mn

/-- The loop `hyperg_1F1_ab_pos_forward` with a check of each divisor: the
result is `none` as soon as a pass divides by a number that fails `P`. -/
def hyperg_1F1_ab_pos_forward_chk (P : R → Prop) [DecidablePred P] (b x stop : R) :
    ℕ → R → R → R → Option (R × R)
  | 0, n, _, Mn => some (n, Mn)
  | k + 1, n, Mnm1, Mn =>
    if n < stop then
      if P n then
        let Mnp1 := ((b - n) * Mnm1 + (2 * n - b + x) * Mn) / n
        hyperg_1F1_ab_pos_forward_chk P b x stop k (n + 1) Mn Mnp1
      else none
    else some (n, Mn)

/-- The loop `hyperg_1F1_ab_pos_backward` with a check of each divisor: the
result is `none` as soon as a pass divides by a number that fails `P`. -/
def hyperg_1F1_ab_pos_backward_chk (P : R → Prop) [DecidablePred P] (b x : R) :
    ℕ → R → R → R → Option (R × R)
  | 0, n, _, Mn => some (n, Mn)
  | k + 1, n, Mnp1, Mn =>
    if n > 1 / 2 then
      if P (b - n) then
        let Mnm1 := (n * Mnp1 - (2 * n - b + x) * Mn) / (b - n)
        hyperg_1F1_ab_pos_backward_chk P b x k (n - 1) Mn Mnm1
      else none
    else some (n, Mn)

/-- Two states of Luke's loop that agree in the counter, the ratio and the
precision, and whose six recurrence values differ by one nonzero factor. -/
def LukeState.Proportional (s t : LukeState R) : Prop :=
  s.n = t.n ∧ s.F = t.F ∧ s.prec = t.prec ∧
  ∃ lam : R, lam ≠ 0 ∧
    s.Anm1 = lam * t.Anm1 ∧ s.Anm2 = lam * t.Anm2 ∧ s.Anm3 = lam * t.Anm3 ∧
    s.Bnm1 = lam * t.Bnm1 ∧ s.Bnm2 = lam * t.Bnm2 ∧ s.Bnm3 = lam * t.Bnm3

end DefsPar

/-- The rational primitives `ratEnv` with the value `g` in the variable
`ln_F` of `hyperg_1F1_asymp_posx`, which the function reads without having
assigned it (line 82). -/
def garbageEnv (g : ℚ) : Env ℚ :=
  { ratEnv with ln_F_indeterminate := g }

/-! ## The symmetric matrix-vector kernel (`src/blas/source_symv.h`)

The file is the body of a function whose parameters (`Uplo`, `N`, `alpha`,
`A`, `lda`, `X`, `incX`, `beta`, `Y`, `incY`) come from the file that
includes it.  The arrays are functions from offsets to elements, `X` and `Y`
apart from each other; offsets are natural numbers, as they are for arrays
that lie within the range of `size_t`. -/

/-- The values of the parameter `Uplo`. -/
inductive CBLAS_UPLO
  | CblasUpper
  | CblasLower
  deriving DecidableEq, Repr

section DefsBlas

variable {R : Type} [CommRing R]

/-- The loop `for(i=0; i<N; i++)` of lines 10-13, which scales `Y` by
`beta`.  The first argument counts the iterations left. -/
def source_symv_scale (N : ℕ) (beta : R) (incY : ℕ) : ℕ → ℕ → ℕ → (ℕ → R) → (ℕ → R)
  | 0, _, _, Y => Y
  | k + 1, i, iy, Y =>
    if i < N then
      source_symv_scale N beta incY k (i + 1) (iy + incY) (Function.update Y iy (Y iy * beta))
    else Y

/-- The inner loop `for(i=j+1; i<N; i++)` of the upper case (lines 24-29);
returns `Y` and `tmp2`. -/
def source_symv_upper_inner (N : ℕ) (A X : ℕ → R) (lda incX incY j : ℕ) (tmp1 : R) :
    ℕ → ℕ → ℕ → ℕ → (ℕ → R) → R → (ℕ → R) × R
  | 0, _, _, _, Y, tmp2 => (Y, tmp2)
  | k + 1, i, ix, iy, Y, tmp2 =>
    if i < N then
      let ix1 := ix + incX
      let iy1 := iy + incY
      let Y1 := Function.update Y iy1 (Y iy1 + tmp1 * A (lda * j + i))
      let tmp21 := tmp2 + A (lda * j + i) * X ix1
      source_symv_upper_inner N A X lda incX incY j tmp1 k (i + 1) ix1 iy1 Y1 tmp21
    else (Y, tmp2)

/-- The outer loop `for(j=0; j<N; j++)` of the upper case (lines 18-33). -/
def source_symv_upper (N : ℕ) (alpha : R) (A X : ℕ → R) (lda incX incY : ℕ) :
    ℕ → ℕ → ℕ → ℕ → (ℕ → R) → (ℕ → R)
  | 0, _, _, _, Y => Y
  | k + 1, j, jx, jy, Y =>
    if j < N then
      let tmp1 := alpha * X jx
      let Y1 := Function.update Y jy (Y jy + tmp1 * A (lda * j + j))
      let r := source_symv_upper_inner N A X lda incX incY j tmp1 N (j + 1) jx jy Y1 0
      let Y2 := Function.update r.1 jy (r.1 jy + alpha * r.2)
      source_symv_upper N alpha A X lda incX incY k (j + 1) (jx + incX) (jy + incY) Y2
    else Y

/-- The inner loop `for(i=0; i<j; i++)` of the lower case (lines 43-48);
returns `Y` and `tmp2`. -/
def source_symv_lower_inner (A X : ℕ → R) (lda incX incY j : ℕ) (tmp1 : R) :
    ℕ → ℕ → ℕ → ℕ → (ℕ → R) → R → (ℕ → R) × R
  | 0, _, _, _, Y, tmp2 => (Y, tmp2)
  | k + 1, i, ix, iy, Y, tmp2 =>
    if i < j then
      let Y1 := Function.update Y iy (Y iy + tmp1 * A (lda * j + i))
      let tmp21 := tmp2 + A (lda * j + i) * X ix
      source_symv_lower_inner A X lda incX incY j tmp1 k (i + 1) (ix + incX) (iy + incY)
        Y1 tmp21
    else (Y, tmp2)

/-- The outer loop `for(j=0; j<N; j++)` of the lower case (lines 38-52). -/
def source_symv_lower (N : ℕ) (alpha : R) (A X : ℕ → R) (lda incX incY : ℕ) :
    ℕ → ℕ → ℕ → ℕ → (ℕ → R) → (ℕ → R)
  | 0, _, _, _, Y => Y
  | k + 1, j, jx, jy, Y =>
    if j < N then
      let tmp1 := alpha * X jx
      let r := source_symv_lower_inner A X lda incX incY j tmp1 j 0 0 0 Y 0
      let Y2 := Function.update r.1 jy (r.1 jy + (tmp1 * A (lda * j + j) + alpha * r.2))
      source_symv_lower N alpha A X lda incX incY k (j + 1) (jx + incX) (jy + incY) Y2
    else Y

/-- The kernel `source_symv.h` (lines 6-53): the array `Y` it leaves. -/
def source_symv (Uplo : CBLAS_UPLO) (N : ℕ) (alpha : R) (A : ℕ → R) (lda : ℕ) (X : ℕ → R)
    (incX : ℕ) (beta : R) (Y : ℕ → R) (incY : ℕ) : ℕ → R :=
  let Y0 := source_symv_scale N beta incY N 0 0 Y
  if Uplo = .CblasUpper then source_symv_upper N alpha A X lda incX incY N 0 0 0 Y0
  else source_symv_lower N alpha A X lda incX incY N 0 0 0 Y0

end DefsBlas

/-- Modelled from the spec: the rational primitives `ratEnv` with a
convergent series evaluator `gsl_sf_hyperg_1F1_series_impl` (absent from the
sources) that reports a loss of precision, as §4.2 says it does when its
iteration cap is reached without convergence. -/
def lossEnv : Env ℚ :=
  { ratEnv with
    gsl_sf_hyperg_1F1_series_impl := fun a b x => ⟨1 + a / b * x, 1 / 100, .GSL_ELOSS⟩ }

/-- Modelled from the spec: the rational primitives `ratEnv` with the series
of `hyperg_2F0.c` in the place of the absent `gsl_sf_hyperg_2F0_series_impl`
(§4.3, "the series itself signals loss-of-precision or overflow"); the
truncation argument is not used. -/
def seriesEnv : Env ℚ :=
  { ratEnv with
    gsl_sf_hyperg_2F0_series_impl := fun a b x _ => hyperg_2F0_series ratEnv a b x }

/-! ## Integer enclosures for Luke's recurrence

The loop of `hyperg_1F1_luke` leaves at its cap only after 4999 passes, and
the exact rationals it goes through grow by some fifty bits a pass.  To decide
on which side of a bound the relative change of the last pass lies, the
functions below carry, in place of the six recurrence values, lower and upper
bounds in natural numbers for the values times a common positive factor, and
round them outwards to a fixed length.  They apply to inputs where `a`, `c`
and `-x` are natural numbers and all recurrence values are positive, and give
up (`none`) as soon as a bound does not decide a test. -/

/-- Bounds for the state of the loop of `hyperg_1F1_luke`: for the numerator
and the denominator of a fraction equal to `F` (`fa`, `fb`), and for
`Anm1`, `Anm2`, `Anm3`, `Bnm1`, `Bnm2`, `Bnm3` times a common positive
factor; `l` marks a lower and `h` an upper bound. -/
structure LukeBox where
  n : ℕ
  fal : ℕ
  fah : ℕ
  fbl : ℕ
  fbh : ℕ
  a1l : ℕ
  a1h : ℕ
  a2l : ℕ
  a2h : ℕ
  a3l : ℕ
  a3h : ℕ
  b1l : ℕ
  b1h : ℕ
  b2l : ℕ
  b2h : ℕ
  b3l : ℕ
  b3h : ℕ

/-- Bounds for `D·An` and `D·Bn`, where `D` is the common denominator of the
coefficients of the recurrence at `n`; `ok` says that the coefficients have
the signs the bounds rely on. -/
structure LukeNew where
  ok : Bool
  D : ℕ
  anl : ℕ
  anh : ℕ
  bnl : ℕ
  bnh : ℕ

/-- One pass of the recurrence on bounds.  With `D` the product of the
denominators of `F1`, `F2`, `F3`, `E` of lines 161-164, the coefficients
`D·(1 + F1·x)` and `D·(E + F2·x)·x` are natural numbers and `D·F3·x³` is the
negative of one when `n ≥ 3`, `n ≥ a + 2`, `n ≥ c + 1` and `Qm ≤ Qp`. -/
def lukeBoxNew (a c x : ℕ) (b : LukeBox) : LukeNew :=
  let n := b.n
  let t1 := 2 * n - 1
  let t3 := 2 * n - 3
  let t5 := 2 * n - 5
  let m1 := n + c - 1
  let m2 := n + c - 2
  let m3 := n + c - 3
  let q1 := n + a - 1
  let q2 := n + a - 2
  let d := n - a - 2
  let e := n - c - 1
  let K := t3 * t5 * m3
  let D := 8 * t1 * t3 * K * m2 * m1
  let P := (2 * t3 * m1 + d * x) * (4 * t1 * K * m2)
  let Qp := (n + a) * q1 * x * (2 * K)
  let Qm := q1 * e * (4 * t1 * K)
  let Q := x * (Qp - Qm)
  let Rn := q2 * q1 * d * t1 * (x * x * x)
  { ok := Nat.ble 3 n && Nat.ble (a + 2) n && Nat.ble (c + 1) n && Nat.ble Qm Qp
      && Nat.blt 0 D,
    D := D,
    anl := P * b.a1l + Q * b.a2l - Rn * b.a3h,
    anh := P * b.a1h + Q * b.a2h - Rn * b.a3l,
    bnl := P * b.b1l + Q * b.b2l - Rn * b.b3h,
    bnh := P * b.b1h + Q * b.b2h - Rn * b.b3l }

/-- One pass of the loop of `hyperg_1F1_luke` on bounds, for a pass that
goes on: the bounds show `n ≤ nmax` and a relative change of at least `1/M`
(`M` the reciprocal of `GSL_MACH_EPS`).  The new bounds are divided by `W`
once they reach `T`, and rounded outwards. -/
def lukeBoxStep (a c x T W M : ℕ) (b : LukeBox) : Option LukeBox :=
  let v := lukeBoxNew a c x b
  let alo := (v.bnl * b.fal - v.anh * b.fbh) + (v.anl * b.fbl - v.bnh * b.fah)
  let dhi := v.bnh * b.fah
  if v.ok && Nat.blt 0 v.anl && Nat.blt 0 v.bnl && Nat.blt 0 b.fal && Nat.blt 0 b.fbl
      && Nat.ble b.n 5000 && Nat.ble dhi (alo * M) && Nat.blt 0 W then
    let S := if Nat.ble T v.bnh then W else 1
    let a1l := v.anl / S
    let a1h := (v.anh + (S - 1)) / S
    let b1l := v.bnl / S
    let b1h := (v.bnh + (S - 1)) / S
    some { n := b.n + 1, fal := a1l, fah := a1h, fbl := b1l, fbh := b1h,
           a1l := a1l, a1h := a1h,
           a2l := v.D * b.a1l / S, a2h := (v.D * b.a1h + (S - 1)) / S,
           a3l := v.D * b.a2l / S, a3h := (v.D * b.a2h + (S - 1)) / S,
           b1l := b1l, b1h := b1h,
           b2l := v.D * b.b1l / S, b2h := (v.D * b.b1h + (S - 1)) / S,
           b3l := v.D * b.b2l / S, b3h := (v.D * b.b2h + (S - 1)) / S }
  else none

/-- The bounds after `k` passes that go on. -/
def lukeBoxRun (a c x T W M : ℕ) : ℕ → LukeBox → Option LukeBox
  | 0, b => some b
  | k + 1, b =>
    match lukeBoxStep a c x T W M b with
    | none => none
    | some b' => lukeBoxRun a c x T W M k b'

/-- The bounds after `j` rounds of `m` passes that go on. -/
def lukeBoxRuns (a c x T W M m : ℕ) : ℕ → LukeBox → Option LukeBox
  | 0, b => some b
  | j + 1, b =>
    match lukeBoxRun a c x T W M m b with
    | none => none
    | some b' => lukeBoxRuns a c x T W M m j b'

/-- The pass that leaves the loop at the cap `n > nmax`, on bounds: whether
they show that the relative change `|F - r|/|F|` of this pass is above
`loN/loD` and at most `hiN/hiD`. -/
def lukeBoxLast (a c x : ℕ) (b : LukeBox) (loN loD hiN hiD : ℕ) : Bool :=
  let v := lukeBoxNew a c x b
  let alo := (v.bnl * b.fal - v.anh * b.fbh) + (v.anl * b.fbl - v.bnh * b.fah)
  let ahi := (v.bnh * b.fah - v.anl * b.fbl) + (v.anh * b.fbh - v.bnl * b.fal)
  let dlo := v.bnl * b.fal
  let dhi := v.bnh * b.fah
  v.ok && Nat.blt 0 v.anl && Nat.blt 0 v.bnl && Nat.blt 0 b.fal && Nat.blt 0 b.fbl
    && Nat.blt 5000 b.n && Nat.blt (loN * dhi) (alo * loD) && Nat.ble (ahi * hiD) (hiN * dlo)

/-- Whether the bounds show that the loop, started within `b0`, goes on for
`j` rounds of `m` passes and then leaves at the cap with a relative change
above `loN/loD` and at most `hiN/hiD`. -/
def lukeBoxCheck (a c x T W M m j : ℕ) (b0 : LukeBox) (loN loD hiN hiD : ℕ) : Bool :=
  match lukeBoxRuns a c x T W M m j b0 with
  | none => false
  | some b => lukeBoxLast a c x b loN loD hiN hiD

/-- What the bounds `b` say of a state `s` of the loop of `hyperg_1F1_luke`. -/
def LukeBox.Holds {R : Type} [LinearOrderedField R] (b : LukeBox) (s : LukeState R) : Prop :=
  s.n = (b.n : ℤ) ∧ ∃ μ fa fb : R, 0 < μ ∧ s.F = fa / fb ∧
    ((b.fal : R) ≤ fa ∧ fa ≤ (b.fah : R)) ∧ ((b.fbl : R) ≤ fb ∧ fb ≤ (b.fbh : R)) ∧
    ((b.a1l : R) ≤ μ * s.Anm1 ∧ μ * s.Anm1 ≤ (b.a1h : R)) ∧
    ((b.a2l : R) ≤ μ * s.Anm2 ∧ μ * s.Anm2 ≤ (b.a2h : R)) ∧
    ((b.a3l : R) ≤ μ * s.Anm3 ∧ μ * s.Anm3 ≤ (b.a3h : R)) ∧
    ((b.b1l : R) ≤ μ * s.Bnm1 ∧ μ * s.Bnm1 ≤ (b.b1h : R)) ∧
    ((b.b2l : R) ≤ μ * s.Bnm2 ∧ μ * s.Bnm2 ≤ (b.b2h : R)) ∧
    ((b.b3l : R) ≤ μ * s.Bnm3 ∧ μ * s.Bnm3 ≤ (b.b3h : R))

/-- The bounds on entering the loop at `a = 1`, `c = 2` and the argument
`-x`: the six values of `hyperg_1F1_luke_init`, which are `1`, `1`, `1`,
`1 + x/2 + x²/12`, `1 + x/2`, `1`, times 12, and `F = 1/1`. -/
def lukeBoxInit_1_2 (x : ℕ) : LukeBox :=
  { n := 3, fal := 1, fah := 1, fbl := 1, fbh := 1,
    a1l := 12, a1h := 12, a2l := 12, a2h := 12, a3l := 12, a3h := 12,
    b1l := 12 + 6 * x + x * x, b1h := 12 + 6 * x + x * x,
    b2l := 12 + 6 * x, b2h := 12 + 6 * x, b3l := 12, b3h := 12 }

/-! ## Properties of the dispatchers -/

section EpsLemmas

variable {R : Type} [LinearOrderedField R]

theorem locEPS_pos (E : Env R) (h : E.EpsOK) : 0 < locEPS E := by
  have := h.1
  unfold locEPS
  linarith

theorem locEPS_le (E : Env R) (h : E.EpsOK) : 10 * locEPS E ≤ 1 / 10 := by
  have := h.2
  unfold locEPS
  linarith

theorem ratEnv_EpsOK : ratEnv.EpsOK := by
  constructor <;> norm_num [ratEnv]

/-- At `x = 0` the integer dispatcher returns 1 whatever `a` and `b` are. -/
theorem int_impl_x_zero (E : Env R) (a b : ℤ) :
    gsl_sf_hyperg_1F1_int_impl E a b (0 : R) = (1, .GSL_SUCCESS) := by
  simp [gsl_sf_hyperg_1F1_int_impl]

/-- A nonzero integer passed as a double is not caught by the test
`fabs(b) < 10.0*locEPS`. -/
theorem not_tiny_of_int (E : Env R) (h : E.EpsOK) (b : ℤ) (hb : b ≠ 0) :
    ¬ |((b : ℤ) : R)| < 10 * locEPS E := by
  have h1 := locEPS_le E h
  have h2 : (1 : R) ≤ |((b : ℤ) : R)| := by
    have : (1 : ℤ) ≤ |b| := Int.one_le_abs hb
    have h3 : ((1 : ℤ) : R) ≤ ((|b| : ℤ) : R) := by exact_mod_cast this
    simpa using h3
  intro h3
  linarith

end EpsLemmas

section Lemmas

variable {R : Type} [LinearOrderedField R] [FloorRing R]

/-- The function `rint` fixes every integer. -/
theorem rint_intCast (n : ℤ) : rint ((n : ℤ) : R) = n := by
  simp [rint]

/-- The conversion `floor(a + 0.1)` recovers an integer passed as a double. -/
theorem floor_intCast_add_tenth (n : ℤ) : ⌊((n : ℤ) : R) + 1 / 10⌋ = n := by
  rw [Int.floor_eq_iff]
  constructor
  · linarith
  · linarith

/-- The integer `rint x` is at most one half away from `x`. -/
theorem abs_sub_rint_le_half (x : R) : |x - (rint x : R)| ≤ 1 / 2 := by
  have h0 := Int.floor_le x
  have h1 := Int.lt_floor_add_one x
  unfold rint
  simp only
  split_ifs with h2 h3 h4
  · rw [abs_le]; constructor <;> linarith
  · rw [abs_le]; push_cast; constructor <;> linarith
  · rw [abs_le]; constructor <;> linarith
  · rw [abs_le]; push_cast; constructor <;> linarith

/-- The integer `rint x` is a nearest integer to `x`. -/
theorem abs_sub_rint_le (x : R) (n : ℤ) : |x - (rint x : R)| ≤ |x - (n : R)| := by
  have h0 := Int.floor_le x
  have h1 := Int.lt_floor_add_one x
  rcases le_or_lt n ⌊x⌋ with hn | hn
  · have hn' : (n : R) ≤ (⌊x⌋ : R) := by exact_mod_cast hn
    have e : |x - (n : R)| = x - n := abs_of_nonneg (by linarith)
    rw [e]
    unfold rint
    simp only
    split_ifs with h2 h3 h4
    · rw [abs_le]; constructor <;> linarith
    · rw [abs_le]; push_cast; constructor <;> linarith
    · rw [abs_le]; constructor <;> linarith
    · rw [abs_le]; push_cast; constructor <;> linarith
  · have hn1 : ⌊x⌋ + 1 ≤ n := hn
    have hn' : ((⌊x⌋ : R)) + 1 ≤ (n : R) := by exact_mod_cast hn1
    have e : |x - (n : R)| = n - x := by
      rw [abs_sub_comm]; exact abs_of_nonneg (by linarith)
    rw [e]
    unfold rint
    simp only
    split_ifs with h2 h3 h4
    · rw [abs_le]; constructor <;> linarith
    · rw [abs_le]; push_cast; constructor <;> linarith
    · rw [abs_le]; constructor <;> linarith
    · rw [abs_le]; push_cast; constructor <;> linarith

/-- The test `fabs(a - rint(a)) < locEPS` of the dispatcher holds exactly
when `a` lies within `locEPS` of some integer. -/
theorem near_integer_iff (E : Env R) (a : R) :
    |a - (rint a : R)| < locEPS E ↔ ∃ n : ℤ, |a - (n : R)| < locEPS E := by
  constructor
  · intro h
    exact ⟨rint a, h⟩
  · rintro ⟨n, hn⟩
    exact lt_of_le_of_lt (abs_sub_rint_le a n) hn

/-- At `x = 0` the real dispatcher returns 1 whatever `a` and `b` are. -/
theorem impl_x_zero (E : Env R) (fuel : ℕ) (a b : R) :
    gsl_sf_hyperg_1F1_impl E fuel a b 0 = .ok (1, .GSL_SUCCESS) := by
  simp [gsl_sf_hyperg_1F1_impl]

/-- For `x ≠ 0` and `b = 0` the real dispatcher reports a domain error. -/
theorem impl_b_zero (E : Env R) (fuel : ℕ) (a x : R) (hx : x ≠ 0) :
    gsl_sf_hyperg_1F1_impl E fuel a 0 x = .ok (0, .GSL_EDOM) := by
  simp [gsl_sf_hyperg_1F1_impl, hx]

/-- For `x ≠ 0`, `b ≠ 0` and `a = b` the real dispatcher returns what the
exponential primitive returns. -/
theorem impl_a_eq_b (E : Env R) (fuel : ℕ) (a x : R) (hx : x ≠ 0) (ha : a ≠ 0) :
    gsl_sf_hyperg_1F1_impl E fuel a a x = .ok (E.gsl_sf_exp_impl x) := by
  simp [gsl_sf_hyperg_1F1_impl, hx, ha]

/-- For integers `a ≠ b`, both nonzero, and `x ≠ 0` the real dispatcher
called on `(double)a`, `(double)b` hands over to the integer dispatcher with
`inta = a` and `intb = b`. -/
theorem impl_intCast (E : Env R) (h : E.EpsOK) (fuel : ℕ) (a b : ℤ) (x : R)
    (hx : x ≠ 0) (ha : a ≠ 0) (hb : b ≠ 0) (hab : a ≠ b) :
    gsl_sf_hyperg_1F1_impl E fuel ((a : ℤ) : R) ((b : ℤ) : R) x
      = .ok (gsl_sf_hyperg_1F1_int_impl E a b x) := by
  have hpos := locEPS_pos E h
  have htiny := not_tiny_of_int E h b hb
  have ha' : ((a : ℤ) : R) ≠ 0 := by exact_mod_cast ha
  have hb' : ((b : ℤ) : R) ≠ 0 := by exact_mod_cast hb
  have hab' : ((a : ℤ) : R) ≠ ((b : ℤ) : R) := by exact_mod_cast hab
  have fa := floor_intCast_add_tenth (R := R) a
  have fb := floor_intCast_add_tenth (R := R) b
  simp only [one_div] at fa fb
  simp [gsl_sf_hyperg_1F1_impl, hx, ha', hb', hab', htiny, rint_intCast, hpos, fa, fb]

/-- Away from `a = b = 0` the two dispatchers agree: for integers `a`, `b`
not both zero, or at `x = 0`, the real dispatcher called on `(double)a`,
`(double)b` returns what the integer dispatcher returns. -/
theorem impl_intCast_consistent (E : Env R) (h : E.EpsOK) (fuel : ℕ) (a b : ℤ) (x : R)
    (hne : a ≠ 0 ∨ b ≠ 0 ∨ x = 0) :
    gsl_sf_hyperg_1F1_impl E fuel ((a : ℤ) : R) ((b : ℤ) : R) x
      = .ok (gsl_sf_hyperg_1F1_int_impl E a b x) := by
  by_cases hx : x = 0
  · subst hx
    rw [impl_x_zero, int_impl_x_zero]
  by_cases hb : b = 0
  · subst hb
    have ha : a ≠ 0 := by
      rcases hne with h1 | h1 | h1
      · exact h1
      · exact absurd rfl h1
      · exact absurd h1 hx
    have e := impl_b_zero E fuel ((a : ℤ) : R) x hx
    simp only [Int.cast_zero]
    rw [e]
    simp [gsl_sf_hyperg_1F1_int_impl, hx, ha]
  by_cases ha : a = 0
  · subst ha
    have hb' : ((b : ℤ) : R) ≠ 0 := by exact_mod_cast hb
    have hb2 : (0 : ℤ) ≠ b := fun hh => hb hh.symm
    simp [gsl_sf_hyperg_1F1_impl, gsl_sf_hyperg_1F1_int_impl, hx, hb, hb', hb2]
  by_cases hab : a = b
  · subst hab
    have ha' : ((a : ℤ) : R) ≠ 0 := by exact_mod_cast ha
    rw [impl_a_eq_b E fuel _ x hx ha']
    simp [gsl_sf_hyperg_1F1_int_impl, hx]
  exact impl_intCast E h fuel a b x hx ha hb hab

/-- No number `m + 1/2` with `m` an integer lies within `locEPS` of an
integer. -/
theorem half_integer_not_near (E : Env R) (h : E.EpsOK) (m : ℤ) :
    ¬ |((m : ℤ) : R) + 1 / 2 - (rint (((m : ℤ) : R) + 1 / 2) : R)| < locEPS E := by
  have hle := locEPS_le E h
  intro hh
  rw [abs_lt] at hh
  rcases le_or_lt (rint (((m : ℤ) : R) + 1 / 2)) m with h0 | h0
  · have : ((rint (((m : ℤ) : R) + 1 / 2) : ℤ) : R) ≤ (m : R) := by exact_mod_cast h0
    linarith [hh.2]
  · have h1 : m + 1 ≤ rint (((m : ℤ) : R) + 1 / 2) := h0
    have : ((m : ℤ) : R) + 1 ≤ ((rint (((m : ℤ) : R) + 1 / 2) : ℤ) : R) := by exact_mod_cast h1
    linarith [hh.1]

/-- The input `a = 20.5`, `b = -3.5`, `x = 6` passes every test of the real
dispatcher down to `a > 0.0 && b < 0.0` and is handed to `hyperg_1F1_ab_neg`,
which returns nothing. -/
theorem impl_generic_negative_example (E : Env R) (h : E.EpsOK) (fuel : ℕ) :
    gsl_sf_hyperg_1F1_impl E fuel (41 / 2) (-7 / 2) 6 = .error .noReturn := by
  have hpos := locEPS_pos E h
  have hle := locEPS_le E h
  have ha := half_integer_not_near E h 20
  have hb := half_integer_not_near E h (-4)
  have ea : ((20 : ℤ) : R) + 1 / 2 = 41 / 2 := by norm_num
  have eb : (((-4 : ℤ) : ℤ) : R) + 1 / 2 = -7 / 2 := by norm_num
  rw [ea] at ha
  rw [eb] at hb
  have a1 : |(41 / 2 : R)| = 41 / 2 := abs_of_pos (by norm_num)
  have a2 : |(-7 / 2 : R)| = 7 / 2 := by
    rw [abs_of_neg (by norm_num)]; norm_num
  have a3 : |(6 : R)| = 6 := abs_of_pos (by norm_num)
  have a4 : |(-7 / 2 - 41 / 2 : R)| = 24 := by
    rw [abs_of_neg (by norm_num)]; norm_num
  have htiny : ¬ (7 / 2 : R) < 10 * locEPS E := by
    intro hh; linarith
  have hb1 : ¬ ((0 : R) < locEPS E ∧ (-7 / 2 : R) > locEPS E) := by
    rintro ⟨_, h2⟩; linarith
  have hb2 : ¬ (-7 / 2 : R) > locEPS E := by
    intro h2; linarith
  unfold gsl_sf_hyperg_1F1_impl hyperg_1F1_ab_neg
  simp only [a1, a2, a3, a4, ha, hb, locMAX]
  norm_num [htiny, hb2]

/-- One rung of an if-else ladder: if the ladder's value is not that of the
first branch, the first test fails and the value is that of the rest. -/
theorem ite_else_of_ne {α : Type} {p : Prop} [Decidable p] {v rest r : α}
    (h : (if p then v else rest) = r) (hv : v ≠ r) : ¬ p ∧ rest = r := by
  by_cases hp : p
  · rw [if_pos hp] at h; exact absurd h hv
  · rw [if_neg hp] at h; exact ⟨hp, h⟩

/-- In the branch `a < 0.0 && b > 0.0` the real dispatcher returns what the
source computes from the reflected call `hyperg_1F1_ab_pos(b-a, b, -x)`
(lines 1503-1518), and the guard of the branch holds. -/
theorem impl_of_regime_kummer_pos (E : Env R) (fuel : ℕ) (a b x : R)
    (hreg : gsl_sf_hyperg_1F1_regime E a b x = .kummer_pos) :
    (a < 0 ∧ b > 0) ∧
    gsl_sf_hyperg_1F1_impl E fuel a b x =
      match hyperg_1F1_ab_pos E fuel (b - a) b (-x) with
      | .error f => .error f
      | .ok (Kummer_1F1, stat_K) =>
        if stat_K = .GSL_SUCCESS then
          if Kummer_1F1 = 0 then .ok (0, .GSL_SUCCESS)
          else .ok (E.gsl_sf_exp_sgn_impl (E.log |Kummer_1F1| + x) Kummer_1F1)
        else .ok (0, stat_K) := by
  unfold gsl_sf_hyperg_1F1_regime at hreg
  obtain ⟨h1, hreg⟩ := ite_else_of_ne hreg (by decide)
  obtain ⟨h2, hreg⟩ := ite_else_of_ne hreg (by decide)
  obtain ⟨h3, hreg⟩ := ite_else_of_ne hreg (by decide)
  obtain ⟨h4, hreg⟩ := ite_else_of_ne hreg (by decide)
  obtain ⟨h5, hreg⟩ := ite_else_of_ne hreg (by decide)
  obtain ⟨h6, hreg⟩ := ite_else_of_ne hreg (by decide)
  obtain ⟨h7, hreg⟩ := ite_else_of_ne hreg (by decide)
  obtain ⟨h8, hreg⟩ := ite_else_of_ne hreg (by decide)
  obtain ⟨h9, hreg⟩ := ite_else_of_ne hreg (by decide)
  obtain ⟨h10, hreg⟩ := ite_else_of_ne hreg (by decide)
  obtain ⟨h11, hreg⟩ := ite_else_of_ne hreg (by decide)
  obtain ⟨h12, hreg⟩ := ite_else_of_ne hreg (by decide)
  obtain ⟨h13, hreg⟩ := ite_else_of_ne hreg (by decide)
  by_cases h14 : a < 0 ∧ b > 0
  · refine ⟨h14, ?_⟩
    unfold gsl_sf_hyperg_1F1_impl
    dsimp only
    rw [if_neg h1, if_neg h2, if_neg h3, if_neg h4, if_neg h5, if_neg h6, if_neg h7, if_neg h8,
      if_neg h9, if_neg h10, if_neg h11, if_neg h12, if_neg h13, if_pos h14]
  · rw [if_neg h14] at hreg
    obtain ⟨_, hreg⟩ := ite_else_of_ne hreg (by decide)
    obtain ⟨_, hreg⟩ := ite_else_of_ne hreg (by decide)
    exact absurd hreg (by decide)

/-- In the branches `a > 0.0 && b < 0.0` and `a < 0.0 && b < 0.0` the real
dispatcher calls `hyperg_1F1_ab_neg` (lines 1524 and 1543) and so comes back
with no value and no status. -/
theorem impl_of_regime_negative (E : Env R) (fuel : ℕ) (a b x : R) (r : Regime)
    (hr : r = .kummer_neg ∨ r = .generic_neg)
    (hreg : gsl_sf_hyperg_1F1_regime E a b x = r) :
    gsl_sf_hyperg_1F1_impl E fuel a b x = .error .noReturn := by
  have d : ∀ r' : Regime, r' ≠ .kummer_neg → r' ≠ .generic_neg → r' ≠ r := by
    intro r' h1 h2 h3
    rcases hr with hr | hr
    · exact h1 (h3.trans hr)
    · exact h2 (h3.trans hr)
  unfold gsl_sf_hyperg_1F1_regime at hreg
  obtain ⟨h1, hreg⟩ := ite_else_of_ne hreg (d _ (by decide) (by decide))
  obtain ⟨h2, hreg⟩ := ite_else_of_ne hreg (d _ (by decide) (by decide))
  obtain ⟨h3, hreg⟩ := ite_else_of_ne hreg (d _ (by decide) (by decide))
  obtain ⟨h4, hreg⟩ := ite_else_of_ne hreg (d _ (by decide) (by decide))
  obtain ⟨h5, hreg⟩ := ite_else_of_ne hreg (d _ (by decide) (by decide))
  obtain ⟨h6, hreg⟩ := ite_else_of_ne hreg (d _ (by decide) (by decide))
  obtain ⟨h7, hreg⟩ := ite_else_of_ne hreg (d _ (by decide) (by decide))
  obtain ⟨h8, hreg⟩ := ite_else_of_ne hreg (d _ (by decide) (by decide))
  obtain ⟨h9, hreg⟩ := ite_else_of_ne hreg (d _ (by decide) (by decide))
  obtain ⟨h10, hreg⟩ := ite_else_of_ne hreg (d _ (by decide) (by decide))
  obtain ⟨h11, hreg⟩ := ite_else_of_ne hreg (d _ (by decide) (by decide))
  obtain ⟨h12, hreg⟩ := ite_else_of_ne hreg (d _ (by decide) (by decide))
  obtain ⟨h13, hreg⟩ := ite_else_of_ne hreg (d _ (by decide) (by decide))
  obtain ⟨h14, hreg⟩ := ite_else_of_ne hreg (d _ (by decide) (by decide))
  unfold gsl_sf_hyperg_1F1_impl
  dsimp only
  rw [if_neg h1, if_neg h2, if_neg h3, if_neg h4, if_neg h5, if_neg h6, if_neg h7, if_neg h8,
    if_neg h9, if_neg h10, if_neg h11, if_neg h12, if_neg h13, if_neg h14]
  by_cases h15 : a > 0 ∧ b < 0
  · rw [if_pos h15]; rfl
  · rw [if_neg h15] at hreg ⊢
    by_cases h16 : a < 0 ∧ b < 0
    · rw [if_pos h16]; rfl
    · rw [if_neg h16] at hreg
      exact absurd hreg (d _ (by decide) (by decide))

/-- The input `a = -2.5`, `b = 8`, `x = 5` selects the branch
`a < 0.0 && b > 0.0`. -/
theorem regime_kummer_pos_example (E : Env R) (h : E.EpsOK) (hs : E.GSL_SQRT_MACH_EPS ≤ 1) :
    gsl_sf_hyperg_1F1_regime E (-5 / 2) 8 5 = .kummer_pos := by
  have hpos := locEPS_pos E h
  have hle := locEPS_le E h
  have ha := half_integer_not_near E h (-3)
  have ea : (((-3 : ℤ) : ℤ) : R) + 1 / 2 = -5 / 2 := by norm_num
  rw [ea] at ha
  have a1 : |(-5 / 2 : R)| = 5 / 2 := by
    rw [abs_of_neg (by norm_num)]; norm_num
  have a2 : |(8 : R)| = 8 := abs_of_pos (by norm_num)
  have a3 : |(5 : R)| = 5 := abs_of_pos (by norm_num)
  have a4 : |(8 - -5 / 2 : R)| = 21 / 2 := by
    rw [abs_of_pos (by norm_num)]; norm_num
  have htiny : ¬ (8 : R) < 10 * locEPS E := by
    intro hh; linarith
  have hsq : ¬ (21 / 2 : R) < E.GSL_SQRT_MACH_EPS := by
    intro hh; linarith
  unfold gsl_sf_hyperg_1F1_regime
  simp only [a1, a2, a3, a4, ha, locMAX]
  norm_num [htiny, hsq]

/-- The reflected call for `a = -2.5`, `b = 8`, `x = 5`, evaluated with the
rational primitives: two seeds by `hyperg_1F1_beps_bgt0` and two steps of the
forward recurrence. -/
theorem ab_pos_reflected_example :
    hyperg_1F1_ab_pos ratEnv 0 (8 - -5 / 2) 8 (-5)
      = .ok (180921 / 165376, .GSL_SUCCESS) := by
  have f1 : ⌊(8 - -5 / 2 - 8 : ℚ)⌋ = 2 := by
    rw [Int.floor_eq_iff]; norm_num
  have c1 : ⌈(8 - -5 / 2 - 1 / 10 - (8 + (8 - -5 / 2 - 8 - ((2 : ℤ) : ℚ))) : ℚ)⌉ = 2 := by
    rw [Int.ceil_eq_iff]; norm_num
  have a1 : |(-5 : ℚ)| = 5 := by
    rw [abs_of_neg (by norm_num)]; norm_num
  have a2 : |(5 : ℚ)| = 5 := abs_of_pos (by norm_num)
  unfold hyperg_1F1_ab_pos
  simp only [a1, f1, c1]
  norm_num [hyperg_1F1_beps_bgt0, hyperg_1F1_small_a_bgt0, a2, ratEnv, hyperg_1F1_ab_pos_forward,
    abs_of_pos]

/-- The contract of `gsl_sf_exp_sgn_impl` and the law of `exp` and `log` hold
together for the real exponential and logarithm. -/
theorem expSgnContract_expLogLaw_real :
    ∃ E : Env ℝ, E.EpsOK ∧ E.ExpSgnContract ∧ E.ExpLogLaw := by
  refine ⟨{ GSL_MACH_EPS := 1 / 2 ^ 52, GSL_SQRT_MACH_EPS := 1 / 2 ^ 26,
            GSL_LOG_DBL_MAX := 709, GSL_SQRT_DBL_MIN := 1 / 2 ^ 511,
            DBL_MAX := 2 ^ 1024 - 2 ^ 971, INT_MAX := 2147483647, M_PI := Real.pi,
            exp := Real.exp, log := Real.log, sqrt := Real.sqrt, sin := Real.sin,
            acos := Real.arccos,
            gsl_sf_exp_impl := fun x => (Real.exp x, .GSL_SUCCESS),
            gsl_sf_exp_sgn_impl := fun x sgn =>
              ((if sgn ≥ 0 then 1 else -1) * Real.exp x, .GSL_SUCCESS),
            gsl_sf_expm1_impl := fun x => (Real.exp x - 1, .GSL_SUCCESS),
            gsl_sf_exprel_impl := fun x => ((Real.exp x - 1) / x, .GSL_SUCCESS),
            gsl_sf_exprel_2_impl := fun x => (2 * (Real.exp x - 1 - x) / x ^ 2, .GSL_SUCCESS),
            gsl_sf_exprel_n_impl := fun _ x => ((Real.exp x - 1) / x, .GSL_SUCCESS),
            gsl_sf_lngamma_impl := fun _ => (0, .GSL_SUCCESS),
            gsl_sf_lngamma_sgn_impl := fun _ => ⟨0, 1, .GSL_SUCCESS⟩,
            gsl_sf_bessel_I1_scaled_impl := fun _ => (0, .GSL_SUCCESS),
            gsl_sf_bessel_J1_impl := fun _ => (0, .GSL_SUCCESS),
            gsl_sf_bessel_Inu_scaled_impl := fun _ _ => (0, .GSL_SUCCESS),
            gsl_sf_hyperg_1F1_series_impl := fun _ _ _ => ⟨1, 0, .GSL_SUCCESS⟩,
            gsl_sf_hyperg_2F0_series_impl := fun _ _ _ _ => ⟨1, 0, .GSL_SUCCESS⟩,
            ln_F_indeterminate := 0 }, ?_, ?_, ?_⟩
  · constructor <;> norm_num
  · intro u sgn _
    rfl
  · intro k u hk
    show Real.exp (Real.log k + u) = k * Real.exp u
    rw [Real.exp_add, Real.exp_log hk]

end Lemmas

/-! ## Properties of the evaluators -/

section FieldLemmas

variable {R : Type} [LinearOrderedField R]

/-- When both log-gamma calls succeed, the status of `hyperg_1F1_asymp_posx`
is decided by the overflow test alone: the status of the 2F0 series has no
part in it. -/
theorem asymp_posx_status (E : Env R) (a b x : R)
    (ha : (E.gsl_sf_lngamma_sgn_impl a).stat = .GSL_SUCCESS)
    (hb : (E.gsl_sf_lngamma_sgn_impl b).stat = .GSL_SUCCESS) :
    (hyperg_1F1_asymp_posx E a b x).2 =
      if (E.gsl_sf_lngamma_sgn_impl b).lg - (E.gsl_sf_lngamma_sgn_impl a).lg + x
          + (a - b) * E.log x + E.ln_F_indeterminate < E.GSL_LOG_DBL_MAX
      then .GSL_SUCCESS else .GSL_EOVRFLW := by
  unfold hyperg_1F1_asymp_posx
  simp only [ha, hb, and_self, if_true]
  split_ifs <;> rfl

/-- When both log-gamma calls succeed and the overflow test passes,
`hyperg_1F1_asymp_negx` returns the status of its 2F0 series. -/
theorem asymp_negx_status (E : Env R) (a b x : R)
    (hb : (E.gsl_sf_lngamma_sgn_impl b).stat = .GSL_SUCCESS)
    (hbma : (E.gsl_sf_lngamma_sgn_impl (b - a)).stat = .GSL_SUCCESS)
    (hov : (E.gsl_sf_lngamma_sgn_impl b).lg - a * E.log (-x)
        - (E.gsl_sf_lngamma_sgn_impl (b - a)).lg
        + E.log |(E.gsl_sf_hyperg_2F0_series_impl a (1 + a - b) (-1 / x) (-1)).val|
        < E.GSL_LOG_DBL_MAX - 1) :
    (hyperg_1F1_asymp_negx E a b x).2
      = (E.gsl_sf_hyperg_2F0_series_impl a (1 + a - b) (-1 / x) (-1)).stat := by
  unfold hyperg_1F1_asymp_negx
  simp only [hb, hbma, and_self, if_true]
  rw [if_pos hov]

/-- In its two asymptotic branches the integer dispatcher returns what the
asymptotic evaluator returns on `(double)a`, `(double)b`, `x` (lines 1278 and
1284), and the tests passed on the way leave `a ≠ b`, `a ≠ 0`, `b ≠ 0`. -/
theorem int_impl_of_regime_asymp (E : Env R) (a b : ℤ) (x : R) :
    (gsl_sf_hyperg_1F1_int_regime a b x = .asymp_posx →
      gsl_sf_hyperg_1F1_int_impl E a b x = hyperg_1F1_asymp_posx E (a : R) (b : R) x
        ∧ a ≠ b ∧ a ≠ 0 ∧ b ≠ 0) ∧
    (gsl_sf_hyperg_1F1_int_regime a b x = .asymp_negx →
      gsl_sf_hyperg_1F1_int_impl E a b x = hyperg_1F1_asymp_negx E (a : R) (b : R) x
        ∧ a ≠ b ∧ a ≠ 0 ∧ b ≠ 0) := by
  constructor
  · intro hreg
    unfold gsl_sf_hyperg_1F1_int_regime at hreg
    obtain ⟨h1, hreg⟩ := ite_else_of_ne hreg (by decide)
    obtain ⟨h2, hreg⟩ := ite_else_of_ne hreg (by decide)
    obtain ⟨h3, hreg⟩ := ite_else_of_ne hreg (by decide)
    obtain ⟨h4, hreg⟩ := ite_else_of_ne hreg (by decide)
    obtain ⟨h5, hreg⟩ := ite_else_of_ne hreg (by decide)
    by_cases h6 : x > 100 ∧
        locMAX 1 |((b - a : ℤ) : R)| * locMAX 1 |((1 - a : ℤ) : R)| < 1 / 2 * x
    · refine ⟨?_, h2, h4, h3⟩
      unfold gsl_sf_hyperg_1F1_int_impl
      rw [if_neg h1, if_neg h2, if_neg h3, if_neg h4, if_neg h5, if_pos h6]
    · rw [if_neg h6] at hreg
      obtain ⟨_, hreg⟩ := ite_else_of_ne hreg (by decide)
      obtain ⟨_, hreg⟩ := ite_else_of_ne hreg (by decide)
      obtain ⟨_, hreg⟩ := ite_else_of_ne hreg (by decide)
      exact absurd hreg (by decide)
  · intro hreg
    unfold gsl_sf_hyperg_1F1_int_regime at hreg
    obtain ⟨h1, hreg⟩ := ite_else_of_ne hreg (by decide)
    obtain ⟨h2, hreg⟩ := ite_else_of_ne hreg (by decide)
    obtain ⟨h3, hreg⟩ := ite_else_of_ne hreg (by decide)
    obtain ⟨h4, hreg⟩ := ite_else_of_ne hreg (by decide)
    obtain ⟨h5, hreg⟩ := ite_else_of_ne hreg (by decide)
    obtain ⟨h6, hreg⟩ := ite_else_of_ne hreg (by decide)
    by_cases h7 : x < -100 ∧
        locMAX 1 |((a : ℤ) : R)| * locMAX 1 |((1 + a - b : ℤ) : R)| < 1 / 2 * |x|
    · refine ⟨?_, h2, h4, h3⟩
      unfold gsl_sf_hyperg_1F1_int_impl
      rw [if_neg h1, if_neg h2, if_neg h3, if_neg h4, if_neg h5, if_neg h6, if_pos h7]
    · rw [if_neg h7] at hreg
      obtain ⟨_, hreg⟩ := ite_else_of_ne hreg (by decide)
      obtain ⟨_, hreg⟩ := ite_else_of_ne hreg (by decide)
      exact absurd hreg (by decide)

/-- The function `hyperg_1F1_ab_posint` is its copy with the evaluator
`hyperg_1F1_CF1_p_ser` passed in. -/
theorem ab_posint_eq_cf (E : Env R) (a b : ℤ) (x : R) :
    hyperg_1F1_ab_posint E a b x
      = hyperg_1F1_ab_posint_cf (hyperg_1F1_CF1_p_ser E) E a b x := rfl

/-- For integers `a ≥ 1`, `b ≥ 1` the result of `hyperg_1F1_ab_posint` depends
on the ratio evaluator only through its values at arguments with `b' > x'`. -/
theorem ab_posint_cf_congr (E : Env R) (cf cf' : R → R → R → R × Status)
    (hcf : ∀ a' b' x' : R, b' > x' → cf a' b' x' = cf' a' b' x')
    (a b : ℤ) (x : R) (ha : 1 ≤ a) (hb : 1 ≤ b) :
    hyperg_1F1_ab_posint_cf cf E a b x = hyperg_1F1_ab_posint_cf cf' E a b x := by
  have ha' : (1 : R) ≤ (a : R) := by exact_mod_cast ha
  have hb' : (1 : R) ≤ (b : R) := by exact_mod_cast hb
  unfold hyperg_1F1_ab_posint_cf
  dsimp only
  by_cases c4 : (b : R) > ((2 * a : ℤ) : R) + x
  · have h := hcf (a : R) (b : R) x (by push_cast at c4; linarith)
    simp only [if_pos c4, h]
  simp only [if_neg c4]
  by_cases c5 : (b : R) > x
  · simp only [if_pos c5, hcf (a : R) (b : R) x c5]
  · simp only [if_neg c5, hcf (((b - a - 1 : ℤ)) : R) (b : R) (-x) (by linarith)]

/-- The function `hyperg_1F1_luke` reads its result off the state on leaving
the loop: the test of line 203 is `*prec > 10.0 * locEPS`. -/
theorem luke_eq_final (E : Env R) (a c xin : R) :
    hyperg_1F1_luke E a c xin =
      if (hyperg_1F1_luke_final E a c xin).prec > 10 * locEPS E then
        ⟨(hyperg_1F1_luke_final E a c xin).F, (hyperg_1F1_luke_final E a c xin).prec, .GSL_ELOSS⟩
      else
        ⟨(hyperg_1F1_luke_final E a c xin).F, (hyperg_1F1_luke_final E a c xin).prec,
          .GSL_SUCCESS⟩ := rfl

/-- The precision `hyperg_1F1_luke` reports is the one of its last pass. -/
theorem luke_prec_eq_final (E : Env R) (a c xin : R) :
    (hyperg_1F1_luke E a c xin).prec = (hyperg_1F1_luke_final E a c xin).prec := by
  rw [luke_eq_final]
  split_ifs <;> rfl

/-- The precision written by the loop of `hyperg_1F1_luke` is an absolute
value. -/
theorem luke_loop_prec_nonneg (E : Env R) (a c x x3 : R) (k : ℕ) :
    ∀ s : LukeState R, 0 ≤ s.prec → 0 ≤ (hyperg_1F1_luke_loop E a c x x3 k s).prec := by
  induction k with
  | zero => intro s hs; exact hs
  | succ k ih =>
    intro s _
    unfold hyperg_1F1_luke_loop
    dsimp only
    split_ifs
    · exact abs_nonneg _
    · exact ih _ (abs_nonneg _)
    · exact ih _ (abs_nonneg _)
    · exact ih _ (abs_nonneg _)

/-- The loop of `hyperg_1F1_luke` leaves either with a relative change below
`GSL_MACH_EPS` or at the cap `n > nmax`. -/
theorem luke_loop_exit (E : Env R) (a c x x3 : R) (k : ℕ) :
    ∀ s : LukeState R, 1 ≤ k → 5002 ≤ s.n + (k : ℤ) →
      (hyperg_1F1_luke_loop E a c x x3 k s).prec < E.GSL_MACH_EPS
        ∨ (hyperg_1F1_luke_loop E a c x x3 k s).n > 5000 := by
  induction k with
  | zero => intro s h; omega
  | succ k ih =>
    intro s _ hn
    unfold hyperg_1F1_luke_loop
    dsimp only
    split_ifs with h1 h2 h3
    · exact h1
    all_goals
      have hs : ¬ s.n > 5000 := fun h => h1 (Or.inr h)
      apply ih
      · push_cast at hn; omega
      · dsimp only; push_cast at hn ⊢; omega

/-- The precision `hyperg_2F0_series` reports is `err/(err + |sum|)` with
`err ≥ 0`, or 1 on overflow. -/
theorem series_2F0_prec_mem (E : Env R) (a b x : R) :
    0 ≤ (hyperg_2F0_series E a b x).prec ∧ (hyperg_2F0_series E a b x).prec ≤ 1 := by
  have key : ∀ e s : R, 0 ≤ e → 0 ≤ s → 0 ≤ e / (e + s) ∧ e / (e + s) ≤ 1 := by
    intro e s he hs
    exact ⟨div_nonneg he (by linarith), div_le_one_of_le₀ (by linarith) (by linarith)⟩
  unfold hyperg_2F0_series
  cases hyperg_2F0_series_loop E x 200 ⟨a, b, 1, 1, 1, 1, 1⟩ with
  | error sum => exact ⟨zero_le_one, le_refl 1⟩
  | ok s =>
    dsimp only
    split_ifs
    · exact key _ _ (abs_nonneg _) (abs_nonneg _)
    · exact key _ _ (abs_nonneg _) (abs_nonneg _)

/-- What the Horner loop of `hyperg_1F1_a_negint_poly` returns when it
succeeds from the value `poly > 0` with `k` passes left and positive factors:
the first `k` partial products of the factors, and `poly` times the `k`-th. -/
theorem a_negint_poly_loop_eq (E : Env R) (a : ℤ) (b x : R) (k : ℕ) :
    ∀ poly : R, 0 < poly →
    (∀ j : ℕ, j < k → 0 < ((a + (j : ℤ) : ℤ) : R) / (b + (j : R)) * (x / ((j : R) + 1))) →
    (hyperg_1F1_a_negint_poly_loop E a b x k poly).2 = .GSL_SUCCESS →
    (hyperg_1F1_a_negint_poly_loop E a b x k poly).1
      = ∑ i in Finset.range k,
          ∏ j in Finset.range i, ((a + (j : ℤ) : ℤ) : R) / (b + (j : R)) * (x / ((j : R) + 1))
        + poly * ∏ j in Finset.range k,
            ((a + (j : ℤ) : ℤ) : R) / (b + (j : R)) * (x / ((j : R) + 1)) := by
  induction k with
  | zero =>
    intro poly _ _ _
    simp [hyperg_1F1_a_negint_poly_loop]
  | succ k ih =>
    intro poly hpoly ht hS
    have htk := ht k (Nat.lt_succ_self k)
    unfold hyperg_1F1_a_negint_poly_loop at hS ⊢
    dsimp only at hS ⊢
    have ecast : ((((k : ℤ) + 1 : ℤ)) : R) = (k : R) + 1 := by push_cast; ring
    rw [ecast] at hS ⊢
    by_cases hov : ((a + (k : ℤ) : ℤ) : R) / (b + (k : R)) * (x / ((k : R) + 1)) + 1 / poly
        > 9 / 10 * E.DBL_MAX / poly
    · rw [if_pos hov] at hS
      simp at hS
    · rw [if_neg hov] at hS ⊢
      have hne : poly ≠ 0 := ne_of_gt hpoly
      have e : poly * (((a + (k : ℤ) : ℤ) : R) / (b + (k : R)) * (x / ((k : R) + 1)) + 1 / poly)
          = poly * (((a + (k : ℤ) : ℤ) : R) / (b + (k : R)) * (x / ((k : R) + 1))) + 1 := by
        field_simp
        ring
      rw [e] at hS ⊢
      have hpos : 0 < poly * (((a + (k : ℤ) : ℤ) : R) / (b + (k : R)) * (x / ((k : R) + 1))) + 1 := by
        have := mul_pos hpoly htk
        linarith
      rw [ih _ hpos (fun j hj => ht j (Nat.lt_succ_of_lt hj)) hS]
      rw [Finset.sum_range_succ, Finset.prod_range_succ]
      ring

/-- The product of the first `i` Horner factors is the term
`(a)_i/(b)_i · x^i/i!` of the hypergeometric series. -/
theorem horner_factor_prod (a : ℤ) (b x : R) (i : ℕ) :
    ∏ j in Finset.range i, ((a + (j : ℤ) : ℤ) : R) / (b + (j : R)) * (x / ((j : R) + 1))
      = (∏ j in Finset.range i, ((a : R) + (j : R))) / (∏ j in Finset.range i, (b + (j : R)))
          * x ^ i / (i.factorial : R) := by
  induction i with
  | zero => simp
  | succ i ih =>
    rw [Finset.prod_range_succ, ih, Finset.prod_range_succ, Finset.prod_range_succ,
      Nat.factorial_succ]
    push_cast
    rw [pow_succ]
    by_cases hb : b + (i : R) = 0
    · simp [hb]
    have h1 : ((i : R) + 1) ≠ 0 := by positivity
    have h2 : ((i.factorial : ℕ) : R) ≠ 0 := by positivity
    by_cases hp : (∏ j in Finset.range i, (b + (j : R))) = 0
    · simp [hp]
    field_simp
    ring

/-- As long as `x ≥ b + n - 1` the terms of `hyperg_1F1_1_series` do not
decrease, so after `m` passes the sum is at most `m + 1` times the last term
and the loop test still holds: `k` further passes do not end the loop when
`x ≥ b + m + k`. -/
theorem series_loop_outOfFuel_of_growing (E : Env R) (b x : R) (hb : 0 < b) (k : ℕ) :
    ∀ (m : ℕ) (term sum : R), 0 < term → 0 < sum → sum ≤ ((m : R) + 1) * term →
    b + ((m + k : ℕ) : R) ≤ x → 10 * E.GSL_MACH_EPS * (((m + k : ℕ) : R) + 1) < 1 →
    hyperg_1F1_1_series_loop E b x k term sum ((m : R) + 1) = .error .outOfFuel := by
  induction k with
  | zero =>
    intro m term sum hterm hsum hle hx heps
    have hm : (0 : R) < (m : R) + 1 := by positivity
    have hcond : |term / sum| > 10 * E.GSL_MACH_EPS := by
      rw [abs_of_pos (div_pos hterm hsum), gt_iff_lt, lt_div_iff₀ hsum]
      simp only [Nat.add_zero] at heps
      by_cases he : 0 ≤ E.GSL_MACH_EPS
      · calc 10 * E.GSL_MACH_EPS * sum ≤ 10 * E.GSL_MACH_EPS * (((m : R) + 1) * term) :=
              mul_le_mul_of_nonneg_left hle (by positivity)
          _ = (10 * E.GSL_MACH_EPS * ((m : R) + 1)) * term := by ring
          _ < 1 * term := mul_lt_mul_of_pos_right heps hterm
          _ = term := one_mul term
      · have : 10 * E.GSL_MACH_EPS * sum < 0 :=
          mul_neg_of_neg_of_pos (by linarith) hsum
        linarith
    unfold hyperg_1F1_1_series_loop
    rw [if_pos hcond]
  | succ k ih =>
    intro m term sum hterm hsum hle hx heps
    have hm : (0 : R) < (m : R) + 1 := by positivity
    have hmk : ((m + (k + 1) : ℕ) : R) = (m : R) + (k : R) + 1 := by push_cast; ring
    have hk0 : (0 : R) ≤ (k : R) := Nat.cast_nonneg k
    have hcond : |term / sum| > 10 * E.GSL_MACH_EPS := by
      rw [abs_of_pos (div_pos hterm hsum), gt_iff_lt, lt_div_iff₀ hsum]
      rw [hmk] at heps
      by_cases he : 0 ≤ E.GSL_MACH_EPS
      · have h1 : 10 * E.GSL_MACH_EPS * ((m : R) + 1) < 1 := by nlinarith
        calc 10 * E.GSL_MACH_EPS * sum ≤ 10 * E.GSL_MACH_EPS * (((m : R) + 1) * term) :=
              mul_le_mul_of_nonneg_left hle (by positivity)
          _ = (10 * E.GSL_MACH_EPS * ((m : R) + 1)) * term := by ring
          _ < 1 * term := mul_lt_mul_of_pos_right h1 hterm
          _ = term := one_mul term
      · have : 10 * E.GSL_MACH_EPS * sum < 0 :=
          mul_neg_of_neg_of_pos (by linarith) hsum
        linarith
    unfold hyperg_1F1_1_series_loop
    rw [if_pos hcond]
    dsimp only
    have hden : 0 < b + ((m : R) + 1) - 1 := by
      have : (0 : R) ≤ (m : R) := Nat.cast_nonneg m
      linarith
    have hratio : 1 ≤ x / (b + ((m : R) + 1) - 1) := by
      rw [le_div_iff₀ hden]
      rw [hmk] at hx
      linarith
    have hterm1 : term ≤ term * (x / (b + ((m : R) + 1) - 1)) := by
      calc term = term * 1 := (mul_one term).symm
        _ ≤ term * (x / (b + ((m : R) + 1) - 1)) := mul_le_mul_of_nonneg_left hratio hterm.le
    have e : (m : R) + 1 + 1 = ((m + 1 : ℕ) : R) + 1 := by push_cast; ring
    rw [e]
    apply ih (m + 1)
    · exact lt_of_lt_of_le hterm hterm1
    · linarith [lt_of_lt_of_le hterm hterm1]
    · push_cast
      nlinarith
    · have : ((m + 1 + k : ℕ) : R) = ((m + (k + 1) : ℕ) : R) := by push_cast; ring
      rw [this]; exact hx
    · have : ((m + 1 + k : ℕ) : R) = ((m + (k + 1) : ℕ) : R) := by push_cast; ring
      rw [this]; exact heps

/-- With an iteration budget of `N` the loop of `hyperg_1F1_1_series` has not
ended at any input `b > 0`, `x ≥ b + N`, as long as `10·eps·(N+1) < 1`. -/
theorem series_outOfFuel (E : Env R) (N : ℕ) (b x : R) (hb : 0 < b)
    (hx : b + (N : R) ≤ x) (heps : 10 * E.GSL_MACH_EPS * ((N : R) + 1) < 1) :
    hyperg_1F1_1_series E N b x = .error .outOfFuel := by
  unfold hyperg_1F1_1_series
  have h := series_loop_outOfFuel_of_growing E b x hb N 0 1 1 one_pos one_pos (by simp)
    (by simpa using hx) (by simpa using heps)
  have e : ((0 : ℕ) : R) + 1 = 1 := by simp
  rw [e] at h
  rw [h]

/-- As long as `x ≥ 2(b + n - 1)` each term of `hyperg_1F1_1_series` is at
least twice the one before, so the sum is at most twice the last term and the
loop test still holds: `k` further passes do not end the loop when
`x ≥ 2(b + m + k)`. -/
theorem series_loop_outOfFuel_of_doubling (E : Env R) (b x : R) (hb : 0 < b)
    (heps : 20 * E.GSL_MACH_EPS < 1) (k : ℕ) :
    ∀ (m : ℕ) (term sum : R), 0 < term → 0 < sum → sum ≤ 2 * term →
    2 * (b + ((m + k : ℕ) : R)) ≤ x →
    hyperg_1F1_1_series_loop E b x k term sum ((m : R) + 1) = .error .outOfFuel := by
  have hcond : ∀ term sum : R, 0 < term → 0 < sum → sum ≤ 2 * term →
      |term / sum| > 10 * E.GSL_MACH_EPS := by
    intro term sum hterm hsum hle
    rw [abs_of_pos (div_pos hterm hsum), gt_iff_lt, lt_div_iff₀ hsum]
    by_cases he : 0 ≤ E.GSL_MACH_EPS
    · calc 10 * E.GSL_MACH_EPS * sum ≤ 10 * E.GSL_MACH_EPS * (2 * term) :=
            mul_le_mul_of_nonneg_left hle (by positivity)
        _ = (20 * E.GSL_MACH_EPS) * term := by ring
        _ < 1 * term := mul_lt_mul_of_pos_right heps hterm
        _ = term := one_mul term
    · have : 10 * E.GSL_MACH_EPS * sum < 0 :=
        mul_neg_of_neg_of_pos (by linarith) hsum
      linarith
  induction k with
  | zero =>
    intro m term sum hterm hsum hle _
    unfold hyperg_1F1_1_series_loop
    rw [if_pos (hcond term sum hterm hsum hle)]
  | succ k ih =>
    intro m term sum hterm hsum hle hx
    have hmk : ((m + (k + 1) : ℕ) : R) = (m : R) + (k : R) + 1 := by push_cast; ring
    have hk0 : (0 : R) ≤ (k : R) := Nat.cast_nonneg k
    have hm0 : (0 : R) ≤ (m : R) := Nat.cast_nonneg m
    unfold hyperg_1F1_1_series_loop
    rw [if_pos (hcond term sum hterm hsum hle)]
    dsimp only
    have hden : 0 < b + ((m : R) + 1) - 1 := by linarith
    have hratio : 2 ≤ x / (b + ((m : R) + 1) - 1) := by
      rw [le_div_iff₀ hden]
      rw [hmk] at hx
      linarith
    have hterm1 : 2 * term ≤ term * (x / (b + ((m : R) + 1) - 1)) := by
      calc 2 * term = term * 2 := mul_comm 2 term
        _ ≤ term * (x / (b + ((m : R) + 1) - 1)) := mul_le_mul_of_nonneg_left hratio hterm.le
    have e : (m : R) + 1 + 1 = ((m + 1 : ℕ) : R) + 1 := by push_cast; ring
    rw [e]
    apply ih (m + 1)
    · linarith
    · linarith
    · linarith
    · have : ((m + 1 + k : ℕ) : R) = ((m + (k + 1) : ℕ) : R) := by push_cast; ring
      rw [this]; exact hx

/-- With any iteration budget `N` the loop of `hyperg_1F1_1_series` has not
ended at the input `b = 1`, `x = 2N + 2`. -/
theorem series_outOfFuel_any_budget (E : Env R) (heps : 20 * E.GSL_MACH_EPS < 1) (N : ℕ) :
    hyperg_1F1_1_series E N 1 (2 * ((N : R) + 1)) = .error .outOfFuel := by
  unfold hyperg_1F1_1_series
  have h := series_loop_outOfFuel_of_doubling E 1 (2 * ((N : R) + 1)) one_pos heps N 0 1 1
    one_pos one_pos (by norm_num) (by push_cast; linarith)
  have e : ((0 : ℕ) : R) + 1 = 1 := by simp
  rw [e] at h
  rw [h]

end FieldLemmas

/-- With a series primitive that reports a loss of precision,
`hyperg_1F1_small_a_bgt0(-1/2, 8, -1)` returns `17/16` with `GSL_ELOSS`. -/
theorem small_a_loss_example :
    hyperg_1F1_small_a_bgt0 lossEnv 0 (-(1 / 2)) 8 (-1) = .ok (17 / 16, .GSL_ELOSS) := by
  norm_num [hyperg_1F1_small_a_bgt0, lossEnv, abs_of_pos]

section RatioLemmas

variable {R : Type} [LinearOrderedField R] [FloorRing R]

/-- The function `hyperg_1F1_ab_pos` is its copy with the evaluator
`hyperg_1F1_CF1_p_ser` passed in. -/
theorem ab_pos_eq_cf (E : Env R) (fuel : ℕ) (a b x : R) :
    hyperg_1F1_ab_pos E fuel a b x
      = hyperg_1F1_ab_pos_cf (hyperg_1F1_CF1_p_ser E) E fuel a b x := rfl

/-- For `a > 0`, `b > 0` the result of `hyperg_1F1_ab_pos` depends on the
ratio evaluator only through its values at arguments with `b' > x'`. -/
theorem ab_pos_cf_congr (E : Env R) (fuel : ℕ) (cf cf' : R → R → R → R × Status)
    (hcf : ∀ a' b' x' : R, b' > x' → cf a' b' x' = cf' a' b' x')
    (a b x : R) (ha : 0 < a) (hb : 0 < b) :
    hyperg_1F1_ab_pos_cf cf E fuel a b x = hyperg_1F1_ab_pos_cf cf' E fuel a b x := by
  unfold hyperg_1F1_ab_pos_cf
  dsimp only
  by_cases c1 : (b < 10 ∧ a < 10 ∧ |x| < 5) ∨ (b > a * |x|) ∨ (b > a ∧ |x| < 5)
  · rw [if_pos c1, if_pos c1]
  rw [if_neg c1, if_neg c1]
  by_cases c2 : |b - a| ≤ 1
  · rw [if_pos c2, if_pos c2]
  rw [if_neg c2, if_neg c2]
  by_cases c3 : a > b + 1
  · rw [if_pos c3, if_pos c3]
  rw [if_neg c3, if_neg c3]
  by_cases c4 : b > 2 * a + x
  · rw [if_pos c4, if_pos c4, hcf a b x (by linarith)]
  rw [if_neg c4, if_neg c4]
  by_cases c5 : b > x
  · rw [if_pos c5, if_pos c5, hcf a b x c5]
  · rw [if_neg c5, if_neg c5, hcf (b - a - 1) b (-x) (by linarith)]

end RatioLemmas

/-! ## Soundness of the integer enclosures -/

section LukeBoxLemmas

variable {R : Type} [LinearOrderedField R]

/-- One pass of the loop of `hyperg_1F1_luke`, with the recurrence written
through `hyperg_1F1_luke_rec`. -/
theorem luke_loop_succ (E : Env R) (a c x x3 : R) (k : ℕ) (s : LukeState R) :
    hyperg_1F1_luke_loop E a c x x3 (k + 1) s =
      if |(s.F - hyperg_1F1_luke_rec a c x x3 s.n s.Anm1 s.Anm2 s.Anm3
            / hyperg_1F1_luke_rec a c x x3 s.n s.Bnm1 s.Bnm2 s.Bnm3) / s.F| < E.GSL_MACH_EPS
          ∨ s.n > 5000 then
        { s with
          F := hyperg_1F1_luke_rec a c x x3 s.n s.Anm1 s.Anm2 s.Anm3
            / hyperg_1F1_luke_rec a c x x3 s.n s.Bnm1 s.Bnm2 s.Bnm3,
          prec := |(s.F - hyperg_1F1_luke_rec a c x x3 s.n s.Anm1 s.Anm2 s.Anm3
            / hyperg_1F1_luke_rec a c x x3 s.n s.Bnm1 s.Bnm2 s.Bnm3) / s.F| }
      else if |hyperg_1F1_luke_rec a c x x3 s.n s.Anm1 s.Anm2 s.Anm3| > 10 ^ 50
          ∨ |hyperg_1F1_luke_rec a c x x3 s.n s.Bnm1 s.Bnm2 s.Bnm3| > 10 ^ 50 then
        hyperg_1F1_luke_loop E a c x x3 k
          { n := s.n + 1,
            F := hyperg_1F1_luke_rec a c x x3 s.n s.Anm1 s.Anm2 s.Anm3
              / hyperg_1F1_luke_rec a c x x3 s.n s.Bnm1 s.Bnm2 s.Bnm3,
            prec := |(s.F - hyperg_1F1_luke_rec a c x x3 s.n s.Anm1 s.Anm2 s.Anm3
              / hyperg_1F1_luke_rec a c x x3 s.n s.Bnm1 s.Bnm2 s.Bnm3) / s.F|,
            Bnm3 := s.Bnm2 / 10 ^ 50, Bnm2 := s.Bnm1 / 10 ^ 50,
            Bnm1 := hyperg_1F1_luke_rec a c x x3 s.n s.Bnm1 s.Bnm2 s.Bnm3 / 10 ^ 50,
            Anm3 := s.Anm2 / 10 ^ 50, Anm2 := s.Anm1 / 10 ^ 50,
            Anm1 := hyperg_1F1_luke_rec a c x x3 s.n s.Anm1 s.Anm2 s.Anm3 / 10 ^ 50 }
      else if |hyperg_1F1_luke_rec a c x x3 s.n s.Anm1 s.Anm2 s.Anm3| < 1 / 10 ^ 50
          ∨ |hyperg_1F1_luke_rec a c x x3 s.n s.Bnm1 s.Bnm2 s.Bnm3| < 1 / 10 ^ 50 then
        hyperg_1F1_luke_loop E a c x x3 k
          { n := s.n + 1,
            F := hyperg_1F1_luke_rec a c x x3 s.n s.Anm1 s.Anm2 s.Anm3
              / hyperg_1F1_luke_rec a c x x3 s.n s.Bnm1 s.Bnm2 s.Bnm3,
            prec := |(s.F - hyperg_1F1_luke_rec a c x x3 s.n s.Anm1 s.Anm2 s.Anm3
              / hyperg_1F1_luke_rec a c x x3 s.n s.Bnm1 s.Bnm2 s.Bnm3) / s.F|,
            Bnm3 := s.Bnm2 * 10 ^ 50, Bnm2 := s.Bnm1 * 10 ^ 50,
            Bnm1 := hyperg_1F1_luke_rec a c x x3 s.n s.Bnm1 s.Bnm2 s.Bnm3 * 10 ^ 50,
            Anm3 := s.Anm2 * 10 ^ 50, Anm2 := s.Anm1 * 10 ^ 50,
            Anm1 := hyperg_1F1_luke_rec a c x x3 s.n s.Anm1 s.Anm2 s.Anm3 * 10 ^ 50 }
      else
        hyperg_1F1_luke_loop E a c x x3 k
          { n := s.n + 1,
            F := hyperg_1F1_luke_rec a c x x3 s.n s.Anm1 s.Anm2 s.Anm3
              / hyperg_1F1_luke_rec a c x x3 s.n s.Bnm1 s.Bnm2 s.Bnm3,
            prec := |(s.F - hyperg_1F1_luke_rec a c x x3 s.n s.Anm1 s.Anm2 s.Anm3
              / hyperg_1F1_luke_rec a c x x3 s.n s.Bnm1 s.Bnm2 s.Bnm3) / s.F|,
            Bnm3 := s.Bnm2, Bnm2 := s.Bnm1,
            Bnm1 := hyperg_1F1_luke_rec a c x x3 s.n s.Bnm1 s.Bnm2 s.Bnm3,
            Anm3 := s.Anm2, Anm2 := s.Anm1,
            Anm1 := hyperg_1F1_luke_rec a c x x3 s.n s.Anm1 s.Anm2 s.Anm3 } := rfl

/-- A truncated difference of natural numbers is at least the difference. -/
theorem natCast_sub_ge (m k : ℕ) : (m : R) - (k : R) ≤ ((m - k : ℕ) : R) := by
  rcases le_total k m with h | h
  · rw [Nat.cast_sub h]
  · rw [Nat.sub_eq_zero_of_le h, Nat.cast_zero, sub_nonpos]
    exact_mod_cast h

/-- A positive truncated difference of natural numbers is the difference. -/
theorem natCast_sub_of_pos (m k : ℕ) (h : 0 < m - k) : ((m - k : ℕ) : R) = (m : R) - (k : R) := by
  rw [Nat.cast_sub (by omega)]

/-- The coefficients of the recurrence of `hyperg_1F1_luke` at natural
numbers `a`, `c`, `x`, `n`, cleared of their denominators. -/
theorem luke_rec_coeff (a c x n : ℕ) (h3 : 3 ≤ n) (ha : a + 2 ≤ n) (hc : c + 1 ≤ n)
    (hQ : (n + a - 1) * (n - c - 1) * (4 * (2 * n - 1) * ((2 * n - 3) * (2 * n - 5) * (n + c - 3)))
      ≤ (n + a) * (n + a - 1) * x * (2 * ((2 * n - 3) * (2 * n - 5) * (n + c - 3))))
    (hD : 0 < 8 * (2 * n - 1) * (2 * n - 3) * ((2 * n - 3) * (2 * n - 5) * (n + c - 3))
      * (n + c - 2) * (n + c - 1))
    (p1 p2 p3 : R) :
    ((8 * (2 * n - 1) * (2 * n - 3) * ((2 * n - 3) * (2 * n - 5) * (n + c - 3))
        * (n + c - 2) * (n + c - 1) : ℕ) : R)
      * hyperg_1F1_luke_rec (a : R) (c : R) (x : R) ((x : R) * (x : R) * (x : R)) (n : ℤ) p1 p2 p3
    = (((2 * (2 * n - 3) * (n + c - 1) + (n - a - 2) * x)
          * (4 * (2 * n - 1) * ((2 * n - 3) * (2 * n - 5) * (n + c - 3)) * (n + c - 2)) : ℕ) : R) * p1
      + ((x * ((n + a) * (n + a - 1) * x * (2 * ((2 * n - 3) * (2 * n - 5) * (n + c - 3)))
          - (n + a - 1) * (n - c - 1)
            * (4 * (2 * n - 1) * ((2 * n - 3) * (2 * n - 5) * (n + c - 3)))) : ℕ) : R) * p2
      - (((n + a - 2) * (n + a - 1) * (n - a - 2) * (2 * n - 1) * (x * x * x) : ℕ) : R) * p3 := by
  have e1 : ((2 * n - 1 : ℕ) : R) = 2 * (n : R) - 1 := by
    rw [Nat.cast_sub (by omega)]; push_cast; ring
  have e3 : ((2 * n - 3 : ℕ) : R) = 2 * (n : R) - 3 := by
    rw [Nat.cast_sub (by omega)]; push_cast; ring
  have e5 : ((2 * n - 5 : ℕ) : R) = 2 * (n : R) - 5 := by
    rw [Nat.cast_sub (by omega)]; push_cast; ring
  have em1 : ((n + c - 1 : ℕ) : R) = (n : R) + (c : R) - 1 := by
    rw [Nat.cast_sub (by omega)]; push_cast; ring
  have em2 : ((n + c - 2 : ℕ) : R) = (n : R) + (c : R) - 2 := by
    rw [Nat.cast_sub (by omega)]; push_cast; ring
  have em3 : ((n + c - 3 : ℕ) : R) = (n : R) + (c : R) - 3 := by
    rw [Nat.cast_sub (by omega)]; push_cast; ring
  have eq1 : ((n + a - 1 : ℕ) : R) = (n : R) + (a : R) - 1 := by
    rw [Nat.cast_sub (by omega)]; push_cast; ring
  have eq2 : ((n + a - 2 : ℕ) : R) = (n : R) + (a : R) - 2 := by
    rw [Nat.cast_sub (by omega)]; push_cast; ring
  have ed : ((n - a - 2 : ℕ) : R) = (n : R) - (a : R) - 2 := by
    rw [Nat.cast_sub (by omega), Nat.cast_sub (by omega)]; push_cast; ring
  have ee : ((n - c - 1 : ℕ) : R) = (n : R) - (c : R) - 1 := by
    rw [Nat.cast_sub (by omega), Nat.cast_sub (by omega)]; push_cast; ring
  have hD0 := Nat.pos_iff_ne_zero.mp hD
  simp only [Nat.mul_ne_zero_iff, ne_eq] at hD0
  obtain ⟨⟨⟨⟨⟨_, h1⟩, h3'⟩, ⟨⟨_, h5⟩, hm3⟩⟩, hm2⟩, hm1⟩ := hD0
  have n1 : (2 * (n : R) - 1) ≠ 0 := by rw [← e1]; exact_mod_cast h1
  have n3 : (2 * (n : R) - 3) ≠ 0 := by rw [← e3]; exact_mod_cast h3'
  have n5 : (2 * (n : R) - 5) ≠ 0 := by rw [← e5]; exact_mod_cast h5
  have nm1 : ((n : R) + (c : R) - 1) ≠ 0 := by rw [← em1]; exact_mod_cast hm1
  have nm2 : ((n : R) + (c : R) - 2) ≠ 0 := by rw [← em2]; exact_mod_cast hm2
  have nm3 : ((n : R) + (c : R) - 3) ≠ 0 := by rw [← em3]; exact_mod_cast hm3
  rw [Nat.cast_mul x, Nat.cast_sub hQ]
  simp only [Nat.cast_mul, Nat.cast_add, Nat.cast_ofNat, e1, e3, e5, em1, em2, em3, eq1, eq2,
    ed, ee]
  unfold hyperg_1F1_luke_rec
  simp only [Int.cast_natCast]
  generalize 2 * (n : R) - 1 = t1 at n1 ⊢
  generalize 2 * (n : R) - 3 = t3 at n3 ⊢
  generalize 2 * (n : R) - 5 = t5 at n5 ⊢
  generalize (n : R) + (c : R) - 1 = m1 at nm1 ⊢
  generalize (n : R) + (c : R) - 2 = m2 at nm2 ⊢
  generalize (n : R) + (c : R) - 3 = m3 at nm3 ⊢
  generalize (n : R) + (a : R) - 1 = q1
  generalize (n : R) + (a : R) - 2 = q2
  generalize (n : R) + (a : R) = q0
  generalize (n : R) - (a : R) - 2 = d
  generalize (n : R) - (c : R) - 1 = e
  generalize (x : R) = X
  field_simp
  ring

/-- The recurrence of `hyperg_1F1_luke` is linear in the three values. -/
theorem luke_rec_smul (a c x x3 : R) (n : ℤ) (μ p1 p2 p3 : R) :
    hyperg_1F1_luke_rec a c x x3 n (μ * p1) (μ * p2) (μ * p3)
      = μ * hyperg_1F1_luke_rec a c x x3 n p1 p2 p3 := by
  unfold hyperg_1F1_luke_rec
  ring

/-- Bounds for a combination `P·v1 + Q·v2 - Rn·v3` with natural coefficients
from bounds for `v1`, `v2`, `v3`. -/
theorem natCast_comb_bounds (P Q Rn l1 h1 l2 h2 l3 h3 : ℕ) (v1 v2 v3 : R)
    (b1 : (l1 : R) ≤ v1 ∧ v1 ≤ (h1 : R)) (b2 : (l2 : R) ≤ v2 ∧ v2 ≤ (h2 : R))
    (b3 : (l3 : R) ≤ v3 ∧ v3 ≤ (h3 : R)) :
    (0 < P * l1 + Q * l2 - Rn * h3 →
      ((P * l1 + Q * l2 - Rn * h3 : ℕ) : R) ≤ (P : R) * v1 + (Q : R) * v2 - (Rn : R) * v3) ∧
    (P : R) * v1 + (Q : R) * v2 - (Rn : R) * v3 ≤ ((P * h1 + Q * h2 - Rn * l3 : ℕ) : R) := by
  have hP : (0 : R) ≤ (P : R) := Nat.cast_nonneg P
  have hQ : (0 : R) ≤ (Q : R) := Nat.cast_nonneg Q
  have hR : (0 : R) ≤ (Rn : R) := Nat.cast_nonneg Rn
  have i1 := mul_le_mul_of_nonneg_left b1.1 hP
  have i2 := mul_le_mul_of_nonneg_left b1.2 hP
  have i3 := mul_le_mul_of_nonneg_left b2.1 hQ
  have i4 := mul_le_mul_of_nonneg_left b2.2 hQ
  have i5 := mul_le_mul_of_nonneg_left b3.1 hR
  have i6 := mul_le_mul_of_nonneg_left b3.2 hR
  constructor
  · intro hpos
    rw [natCast_sub_of_pos _ _ hpos]
    push_cast
    linarith
  · refine le_trans ?_ (natCast_sub_ge _ _)
    push_cast
    linarith

/-- Division of natural numbers rounds down. -/
theorem natCast_div_floor (m S : ℕ) : ((m / S : ℕ) : R) ≤ (m : R) / (S : R) :=
  Nat.cast_div_le

/-- The quotient `(m + (S - 1)) / S` of natural numbers rounds `m / S` up. -/
theorem natCast_div_ceil (m S : ℕ) (hS : 0 < S) :
    (m : R) / (S : R) ≤ (((m + (S - 1)) / S : ℕ) : R) := by
  have h1 := Nat.div_add_mod (m + (S - 1)) S
  have h2 := Nat.mod_lt (m + (S - 1)) hS
  have h3 : S - 1 + 1 = S := Nat.sub_add_cancel hS
  have h4 : m ≤ S * ((m + (S - 1)) / S) := by linarith
  have h5 : (m : R) ≤ (S : R) * (((m + (S - 1)) / S : ℕ) : R) := by exact_mod_cast h4
  have hS' : (0 : R) < (S : R) := by exact_mod_cast hS
  rw [div_le_iff₀ hS']
  linarith

/-- Bounds for the relative change `|F - r|/|F|` of a pass of the loop of
`hyperg_1F1_luke`, for `F = fa/fb` and `r = an/bn` with positive bounds on the
four numbers. -/
theorem luke_prec_bounds (fa fb an bn : R) (fal fah fbl fbh anl anh bnl bnh : ℕ)
    (hfa : (fal : R) ≤ fa ∧ fa ≤ (fah : R)) (hfb : (fbl : R) ≤ fb ∧ fb ≤ (fbh : R))
    (han : (anl : R) ≤ an ∧ an ≤ (anh : R)) (hbn : (bnl : R) ≤ bn ∧ bn ≤ (bnh : R))
    (p1 : 0 < fal) (p2 : 0 < fbl) (p3 : 0 < anl) (p4 : 0 < bnl) :
    (((bnl * fal - anh * fbh) + (anl * fbl - bnh * fah) : ℕ) : R)
        ≤ |(fa / fb - an / bn) / (fa / fb)| * ((bnh * fah : ℕ) : R) ∧
    |(fa / fb - an / bn) / (fa / fb)| * ((bnl * fal : ℕ) : R)
        ≤ (((bnh * fah - anl * fbl) + (anh * fbh - bnl * fal) : ℕ) : R) := by
  have q1 : (0 : R) < (fal : R) := by exact_mod_cast p1
  have q2 : (0 : R) < (fbl : R) := by exact_mod_cast p2
  have q3 : (0 : R) < (anl : R) := by exact_mod_cast p3
  have q4 : (0 : R) < (bnl : R) := by exact_mod_cast p4
  have fa0 : 0 < fa := lt_of_lt_of_le q1 hfa.1
  have fb0 : 0 < fb := lt_of_lt_of_le q2 hfb.1
  have an0 : 0 < an := lt_of_lt_of_le q3 han.1
  have bn0 : 0 < bn := lt_of_lt_of_le q4 hbn.1
  have den0 : 0 < bn * fa := mul_pos bn0 fa0
  have key : (fa / fb - an / bn) / (fa / fb) = (bn * fa - an * fb) / (bn * fa) := by
    field_simp
    ring
  have L1 : (bnl : R) * (fal : R) ≤ bn * fa := mul_le_mul hbn.1 hfa.1 q1.le bn0.le
  have U1 : bn * fa ≤ (bnh : R) * (fah : R) :=
    mul_le_mul hbn.2 hfa.2 fa0.le (le_trans bn0.le hbn.2)
  have L2 : (anl : R) * (fbl : R) ≤ an * fb := mul_le_mul han.1 hfb.1 q2.le an0.le
  have U2 : an * fb ≤ (anh : R) * (fbh : R) :=
    mul_le_mul han.2 hfb.2 fb0.le (le_trans an0.le han.2)
  have hq : 0 ≤ |bn * fa - an * fb| / (bn * fa) := div_nonneg (abs_nonneg _) den0.le
  have hmul : |bn * fa - an * fb| / (bn * fa) * (bn * fa) = |bn * fa - an * fb| :=
    div_mul_cancel₀ _ (ne_of_gt den0)
  rw [key, abs_div, abs_of_pos den0]
  constructor
  · have hstep : |bn * fa - an * fb|
        ≤ |bn * fa - an * fb| / (bn * fa) * ((bnh * fah : ℕ) : R) := by
      calc |bn * fa - an * fb| = |bn * fa - an * fb| / (bn * fa) * (bn * fa) := hmul.symm
        _ ≤ |bn * fa - an * fb| / (bn * fa) * ((bnh * fah : ℕ) : R) := by
            apply mul_le_mul_of_nonneg_left _ hq
            push_cast
            exact U1
    refine le_trans ?_ hstep
    rw [Nat.cast_add]
    rcases le_total 0 (bn * fa - an * fb) with hpos | hneg
    · have hz : anl * fbl - bnh * fah = 0 := by
        apply Nat.sub_eq_zero_of_le
        have : ((anl * fbl : ℕ) : R) ≤ ((bnh * fah : ℕ) : R) := by
          push_cast
          linarith
        exact_mod_cast this
      rw [hz, Nat.cast_zero, add_zero, abs_of_nonneg hpos]
      rcases Nat.eq_zero_or_pos (bnl * fal - anh * fbh) with h0 | h0
      · rw [h0, Nat.cast_zero]
        exact hpos
      · rw [natCast_sub_of_pos _ _ h0]
        push_cast
        linarith
    · have hz : bnl * fal - anh * fbh = 0 := by
        apply Nat.sub_eq_zero_of_le
        have : ((bnl * fal : ℕ) : R) ≤ ((anh * fbh : ℕ) : R) := by
          push_cast
          linarith
        exact_mod_cast this
      rw [hz, Nat.cast_zero, zero_add, abs_of_nonpos hneg]
      rcases Nat.eq_zero_or_pos (anl * fbl - bnh * fah) with h0 | h0
      · rw [h0, Nat.cast_zero]
        linarith
      · rw [natCast_sub_of_pos _ _ h0]
        push_cast
        linarith
  · have hstep : |bn * fa - an * fb| / (bn * fa) * ((bnl * fal : ℕ) : R)
        ≤ |bn * fa - an * fb| := by
      calc |bn * fa - an * fb| / (bn * fa) * ((bnl * fal : ℕ) : R)
          ≤ |bn * fa - an * fb| / (bn * fa) * (bn * fa) := by
            apply mul_le_mul_of_nonneg_left _ hq
            push_cast
            exact L1
        _ = |bn * fa - an * fb| := hmul
    refine le_trans hstep ?_
    rw [Nat.cast_add]
    have u1 := natCast_sub_ge (R := R) (bnh * fah) (anl * fbl)
    have u2 := natCast_sub_ge (R := R) (anh * fbh) (bnl * fal)
    have v1 : (0 : R) ≤ ((bnh * fah - anl * fbl : ℕ) : R) := Nat.cast_nonneg _
    have v2 : (0 : R) ≤ ((anh * fbh - bnl * fal : ℕ) : R) := Nat.cast_nonneg _
    push_cast at u1 u2
    rw [abs_le]
    constructor <;> linarith

/-- The bounds of `lukeBoxNew` hold for `D·μ·An` and `D·μ·Bn` when the bounds
of the box hold for the six values times `μ`. -/
theorem lukeBoxNew_bounds (a c x : ℕ) (b : LukeBox) (hok : (lukeBoxNew a c x b).ok = true)
    (μ A1 A2 A3 B1 B2 B3 : R)
    (hA1 : (b.a1l : R) ≤ μ * A1 ∧ μ * A1 ≤ (b.a1h : R))
    (hA2 : (b.a2l : R) ≤ μ * A2 ∧ μ * A2 ≤ (b.a2h : R))
    (hA3 : (b.a3l : R) ≤ μ * A3 ∧ μ * A3 ≤ (b.a3h : R))
    (hB1 : (b.b1l : R) ≤ μ * B1 ∧ μ * B1 ≤ (b.b1h : R))
    (hB2 : (b.b2l : R) ≤ μ * B2 ∧ μ * B2 ≤ (b.b2h : R))
    (hB3 : (b.b3l : R) ≤ μ * B3 ∧ μ * B3 ≤ (b.b3h : R)) :
    0 < (lukeBoxNew a c x b).D ∧
    (0 < (lukeBoxNew a c x b).anl →
      ((lukeBoxNew a c x b).anl : R) ≤ ((lukeBoxNew a c x b).D : R)
        * (μ * hyperg_1F1_luke_rec (a : R) (c : R) (x : R) ((x : R) * (x : R) * (x : R))
            (b.n : ℤ) A1 A2 A3)) ∧
    ((lukeBoxNew a c x b).D : R)
        * (μ * hyperg_1F1_luke_rec (a : R) (c : R) (x : R) ((x : R) * (x : R) * (x : R))
            (b.n : ℤ) A1 A2 A3) ≤ ((lukeBoxNew a c x b).anh : R) ∧
    (0 < (lukeBoxNew a c x b).bnl →
      ((lukeBoxNew a c x b).bnl : R) ≤ ((lukeBoxNew a c x b).D : R)
        * (μ * hyperg_1F1_luke_rec (a : R) (c : R) (x : R) ((x : R) * (x : R) * (x : R))
            (b.n : ℤ) B1 B2 B3)) ∧
    ((lukeBoxNew a c x b).D : R)
        * (μ * hyperg_1F1_luke_rec (a : R) (c : R) (x : R) ((x : R) * (x : R) * (x : R))
            (b.n : ℤ) B1 B2 B3) ≤ ((lukeBoxNew a c x b).bnh : R) := by
  simp only [lukeBoxNew, Bool.and_eq_true, Nat.ble_eq, Nat.blt_eq] at hok
  obtain ⟨⟨⟨⟨h3, ha⟩, hc⟩, hQ⟩, hD⟩ := hok
  have cA := luke_rec_coeff (R := R) a c x b.n h3 ha hc hQ hD (μ * A1) (μ * A2) (μ * A3)
  have cB := luke_rec_coeff (R := R) a c x b.n h3 ha hc hQ hD (μ * B1) (μ * B2) (μ * B3)
  rw [luke_rec_smul] at cA cB
  simp only [lukeBoxNew]
  rw [cA, cB]
  exact ⟨hD, (natCast_comb_bounds _ _ _ _ _ _ _ _ _ _ _ _ hA1 hA2 hA3).1,
    (natCast_comb_bounds _ _ _ _ _ _ _ _ _ _ _ _ hA1 hA2 hA3).2,
    (natCast_comb_bounds _ _ _ _ _ _ _ _ _ _ _ _ hB1 hB2 hB3).1,
    (natCast_comb_bounds _ _ _ _ _ _ _ _ _ _ _ _ hB1 hB2 hB3).2⟩

/-- Bounds for `v / S` from bounds for `v`, rounded outwards. -/
theorem natCast_div_bounds (l h S : ℕ) (hS : 0 < S) (v : R)
    (hv : (l : R) ≤ v ∧ v ≤ (h : R)) :
    ((l / S : ℕ) : R) ≤ v / (S : R) ∧ v / (S : R) ≤ (((h + (S - 1)) / S : ℕ) : R) := by
  have hS' : (0 : R) < (S : R) := by exact_mod_cast hS
  exact ⟨le_trans (natCast_div_floor l S) (div_le_div_of_nonneg_right hv.1 hS'.le),
    le_trans (div_le_div_of_nonneg_right hv.2 hS'.le) (natCast_div_ceil h S hS)⟩

/-- Bounds for `D · v / S` from bounds for `v`, rounded outwards. -/
theorem natCast_mul_div_bounds (D l h S : ℕ) (hS : 0 < S) (v : R)
    (hv : (l : R) ≤ v ∧ v ≤ (h : R)) :
    ((D * l / S : ℕ) : R) ≤ (D : R) * v / (S : R)
      ∧ (D : R) * v / (S : R) ≤ (((D * h + (S - 1)) / S : ℕ) : R) := by
  have hD : (0 : R) ≤ (D : R) := Nat.cast_nonneg D
  apply natCast_div_bounds (D * l) (D * h) S hS
  push_cast
  exact ⟨mul_le_mul_of_nonneg_left hv.1 hD, mul_le_mul_of_nonneg_left hv.2 hD⟩

/-- A pass of `lukeBoxStep` is a pass of the loop of `hyperg_1F1_luke` that
goes on: when the bounds `b` hold for the state `s` and the step gives `b'`,
the loop continues from a state for which `b'` holds. -/
theorem lukeBoxStep_sound (E : Env R) (a c x T W M : ℕ) (hE : E.GSL_MACH_EPS * (M : R) ≤ 1)
    (b b' : LukeBox) (s : LukeState R) (hs : b.Holds s)
    (hb : lukeBoxStep a c x T W M b = some b') :
    ∃ s' : LukeState R, b'.Holds s' ∧ ∀ k : ℕ,
      hyperg_1F1_luke_loop E (a : R) (c : R) (x : R) ((x : R) * (x : R) * (x : R)) (k + 1) s
        = hyperg_1F1_luke_loop E (a : R) (c : R) (x : R) ((x : R) * (x : R) * (x : R)) k s' := by
  obtain ⟨hn, μ, fa, fb, hμ, hF, hfa, hfb, hA1, hA2, hA3, hB1, hB2, hB3⟩ := hs
  unfold lukeBoxStep at hb
  dsimp only at hb
  generalize hSdef : (if Nat.ble T (lukeBoxNew a c x b).bnh = true then W else 1) = S at hb
  split_ifs at hb with hcond
  simp only [Bool.and_eq_true, Nat.ble_eq, Nat.blt_eq] at hcond
  obtain ⟨⟨⟨⟨⟨⟨⟨hok, han0⟩, hbn0⟩, hfal⟩, hfbl⟩, hn5⟩, hcont⟩, hW⟩ := hcond
  have hb' := Option.some.inj hb
  subst hb'
  obtain ⟨hD, hAl, hAh, hBl, hBh⟩ := lukeBoxNew_bounds a c x b hok μ s.Anm1 s.Anm2 s.Anm3
    s.Bnm1 s.Bnm2 s.Bnm3 hA1 hA2 hA3 hB1 hB2 hB3
  have hAl := hAl han0
  have hBl := hBl hbn0
  rw [← hn] at hAl hAh hBl hBh
  generalize hAdef : hyperg_1F1_luke_rec (a : R) (c : R) (x : R) ((x : R) * (x : R) * (x : R))
    s.n s.Anm1 s.Anm2 s.Anm3 = A at hAl hAh
  generalize hBdef : hyperg_1F1_luke_rec (a : R) (c : R) (x : R) ((x : R) * (x : R) * (x : R))
    s.n s.Bnm1 s.Bnm2 s.Bnm3 = B at hBl hBh
  generalize hv : lukeBoxNew a c x b = v at *
  have hD' : (0 : R) < (v.D : R) := by exact_mod_cast hD
  have hDμ : (v.D : R) * μ ≠ 0 := ne_of_gt (mul_pos hD' hμ)
  have hratio : (v.D : R) * (μ * A) / ((v.D : R) * (μ * B)) = A / B := by
    rw [← mul_assoc, ← mul_assoc, mul_div_mul_left _ _ hDμ]
  have hp := luke_prec_bounds fa fb ((v.D : R) * (μ * A)) ((v.D : R) * (μ * B))
    b.fal b.fah b.fbl b.fbh v.anl v.anh v.bnl v.bnh hfa hfb ⟨hAl, hAh⟩ ⟨hBl, hBh⟩
    hfal hfbl han0 hbn0
  rw [hratio, ← hF] at hp
  have hdhi : (0 : R) < ((v.bnh * b.fah : ℕ) : R) := by
    have h1 : (0 : R) < (v.bnl : R) := by exact_mod_cast hbn0
    have h2 : (0 : R) < (b.fal : R) := by exact_mod_cast hfal
    have h3 : (0 : R) < (v.bnh : R) := lt_of_lt_of_le h1 (le_trans hBl hBh)
    have h4 : (0 : R) < (b.fah : R) := lt_of_lt_of_le h2 (le_trans hfa.1 hfa.2)
    push_cast
    exact mul_pos h3 h4
  have hprec : E.GSL_MACH_EPS ≤ |(s.F - A / B) / s.F| := by
    have hc1 : ((v.bnh * b.fah : ℕ) : R)
        ≤ (((v.bnl * b.fal - v.anh * b.fbh) + (v.anl * b.fbl - v.bnh * b.fah) : ℕ) : R)
          * (M : R) := by exact_mod_cast hcont
    have hM0 : (0 : R) ≤ (M : R) := Nat.cast_nonneg M
    have hc2 : ((v.bnh * b.fah : ℕ) : R)
        ≤ |(s.F - A / B) / s.F| * (M : R) * ((v.bnh * b.fah : ℕ) : R) := by
      calc ((v.bnh * b.fah : ℕ) : R)
          ≤ (((v.bnl * b.fal - v.anh * b.fbh) + (v.anl * b.fbl - v.bnh * b.fah) : ℕ) : R)
            * (M : R) := hc1
        _ ≤ (|(s.F - A / B) / s.F| * ((v.bnh * b.fah : ℕ) : R)) * (M : R) :=
            mul_le_mul_of_nonneg_right hp.1 hM0
        _ = |(s.F - A / B) / s.F| * (M : R) * ((v.bnh * b.fah : ℕ) : R) := by ring
    have hc3 : 1 ≤ |(s.F - A / B) / s.F| * (M : R) := by
      by_contra hlt
      push_neg at hlt
      have := mul_lt_mul_of_pos_right hlt hdhi
      linarith
    have hMpos : (0 : R) < (M : R) := by
      rcases eq_or_lt_of_le hM0 with h0 | h0
      · rw [← h0] at hc3
        linarith
      · exact h0
    have hc4 : E.GSL_MACH_EPS * (M : R) ≤ |(s.F - A / B) / s.F| * (M : R) := le_trans hE hc3
    exact le_of_mul_le_mul_right hc4 hMpos
  have hnot : ¬ (|(s.F - A / B) / s.F| < E.GSL_MACH_EPS ∨ s.n > 5000) := by
    rintro (h | h)
    · exact absurd h (not_lt.mpr hprec)
    · rw [hn] at h
      have : (b.n : ℤ) ≤ 5000 := by exact_mod_cast hn5
      omega
  have hS : 0 < S := by
    rw [← hSdef]
    split_ifs
    · exact hW
    · exact one_pos
  have hS' : (0 : R) < (S : R) := by exact_mod_cast hS
  have next : ∀ lam : R, 0 < lam → ∀ s' : LukeState R, s'.n = s.n + 1 → s'.F = A / B →
      s'.Anm1 = lam * A → s'.Anm2 = lam * s.Anm1 → s'.Anm3 = lam * s.Anm2 →
      s'.Bnm1 = lam * B → s'.Bnm2 = lam * s.Bnm1 → s'.Bnm3 = lam * s.Bnm2 →
      LukeBox.Holds
        { n := b.n + 1, fal := v.anl / S, fah := (v.anh + (S - 1)) / S,
          fbl := v.bnl / S, fbh := (v.bnh + (S - 1)) / S,
          a1l := v.anl / S, a1h := (v.anh + (S - 1)) / S,
          a2l := v.D * b.a1l / S, a2h := (v.D * b.a1h + (S - 1)) / S,
          a3l := v.D * b.a2l / S, a3h := (v.D * b.a2h + (S - 1)) / S,
          b1l := v.bnl / S, b1h := (v.bnh + (S - 1)) / S,
          b2l := v.D * b.b1l / S, b2h := (v.D * b.b1h + (S - 1)) / S,
          b3l := v.D * b.b2l / S, b3h := (v.D * b.b2h + (S - 1)) / S } s' := by
    intro lam hlam s' en eF e1 e2 e3 f1 f2 f3
    have hlam' : lam ≠ 0 := ne_of_gt hlam
    have hSne : (S : R) ≠ 0 := ne_of_gt hS'
    have c1 : (v.D : R) * μ / ((S : R) * lam) * s'.Anm1 = (v.D : R) * (μ * A) / (S : R) := by
      rw [e1]; field_simp; ring
    have c2 : (v.D : R) * μ / ((S : R) * lam) * s'.Anm2
        = (v.D : R) * (μ * s.Anm1) / (S : R) := by
      rw [e2]; field_simp; ring
    have c3 : (v.D : R) * μ / ((S : R) * lam) * s'.Anm3
        = (v.D : R) * (μ * s.Anm2) / (S : R) := by
      rw [e3]; field_simp; ring
    have d1 : (v.D : R) * μ / ((S : R) * lam) * s'.Bnm1 = (v.D : R) * (μ * B) / (S : R) := by
      rw [f1]; field_simp; ring
    have d2 : (v.D : R) * μ / ((S : R) * lam) * s'.Bnm2
        = (v.D : R) * (μ * s.Bnm1) / (S : R) := by
      rw [f2]; field_simp; ring
    have d3 : (v.D : R) * μ / ((S : R) * lam) * s'.Bnm3
        = (v.D : R) * (μ * s.Bnm2) / (S : R) := by
      rw [f3]; field_simp; ring
    refine ⟨?_, (v.D : R) * μ / ((S : R) * lam), (v.D : R) * (μ * A) / (S : R),
      (v.D : R) * (μ * B) / (S : R), ?_, ?_, ?_, ?_, ?_, ?_, ?_, ?_, ?_, ?_⟩
    · rw [en, hn]
      push_cast
      rfl
    · exact div_pos (mul_pos hD' hμ) (mul_pos hS' hlam)
    · rw [eF, div_div_div_cancel_right₀ hSne, hratio]
    · exact natCast_div_bounds v.anl v.anh S hS _ ⟨hAl, hAh⟩
    · exact natCast_div_bounds v.bnl v.bnh S hS _ ⟨hBl, hBh⟩
    · rw [c1]
      exact natCast_div_bounds v.anl v.anh S hS _ ⟨hAl, hAh⟩
    · rw [c2]
      exact natCast_mul_div_bounds v.D b.a1l b.a1h S hS _ hA1
    · rw [c3]
      exact natCast_mul_div_bounds v.D b.a2l b.a2h S hS _ hA2
    · rw [d1]
      exact natCast_div_bounds v.bnl v.bnh S hS _ ⟨hBl, hBh⟩
    · rw [d2]
      exact natCast_mul_div_bounds v.D b.b1l b.b1h S hS _ hB1
    · rw [d3]
      exact natCast_mul_div_bounds v.D b.b2l b.b2h S hS _ hB2
  have hbig : (0 : R) < 10 ^ 50 := by positivity
  by_cases h2 : |A| > 10 ^ 50 ∨ |B| > 10 ^ 50
  · refine ⟨({ n := s.n + 1, F := A / B, prec := |(s.F - A / B) / s.F|,
                    Bnm3 := s.Bnm2 / 10 ^ 50, Bnm2 := s.Bnm1 / 10 ^ 50, Bnm1 := B / 10 ^ 50,
                    Anm3 := s.Anm2 / 10 ^ 50, Anm2 := s.Anm1 / 10 ^ 50, Anm1 := A / 10 ^ 50 } : LukeState R),
      next (1 / 10 ^ 50) (by positivity) _ rfl rfl ?_ ?_ ?_ ?_ ?_ ?_, fun k => ?_⟩
    rotate_right
    · rw [luke_loop_succ, hAdef, hBdef, if_neg hnot, if_pos h2]
    all_goals
      dsimp only
      ring
  · by_cases h3 : |A| < 1 / 10 ^ 50 ∨ |B| < 1 / 10 ^ 50
    · refine ⟨({ n := s.n + 1, F := A / B, prec := |(s.F - A / B) / s.F|,
                    Bnm3 := s.Bnm2 * 10 ^ 50, Bnm2 := s.Bnm1 * 10 ^ 50, Bnm1 := B * 10 ^ 50,
                    Anm3 := s.Anm2 * 10 ^ 50, Anm2 := s.Anm1 * 10 ^ 50, Anm1 := A * 10 ^ 50 } : LukeState R),
        next (10 ^ 50) hbig _ rfl rfl ?_ ?_ ?_ ?_ ?_ ?_, fun k => ?_⟩
      rotate_right
      · rw [luke_loop_succ, hAdef, hBdef, if_neg hnot, if_neg h2, if_pos h3]
      all_goals
        dsimp only
        ring
    · refine ⟨({ n := s.n + 1, F := A / B, prec := |(s.F - A / B) / s.F|,
                    Bnm3 := s.Bnm2, Bnm2 := s.Bnm1, Bnm1 := B,
                    Anm3 := s.Anm2, Anm2 := s.Anm1, Anm1 := A } : LukeState R),
        next 1 one_pos _ rfl rfl ?_ ?_ ?_ ?_ ?_ ?_, fun k => ?_⟩
      rotate_right
      · rw [luke_loop_succ, hAdef, hBdef, if_neg hnot, if_neg h2, if_neg h3]
      all_goals
        dsimp only
        ring

/-- The passes of `lukeBoxRun` are passes of the loop of `hyperg_1F1_luke`
that go on. -/
theorem lukeBoxRun_sound (E : Env R) (a c x T W M : ℕ) (hE : E.GSL_MACH_EPS * (M : R) ≤ 1)
    (m : ℕ) : ∀ (b b' : LukeBox) (s : LukeState R), b.Holds s →
    lukeBoxRun a c x T W M m b = some b' →
    ∃ s' : LukeState R, b'.Holds s' ∧ ∀ k : ℕ,
      hyperg_1F1_luke_loop E (a : R) (c : R) (x : R) ((x : R) * (x : R) * (x : R)) (k + m) s
        = hyperg_1F1_luke_loop E (a : R) (c : R) (x : R) ((x : R) * (x : R) * (x : R)) k s' := by
  induction m with
  | zero =>
    intro b b' s hs hb
    have hb' : b = b' := Option.some.inj hb
    subst hb'
    exact ⟨s, hs, fun k => rfl⟩
  | succ m ih =>
    intro b b' s hs hb
    unfold lukeBoxRun at hb
    cases h : lukeBoxStep a c x T W M b with
    | none => rw [h] at hb; exact absurd hb (by simp)
    | some b1 =>
      rw [h] at hb
      obtain ⟨s1, hs1, e1⟩ := lukeBoxStep_sound E a c x T W M hE b b1 s hs h
      obtain ⟨s', hs', e2⟩ := ih b1 b' s1 hs1 hb
      refine ⟨s', hs', fun k => ?_⟩
      rw [← e2 k, ← e1 (k + m)]
      rfl

/-- The rounds of `lukeBoxRuns` are passes of the loop of `hyperg_1F1_luke`
that go on. -/
theorem lukeBoxRuns_sound (E : Env R) (a c x T W M : ℕ) (hE : E.GSL_MACH_EPS * (M : R) ≤ 1)
    (m j : ℕ) : ∀ (b b' : LukeBox) (s : LukeState R), b.Holds s →
    lukeBoxRuns a c x T W M m j b = some b' →
    ∃ s' : LukeState R, b'.Holds s' ∧ ∀ k : ℕ,
      hyperg_1F1_luke_loop E (a : R) (c : R) (x : R) ((x : R) * (x : R) * (x : R)) (k + j * m) s
        = hyperg_1F1_luke_loop E (a : R) (c : R) (x : R) ((x : R) * (x : R) * (x : R)) k s' := by
  induction j with
  | zero =>
    intro b b' s hs hb
    have hb' : b = b' := Option.some.inj hb
    subst hb'
    refine ⟨s, hs, fun k => ?_⟩
    rw [Nat.zero_mul, Nat.add_zero]
  | succ j ih =>
    intro b b' s hs hb
    unfold lukeBoxRuns at hb
    cases h : lukeBoxRun a c x T W M m b with
    | none => rw [h] at hb; exact absurd hb (by simp)
    | some b1 =>
      rw [h] at hb
      obtain ⟨s1, hs1, e1⟩ := lukeBoxRun_sound E a c x T W M hE m b b1 s hs h
      obtain ⟨s', hs', e2⟩ := ih b1 b' s1 hs1 hb
      refine ⟨s', hs', fun k => ?_⟩
      rw [← e2 k, ← e1 (k + j * m)]
      congr 1
      rw [Nat.succ_mul]
      omega

/-- The pass of `lukeBoxLast` is the pass of the loop of `hyperg_1F1_luke`
that leaves at the cap, and the relative change it writes lies within the
bounds asked for. -/
theorem lukeBoxLast_sound (E : Env R) (a c x : ℕ) (b : LukeBox) (s : LukeState R)
    (hs : b.Holds s) (loN loD hiN hiD : ℕ) (h : lukeBoxLast a c x b loN loD hiN hiD = true)
    (k : ℕ) :
    (loN : R) < (hyperg_1F1_luke_loop E (a : R) (c : R) (x : R) ((x : R) * (x : R) * (x : R))
        (k + 1) s).prec * (loD : R) ∧
    (hyperg_1F1_luke_loop E (a : R) (c : R) (x : R) ((x : R) * (x : R) * (x : R))
        (k + 1) s).prec * (hiD : R) ≤ (hiN : R) := by
  obtain ⟨hn, μ, fa, fb, hμ, hF, hfa, hfb, hA1, hA2, hA3, hB1, hB2, hB3⟩ := hs
  unfold lukeBoxLast at h
  dsimp only at h
  simp only [Bool.and_eq_true, Nat.ble_eq, Nat.blt_eq] at h
  obtain ⟨⟨⟨⟨⟨⟨⟨hok, han0⟩, hbn0⟩, hfal⟩, hfbl⟩, hn5⟩, hlo⟩, hhi⟩ := h
  obtain ⟨hD, hAl, hAh, hBl, hBh⟩ := lukeBoxNew_bounds a c x b hok μ s.Anm1 s.Anm2 s.Anm3
    s.Bnm1 s.Bnm2 s.Bnm3 hA1 hA2 hA3 hB1 hB2 hB3
  have hAl := hAl han0
  have hBl := hBl hbn0
  rw [← hn] at hAl hAh hBl hBh
  generalize hAdef : hyperg_1F1_luke_rec (a : R) (c : R) (x : R) ((x : R) * (x : R) * (x : R))
    s.n s.Anm1 s.Anm2 s.Anm3 = A at hAl hAh
  generalize hBdef : hyperg_1F1_luke_rec (a : R) (c : R) (x : R) ((x : R) * (x : R) * (x : R))
    s.n s.Bnm1 s.Bnm2 s.Bnm3 = B at hBl hBh
  generalize hv : lukeBoxNew a c x b = v at *
  have hD' : (0 : R) < (v.D : R) := by exact_mod_cast hD
  have hDμ : (v.D : R) * μ ≠ 0 := ne_of_gt (mul_pos hD' hμ)
  have hratio : (v.D : R) * (μ * A) / ((v.D : R) * (μ * B)) = A / B := by
    rw [← mul_assoc, ← mul_assoc, mul_div_mul_left _ _ hDμ]
  have hp := luke_prec_bounds fa fb ((v.D : R) * (μ * A)) ((v.D : R) * (μ * B))
    b.fal b.fah b.fbl b.fbh v.anl v.anh v.bnl v.bnh hfa hfb ⟨hAl, hAh⟩ ⟨hBl, hBh⟩
    hfal hfbl han0 hbn0
  rw [hratio, ← hF] at hp
  have h1 : (0 : R) < (v.bnl : R) := by exact_mod_cast hbn0
  have h2 : (0 : R) < (b.fal : R) := by exact_mod_cast hfal
  have hdlo : (0 : R) < ((v.bnl * b.fal : ℕ) : R) := by
    push_cast
    exact mul_pos h1 h2
  have hdhi : (0 : R) < ((v.bnh * b.fah : ℕ) : R) := by
    have h3 : (0 : R) < (v.bnh : R) := lt_of_lt_of_le h1 (le_trans hBl hBh)
    have h4 : (0 : R) < (b.fah : R) := lt_of_lt_of_le h2 (le_trans hfa.1 hfa.2)
    push_cast
    exact mul_pos h3 h4
  have hexit : |(s.F - A / B) / s.F| < E.GSL_MACH_EPS ∨ s.n > 5000 := by
    right
    rw [hn]
    have : (5000 : ℤ) < (b.n : ℤ) := by exact_mod_cast hn5
    omega
  rw [luke_loop_succ, hAdef, hBdef, if_pos hexit]
  dsimp only
  generalize |(s.F - A / B) / s.F| = q at hp ⊢
  have hlo' : ((loN * (v.bnh * b.fah) : ℕ) : R)
      < (((v.bnl * b.fal - v.anh * b.fbh + (v.anl * b.fbl - v.bnh * b.fah)) * loD : ℕ) : R) := by
    exact_mod_cast hlo
  have hhi' : (((v.bnh * b.fah - v.anl * b.fbl + (v.anh * b.fbh - v.bnl * b.fal)) * hiD : ℕ) : R)
      ≤ ((hiN * (v.bnl * b.fal) : ℕ) : R) := by
    exact_mod_cast hhi
  rw [Nat.cast_mul] at hlo' hhi'
  rw [Nat.cast_mul _ loD] at hlo'
  rw [Nat.cast_mul hiN] at hhi'
  have hloD : (0 : R) ≤ (loD : R) := Nat.cast_nonneg loD
  have hhiD : (0 : R) ≤ (hiD : R) := Nat.cast_nonneg hiD
  constructor
  · have e1 := mul_le_mul_of_nonneg_right hp.1 hloD
    have e2 : (loN : R) * ((v.bnh * b.fah : ℕ) : R) < q * (loD : R) * ((v.bnh * b.fah : ℕ) : R) := by
      calc (loN : R) * ((v.bnh * b.fah : ℕ) : R) < _ := hlo'
        _ ≤ q * ((v.bnh * b.fah : ℕ) : R) * (loD : R) := e1
        _ = q * (loD : R) * ((v.bnh * b.fah : ℕ) : R) := by ring
    exact lt_of_mul_lt_mul_right e2 hdhi.le
  · have e1 := mul_le_mul_of_nonneg_right hp.2 hhiD
    have e2 : q * (hiD : R) * ((v.bnl * b.fal : ℕ) : R) ≤ (hiN : R) * ((v.bnl * b.fal : ℕ) : R) := by
      calc q * (hiD : R) * ((v.bnl * b.fal : ℕ) : R)
          = q * ((v.bnl * b.fal : ℕ) : R) * (hiD : R) := by ring
        _ ≤ _ := e1
        _ ≤ (hiN : R) * ((v.bnl * b.fal : ℕ) : R) := hhi'
    exact le_of_mul_le_mul_right e2 hdlo

/-- When `lukeBoxCheck` holds for bounds `b0` that hold for a state `s0`, the
loop of `hyperg_1F1_luke`, started at `s0` with `j·m + 1` passes allowed or
more, leaves with a relative change within the bounds asked for. -/
theorem lukeBoxCheck_sound (E : Env R) (a c x T W M m j : ℕ)
    (hE : E.GSL_MACH_EPS * (M : R) ≤ 1) (b0 : LukeBox) (s0 : LukeState R) (hs : b0.Holds s0)
    (loN loD hiN hiD : ℕ) (h : lukeBoxCheck a c x T W M m j b0 loN loD hiN hiD = true)
    (k : ℕ) :
    (loN : R) < (hyperg_1F1_luke_loop E (a : R) (c : R) (x : R) ((x : R) * (x : R) * (x : R))
        (k + 1 + j * m) s0).prec * (loD : R) ∧
    (hyperg_1F1_luke_loop E (a : R) (c : R) (x : R) ((x : R) * (x : R) * (x : R))
        (k + 1 + j * m) s0).prec * (hiD : R) ≤ (hiN : R) := by
  unfold lukeBoxCheck at h
  cases hr : lukeBoxRuns a c x T W M m j b0 with
  | none => rw [hr] at h; exact absurd h (by simp)
  | some b =>
    rw [hr] at h
    obtain ⟨s, hs', e⟩ := lukeBoxRuns_sound E a c x T W M hE m j b0 b s0 hs hr
    rw [e (k + 1)]
    exact lukeBoxLast_sound E a c x b s hs' loN loD hiN hiD h k

/-- The bounds `lukeBoxInit_1_2 x` hold for the state in which
`hyperg_1F1_luke(1, 2, -x)` enters its loop. -/
theorem lukeBoxInit_1_2_holds (x : ℕ) :
    (lukeBoxInit_1_2 x).Holds (hyperg_1F1_luke_init (1 : R) 2 (-(x : R))) := by
  have e1 : (12 : R) * (hyperg_1F1_luke_init (1 : R) 2 (-(x : R))).Anm1 = 12 := by
    simp only [hyperg_1F1_luke_init]
    ring
  have e2 : (12 : R) * (hyperg_1F1_luke_init (1 : R) 2 (-(x : R))).Anm2 = 12 := by
    simp only [hyperg_1F1_luke_init]
    ring
  have e3 : (12 : R) * (hyperg_1F1_luke_init (1 : R) 2 (-(x : R))).Bnm1
      = 12 + 6 * (x : R) + (x : R) * (x : R) := by
    simp only [hyperg_1F1_luke_init]
    ring
  have e4 : (12 : R) * (hyperg_1F1_luke_init (1 : R) 2 (-(x : R))).Bnm2
      = 12 + 6 * (x : R) := by
    simp only [hyperg_1F1_luke_init]
    ring
  refine ⟨rfl, 12, 1, 1, by norm_num, ?_, ?_, ?_, ?_, ?_, ?_, ?_, ?_, ?_⟩
  · simp [hyperg_1F1_luke_init]
  · simp [lukeBoxInit_1_2]
  · simp [lukeBoxInit_1_2]
  · rw [e1]; simp [lukeBoxInit_1_2]
  · rw [e2]; simp [lukeBoxInit_1_2]
  · simp [lukeBoxInit_1_2, hyperg_1F1_luke_init]
  · rw [e3]; simp [lukeBoxInit_1_2]
  · rw [e4]; simp [lukeBoxInit_1_2]
  · simp [lukeBoxInit_1_2, hyperg_1F1_luke_init]

/-- What `lukeBoxCheck` shows of `hyperg_1F1_luke(1, 2, -x)`: the loop leaves
at the cap and the relative change it reports lies within the bounds asked
for. -/
theorem luke_1_2_prec_of_check (E : Env R) (x T W M : ℕ) (hE : E.GSL_MACH_EPS * (M : R) ≤ 1)
    (loN loD hiN hiD : ℕ)
    (h : lukeBoxCheck 1 2 x T W M 102 49 (lukeBoxInit_1_2 x) loN loD hiN hiD = true) :
    (loN : R) < (hyperg_1F1_luke E 1 2 (-(x : R))).prec * (loD : R) ∧
    (hyperg_1F1_luke E 1 2 (-(x : R))).prec * (hiD : R) ≤ (hiN : R) := by
  have key := lukeBoxCheck_sound E 1 2 x T W M 102 49 hE (lukeBoxInit_1_2 x)
    (hyperg_1F1_luke_init (1 : R) 2 (-(x : R))) (lukeBoxInit_1_2_holds x) loN loD hiN hiD h 1
  rw [luke_prec_eq_final]
  unfold hyperg_1F1_luke_final
  have e5 : (1 + 1 + 49 * 102 : ℕ) = 5000 := by norm_num
  rw [e5] at key
  simp only [Nat.cast_one, Nat.cast_ofNat] at key
  rw [neg_neg]
  exact key

end LukeBoxLemmas

/-! ## The last branch of the dispatcher and a lost precision -/

section GenericPosLemmas

variable {R : Type} [LinearOrderedField R] [FloorRing R]

/-- In the last branch of the ladder the real dispatcher returns what
`hyperg_1F1_ab_pos(a, b, x)` returns (line 1549). -/
theorem impl_of_regime_generic_pos (E : Env R) (fuel : ℕ) (a b x : R)
    (hreg : gsl_sf_hyperg_1F1_regime E a b x = .generic_pos) :
    gsl_sf_hyperg_1F1_impl E fuel a b x = hyperg_1F1_ab_pos E fuel a b x := by
  unfold gsl_sf_hyperg_1F1_regime at hreg
  obtain ⟨h1, hreg⟩ := ite_else_of_ne hreg (by decide)
  obtain ⟨h2, hreg⟩ := ite_else_of_ne hreg (by decide)
  obtain ⟨h3, hreg⟩ := ite_else_of_ne hreg (by decide)
  obtain ⟨h4, hreg⟩ := ite_else_of_ne hreg (by decide)
  obtain ⟨h5, hreg⟩ := ite_else_of_ne hreg (by decide)
  obtain ⟨h6, hreg⟩ := ite_else_of_ne hreg (by decide)
  obtain ⟨h7, hreg⟩ := ite_else_of_ne hreg (by decide)
  obtain ⟨h8, hreg⟩ := ite_else_of_ne hreg (by decide)
  obtain ⟨h9, hreg⟩ := ite_else_of_ne hreg (by decide)
  obtain ⟨h10, hreg⟩ := ite_else_of_ne hreg (by decide)
  obtain ⟨h11, hreg⟩ := ite_else_of_ne hreg (by decide)
  obtain ⟨h12, hreg⟩ := ite_else_of_ne hreg (by decide)
  obtain ⟨h13, hreg⟩ := ite_else_of_ne hreg (by decide)
  obtain ⟨h14, hreg⟩ := ite_else_of_ne hreg (by decide)
  obtain ⟨h15, hreg⟩ := ite_else_of_ne hreg (by decide)
  obtain ⟨h16, hreg⟩ := ite_else_of_ne hreg (by decide)
  unfold gsl_sf_hyperg_1F1_impl
  dsimp only
  rw [if_neg h1, if_neg h2, if_neg h3, if_neg h4, if_neg h5, if_neg h6, if_neg h7, if_neg h8,
    if_neg h9, if_neg h10, if_neg h11, if_neg h12, if_neg h13, if_neg h14, if_neg h15,
    if_neg h16]

end GenericPosLemmas

/-- With a series primitive that reports a loss of precision, the two seeds
that `hyperg_1F1_ab_pos(20.5, 8, 1)` asks of `hyperg_1F1_beps_bgt0` come back
with success. -/
theorem beps_loss_examples :
    hyperg_1F1_beps_bgt0 lossEnv 0 (1 / 2 - 1) 8 1 = .ok (1217 / 512, .GSL_SUCCESS) ∧
    hyperg_1F1_beps_bgt0 lossEnv 0 (1 / 2) 8 1 = .ok (1345 / 512, .GSL_SUCCESS) := by
  constructor
  · norm_num [hyperg_1F1_beps_bgt0, hyperg_1F1_small_a_bgt0, lossEnv, ratEnv, abs_of_pos]
  · norm_num [hyperg_1F1_beps_bgt0, hyperg_1F1_small_a_bgt0, lossEnv, ratEnv, abs_of_pos]

/-- With a series primitive that reports a loss of precision,
`hyperg_1F1_ab_pos(20.5, 8, 1)` takes the branch `a > b + 1`, `b ≥ -x`, gets
its two seeds from `hyperg_1F1_beps_bgt0` with success, and returns the
result of twelve steps of the forward recurrence with success. -/
theorem ab_pos_loss_example :
    hyperg_1F1_ab_pos lossEnv 0 (41 / 2) 8 1
      = .ok ((hyperg_1F1_ab_pos_forward 8 1 (41 / 2 - 1 / 10) 12 (8 + 1 / 2)
          (1217 / 512) (1345 / 512)).2, .GSL_SUCCESS) := by
  have f1 : ⌊(41 / 2 - 8 : ℚ)⌋ = 12 := by
    rw [Int.floor_eq_iff]; norm_num
  have c1 : ⌈(41 / 2 - 1 / 10 - (8 + (41 / 2 - 8 - ((12 : ℤ) : ℚ))) : ℚ)⌉ = 12 := by
    rw [Int.ceil_eq_iff]; norm_num
  have a1 : |(1 : ℚ)| = 1 := abs_of_pos (by norm_num)
  have e : (41 / 2 - 8 - ((12 : ℤ) : ℚ)) = 1 / 2 := by norm_num
  unfold hyperg_1F1_ab_pos
  simp only [a1, f1, c1]
  simp only [e, beps_loss_examples.1, beps_loss_examples.2]
  norm_num
  rw [if_neg (by rw [abs_of_pos] <;> norm_num)]
  rfl

/-- The public input `(2.5, 5.5, 11)` selects the branch of
`hyperg_1F1_asymp_posx` in the real dispatcher; there `ln_pre + log|F|` is
below `GSL_LOG_DBL_MAX`, and the dispatcher returns success when the
unassigned `ln_F` holds 0 and `(0, Overflow)` when it holds 1000. -/
theorem asymp_posx_unassigned_public_example :
    gsl_sf_hyperg_1F1_regime (garbageEnv 0) (5 / 2) (11 / 2) 11 = .asymp_posx ∧
    gsl_sf_hyperg_1F1_regime (garbageEnv 1000) (5 / 2) (11 / 2) 11 = .asymp_posx ∧
    ((garbageEnv 0).gsl_sf_lngamma_sgn_impl (11 / 2)).lg
        - ((garbageEnv 0).gsl_sf_lngamma_sgn_impl (5 / 2)).lg
        + 11 + (5 / 2 - 11 / 2) * (garbageEnv 0).log 11
        + (garbageEnv 0).log
            |((garbageEnv 0).gsl_sf_hyperg_2F0_series_impl (11 / 2 - 5 / 2) (1 - 5 / 2) (1 / 11)
                (-1)).val|
      < (garbageEnv 0).GSL_LOG_DBL_MAX ∧
    (gsl_sf_hyperg_1F1_impl (garbageEnv 0) 0 (5 / 2) (11 / 2) 11).toOption
      = some (hyperg_1F1_asymp_posx (garbageEnv 0) (5 / 2) (11 / 2) 11) ∧
    (hyperg_1F1_asymp_posx (garbageEnv 0) (5 / 2) (11 / 2) 11).2 = .GSL_SUCCESS ∧
    (gsl_sf_hyperg_1F1_impl (garbageEnv 1000) 0 (5 / 2) (11 / 2) 11).toOption
      = some (0, .GSL_EOVRFLW) := by
  decide!

/-! ## A bound on the passes of the series for `a = 1` -/

section SeriesBoundLemmas

variable {R : Type} [LinearOrderedField R]

end SeriesBoundLemmas

section SeriesBoundFloorLemmas

variable {R : Type} [LinearOrderedField R] [FloorRing R]

end SeriesBoundFloorLemmas

/-! ## Properties of the recurrences -/

section RecurLemmas

variable {R : Type} [LinearOrderedField R]

/-- A pass of the forward loop of `hyperg_1F1_ab_pos` is the step
`hyperg_1F1_recur_forward`. -/
theorem ab_pos_forward_succ (b x stop : R) (k : ℕ) (n Mnm1 Mn : R) :
    hyperg_1F1_ab_pos_forward b x stop (k + 1) n Mnm1 Mn
      = if n < stop then
          hyperg_1F1_ab_pos_forward b x stop k (n + 1) Mn (hyperg_1F1_recur_forward b x n Mnm1 Mn)
        else (n, Mn) := rfl

/-- A pass of the backward loop of `hyperg_1F1_ab_pos` is the step
`hyperg_1F1_recur_backward`. -/
theorem ab_pos_backward_succ (b x : R) (k : ℕ) (n Mnp1 Mn : R) :
    hyperg_1F1_ab_pos_backward b x (k + 1) n Mnp1 Mn
      = if n > 1 / 2 then
          hyperg_1F1_ab_pos_backward b x k (n - 1) Mn (hyperg_1F1_recur_backward b x n Mnp1 Mn)
        else (n, Mn) := rfl

/-- A pass of the forward loop of `hyperg_1F1_ab_posint` is the step
`hyperg_1F1_recur_forward` at the integers `b`, `n`. -/
theorem ab_posint_forward_succ (b : ℤ) (x : R) (stop : ℤ) (k : ℕ) (n : ℤ) (Mnm1 Mn : R) :
    hyperg_1F1_ab_posint_forward b x stop (k + 1) n Mnm1 Mn
      = if n < stop then
          hyperg_1F1_ab_posint_forward b x stop k (n + 1) Mn
            (hyperg_1F1_recur_forward (b : R) x (n : R) Mnm1 Mn)
        else Mn := by
  have e : (((b - n : ℤ) : R) * Mnm1 + (((2 * n - b : ℤ) : R) + x) * Mn) / (n : R)
      = hyperg_1F1_recur_forward (b : R) x (n : R) Mnm1 Mn := by
    unfold hyperg_1F1_recur_forward
    push_cast
    ring
  rw [← e]
  rfl

/-- A pass of the backward loop of `hyperg_1F1_ab_posint` is the step
`hyperg_1F1_recur_backward` at the integers `b`, `n`. -/
theorem ab_posint_backward_succ (b : ℤ) (x : R) (k : ℕ) (n : ℤ) (Mnp1 Mn : R) :
    hyperg_1F1_ab_posint_backward b x (k + 1) n Mnp1 Mn
      = if n > 0 then
          hyperg_1F1_ab_posint_backward b x k (n - 1) Mn
            (hyperg_1F1_recur_backward (b : R) x (n : R) Mnp1 Mn)
        else Mn := by
  have e : ((n : R) * Mnp1 - (((2 * n - b : ℤ) : R) + x) * Mn) / ((b - n : ℤ) : R)
      = hyperg_1F1_recur_backward (b : R) x (n : R) Mnp1 Mn := by
    unfold hyperg_1F1_recur_backward
    push_cast
    ring
  rw [← e]
  rfl

/-- With the division for `dv` the loop with a parameter is the loop. -/
theorem ab_posint_forward_par_eq (dv : R → R → R) (hdv : ∀ u d : R, dv u d = u / d)
    (b : ℤ) (x : R) (stop : ℤ) (k : ℕ) :
    ∀ (n : ℤ) (u v : R), hyperg_1F1_ab_posint_forward_par dv b x stop k n u v
      = hyperg_1F1_ab_posint_forward b x stop k n u v := by
  induction k with
  | zero => intro n u v; rfl
  | succ k ih =>
    intro n u v
    unfold hyperg_1F1_ab_posint_forward_par hyperg_1F1_ab_posint_forward
    dsimp only
    rw [hdv, ih]

/-- With the division for `dv` the loop with a parameter is the loop. -/
theorem ab_posint_backward_par_eq (dv : R → R → R) (hdv : ∀ u d : R, dv u d = u / d)
    (b : ℤ) (x : R) (k : ℕ) :
    ∀ (n : ℤ) (u v : R), hyperg_1F1_ab_posint_backward_par dv b x k n u v
      = hyperg_1F1_ab_posint_backward b x k n u v := by
  induction k with
  | zero => intro n u v; rfl
  | succ k ih =>
    intro n u v
    unfold hyperg_1F1_ab_posint_backward_par hyperg_1F1_ab_posint_backward
    dsimp only
    rw [hdv, ih]

/-- With the division for `dv` the loop with a parameter is the loop. -/
theorem ab_pos_forward_par_eq (dv : R → R → R) (hdv : ∀ u d : R, dv u d = u / d)
    (b x stop : R) (k : ℕ) :
    ∀ (n u v : R), hyperg_1F1_ab_pos_forward_par dv b x stop k n u v
      = hyperg_1F1_ab_pos_forward b x stop k n u v := by
  induction k with
  | zero => intro n u v; rfl
  | succ k ih =>
    intro n u v
    unfold hyperg_1F1_ab_pos_forward_par hyperg_1F1_ab_pos_forward
    dsimp only
    rw [hdv, ih]

/-- With the division for `dv` the loop with a parameter is the loop. -/
theorem ab_pos_backward_par_eq (dv : R → R → R) (hdv : ∀ u d : R, dv u d = u / d)
    (b x : R) (k : ℕ) :
    ∀ (n u v : R), hyperg_1F1_ab_pos_backward_par dv b x k n u v
      = hyperg_1F1_ab_pos_backward b x k n u v := by
  induction k with
  | zero => intro n u v; rfl
  | succ k ih =>
    intro n u v
    unfold hyperg_1F1_ab_pos_backward_par hyperg_1F1_ab_pos_backward
    dsimp only
    rw [hdv, ih]

/-- The forward loop of `hyperg_1F1_ab_posint` is homogeneous in its two
seeds. -/
theorem ab_posint_forward_smul (b : ℤ) (x : R) (stop : ℤ) (s : R) (k : ℕ) :
    ∀ (n : ℤ) (u v : R), hyperg_1F1_ab_posint_forward b x stop k n (s * u) (s * v)
      = s * hyperg_1F1_ab_posint_forward b x stop k n u v := by
  induction k with
  | zero => intro n u v; rfl
  | succ k ih =>
    intro n u v
    unfold hyperg_1F1_ab_posint_forward
    dsimp only
    split_ifs
    · rw [← ih]
      congr 1
      ring
    · rfl

/-- The backward loop of `hyperg_1F1_ab_posint` is homogeneous in its two
seeds. -/
theorem ab_posint_backward_smul (b : ℤ) (x : R) (s : R) (k : ℕ) :
    ∀ (n : ℤ) (u v : R), hyperg_1F1_ab_posint_backward b x k n (s * u) (s * v)
      = s * hyperg_1F1_ab_posint_backward b x k n u v := by
  induction k with
  | zero => intro n u v; rfl
  | succ k ih =>
    intro n u v
    unfold hyperg_1F1_ab_posint_backward
    dsimp only
    split_ifs
    · rw [← ih]
      congr 1
      ring
    · rfl

/-- The forward loop of `hyperg_1F1_ab_pos` is homogeneous in its two seeds,
and its final index does not depend on them. -/
theorem ab_pos_forward_smul (b x stop : R) (s : R) (k : ℕ) :
    ∀ (n u v : R), hyperg_1F1_ab_pos_forward b x stop k n (s * u) (s * v)
      = ((hyperg_1F1_ab_pos_forward b x stop k n u v).1,
          s * (hyperg_1F1_ab_pos_forward b x stop k n u v).2) := by
  induction k with
  | zero => intro n u v; rfl
  | succ k ih =>
    intro n u v
    unfold hyperg_1F1_ab_pos_forward
    dsimp only
    split_ifs
    · rw [← ih]
      congr 1
      ring
    · rfl

/-- The backward loop of `hyperg_1F1_ab_pos` is homogeneous in its two seeds,
and its final index does not depend on them. -/
theorem ab_pos_backward_smul (b x : R) (s : R) (k : ℕ) :
    ∀ (n u v : R), hyperg_1F1_ab_pos_backward b x k n (s * u) (s * v)
      = ((hyperg_1F1_ab_pos_backward b x k n u v).1,
          s * (hyperg_1F1_ab_pos_backward b x k n u v).2) := by
  induction k with
  | zero => intro n u v; rfl
  | succ k ih =>
    intro n u v
    unfold hyperg_1F1_ab_pos_backward
    dsimp only
    split_ifs
    · rw [← ih]
      congr 1
      ring
    · rfl

/-- The normalised result `Ma/Mn` of the backward recurrence of
`hyperg_1F1_ab_posint` does not depend on a nonzero seed. -/
theorem ab_posint_backward_seed (b : ℤ) (x : R) (s : R) (hs : s ≠ 0) (k : ℕ) (n : ℤ) (ra : R) :
    s / hyperg_1F1_ab_posint_backward b x k n (ra * s) s
      = 1 / hyperg_1F1_ab_posint_backward b x k n ra 1 := by
  have e := ab_posint_backward_smul b x s k n ra 1
  rw [mul_one, mul_comm s ra] at e
  rw [e]
  nth_rewrite 1 [← mul_one s]
  rw [mul_div_mul_left _ _ hs]

/-- The normalised result `Ma/Mn` of the forward recurrence of
`hyperg_1F1_ab_posint` does not depend on a nonzero seed. -/
theorem ab_posint_forward_seed (b : ℤ) (x : R) (stop : ℤ) (s : R) (hs : s ≠ 0) (k : ℕ) (n : ℤ)
    (ra : R) :
    s / hyperg_1F1_ab_posint_forward b x stop k n s (ra * s)
      = 1 / hyperg_1F1_ab_posint_forward b x stop k n 1 ra := by
  have e := ab_posint_forward_smul b x stop s k n 1 ra
  rw [mul_one, mul_comm s ra] at e
  rw [e]
  nth_rewrite 1 [← mul_one s]
  rw [mul_div_mul_left _ _ hs]

/-- The index and the normalised result `Ma/Mn` of the backward recurrence of
`hyperg_1F1_ab_pos` do not depend on a nonzero seed. -/
theorem ab_pos_backward_seed (b x : R) (s : R) (hs : s ≠ 0) (k : ℕ) (n ra : R) :
    (hyperg_1F1_ab_pos_backward b x k n (ra * s) s).1
        = (hyperg_1F1_ab_pos_backward b x k n ra 1).1 ∧
    s / (hyperg_1F1_ab_pos_backward b x k n (ra * s) s).2
        = 1 / (hyperg_1F1_ab_pos_backward b x k n ra 1).2 := by
  have e := ab_pos_backward_smul b x s k n ra 1
  rw [mul_one, mul_comm s ra] at e
  rw [e]
  refine ⟨rfl, ?_⟩
  dsimp only
  nth_rewrite 1 [← mul_one s]
  rw [mul_div_mul_left _ _ hs]

/-- The index and the normalised result `Ma/Mn` of the forward recurrence of
`hyperg_1F1_ab_pos` do not depend on a nonzero seed. -/
theorem ab_pos_forward_seed (b x stop : R) (s : R) (hs : s ≠ 0) (k : ℕ) (n ra : R) :
    (hyperg_1F1_ab_pos_forward b x stop k n s (ra * s)).1
        = (hyperg_1F1_ab_pos_forward b x stop k n 1 ra).1 ∧
    s / (hyperg_1F1_ab_pos_forward b x stop k n s (ra * s)).2
        = 1 / (hyperg_1F1_ab_pos_forward b x stop k n 1 ra).2 := by
  have e := ab_pos_forward_smul b x stop s k n 1 ra
  rw [mul_one, mul_comm s ra] at e
  rw [e]
  refine ⟨rfl, ?_⟩
  dsimp only
  nth_rewrite 1 [← mul_one s]
  rw [mul_div_mul_left _ _ hs]

/-- With the division and `GSL_SQRT_DBL_MIN` for its parameters,
`hyperg_1F1_ab_posint_par` is `hyperg_1F1_ab_posint`. -/
theorem ab_posint_eq_par (E : Env R) (a b : ℤ) (x : R) :
    hyperg_1F1_ab_posint E a b x
      = hyperg_1F1_ab_posint_par (fun u d => u / d) E.GSL_SQRT_DBL_MIN E a b x := by
  unfold hyperg_1F1_ab_posint hyperg_1F1_ab_posint_par
  simp only [ab_posint_forward_par_eq _ (fun _ _ => rfl),
    ab_posint_backward_par_eq _ (fun _ _ => rfl)]

/-- The result of `hyperg_1F1_ab_posint_par` with the division is the same
for any two nonzero seeds. -/
theorem ab_posint_par_seed (E : Env R) (s t : R) (hs : s ≠ 0) (ht : t ≠ 0) (a b : ℤ) (x : R) :
    hyperg_1F1_ab_posint_par (fun u d => u / d) s E a b x
      = hyperg_1F1_ab_posint_par (fun u d => u / d) t E a b x := by
  unfold hyperg_1F1_ab_posint_par
  simp only [ab_posint_forward_par_eq _ (fun _ _ => rfl),
    ab_posint_backward_par_eq _ (fun _ _ => rfl),
    ab_posint_backward_seed b x s hs, ab_posint_backward_seed b x t ht,
    ab_posint_forward_seed b x b s hs, ab_posint_forward_seed b x b t ht]

/-- The forward loop of `hyperg_1F1_ab_posint` started at an index `n ≥ 1`
divides by numbers `≥ 1` only. -/
theorem ab_posint_forward_par_congr (dv : R → R → R)
    (hdv : ∀ u d : R, 1 ≤ d → dv u d = u / d) (b : ℤ) (x : R) (stop : ℤ) (k : ℕ) :
    ∀ (n : ℤ) (u v : R), 1 ≤ n → hyperg_1F1_ab_posint_forward_par dv b x stop k n u v
      = hyperg_1F1_ab_posint_forward b x stop k n u v := by
  induction k with
  | zero => intro n u v _; rfl
  | succ k ih =>
    intro n u v hn
    unfold hyperg_1F1_ab_posint_forward_par hyperg_1F1_ab_posint_forward
    dsimp only
    rw [hdv _ _ (by exact_mod_cast hn), ih _ _ _ (by omega)]

/-- The backward loop of `hyperg_1F1_ab_posint` started at an index `n < b`
divides by numbers `≥ 1` only. -/
theorem ab_posint_backward_par_congr (dv : R → R → R)
    (hdv : ∀ u d : R, 1 ≤ d → dv u d = u / d) (b : ℤ) (x : R) (k : ℕ) :
    ∀ (n : ℤ) (u v : R), n < b → hyperg_1F1_ab_posint_backward_par dv b x k n u v
      = hyperg_1F1_ab_posint_backward b x k n u v := by
  induction k with
  | zero => intro n u v _; rfl
  | succ k ih =>
    intro n u v hn
    unfold hyperg_1F1_ab_posint_backward_par hyperg_1F1_ab_posint_backward
    dsimp only
    have h1 : (1 : R) ≤ ((b - n : ℤ) : R) := by
      have : (1 : ℤ) ≤ b - n := by omega
      exact_mod_cast this
    rw [hdv _ _ h1, ih _ _ _ (by omega)]

/-- The forward loop of `hyperg_1F1_ab_pos` started at an index `n > 0`
divides by positive numbers only. -/
theorem ab_pos_forward_par_congr (dv : R → R → R)
    (hdv : ∀ u d : R, 0 < d → dv u d = u / d) (b x stop : R) (k : ℕ) :
    ∀ (n u v : R), 0 < n → hyperg_1F1_ab_pos_forward_par dv b x stop k n u v
      = hyperg_1F1_ab_pos_forward b x stop k n u v := by
  induction k with
  | zero => intro n u v _; rfl
  | succ k ih =>
    intro n u v hn
    unfold hyperg_1F1_ab_pos_forward_par hyperg_1F1_ab_pos_forward
    dsimp only
    rw [hdv _ _ hn, ih _ _ _ (by linarith)]

/-- The backward loop of `hyperg_1F1_ab_pos` started at an index `n < b`
divides by positive numbers only. -/
theorem ab_pos_backward_par_congr (dv : R → R → R)
    (hdv : ∀ u d : R, 0 < d → dv u d = u / d) (b x : R) (k : ℕ) :
    ∀ (n u v : R), n < b → hyperg_1F1_ab_pos_backward_par dv b x k n u v
      = hyperg_1F1_ab_pos_backward b x k n u v := by
  induction k with
  | zero => intro n u v _; rfl
  | succ k ih =>
    intro n u v hn
    unfold hyperg_1F1_ab_pos_backward_par hyperg_1F1_ab_pos_backward
    dsimp only
    rw [hdv _ _ (by linarith), ih _ _ _ (by linarith)]

/-- The backward loop of `hyperg_1F1_ab_pos`, started above `-1/2` with
enough passes to come down to `1/2`, ends with an index in `(-1/2, 1/2]`. -/
theorem ab_pos_backward_index (b x : R) (k : ℕ) :
    ∀ (n u v : R), -(1 / 2) < n → n - k ≤ 1 / 2 →
      -(1 / 2) < (hyperg_1F1_ab_pos_backward b x k n u v).1 ∧
      (hyperg_1F1_ab_pos_backward b x k n u v).1 ≤ 1 / 2 := by
  induction k with
  | zero =>
    intro n u v h1 h2
    simp only [Nat.cast_zero, sub_zero] at h2
    exact ⟨h1, h2⟩
  | succ k ih =>
    intro n u v h1 h2
    unfold hyperg_1F1_ab_pos_backward
    dsimp only
    push_cast at h2
    split_ifs with c
    · exact ih _ _ _ (by linarith) (by linarith)
    · exact ⟨h1, not_lt.mp c⟩

/-- Every divisor of the forward loop of `hyperg_1F1_ab_posint` is at least
any bound below the starting index. -/
theorem ab_posint_forward_chk_eq (c : R) (b : ℤ) (x : R) (stop : ℤ) (k : ℕ) :
    ∀ (n : ℤ) (u v : R), c ≤ (n : R) →
      hyperg_1F1_ab_posint_forward_chk (fun d => c ≤ d) b x stop k n u v
        = some (hyperg_1F1_ab_posint_forward b x stop k n u v) := by
  induction k with
  | zero => intro n u v _; rfl
  | succ k ih =>
    intro n u v hn
    unfold hyperg_1F1_ab_posint_forward_chk hyperg_1F1_ab_posint_forward
    dsimp only
    rw [if_pos hn, ih _ _ _ (by push_cast; linarith)]
    split_ifs <;> rfl

/-- Every divisor of the backward loop of `hyperg_1F1_ab_posint` is at least
any bound below `b - n` for the starting index `n`. -/
theorem ab_posint_backward_chk_eq (c : R) (b : ℤ) (x : R) (k : ℕ) :
    ∀ (n : ℤ) (u v : R), c ≤ ((b - n : ℤ) : R) →
      hyperg_1F1_ab_posint_backward_chk (fun d => c ≤ d) b x k n u v
        = some (hyperg_1F1_ab_posint_backward b x k n u v) := by
  induction k with
  | zero => intro n u v _; rfl
  | succ k ih =>
    intro n u v hn
    unfold hyperg_1F1_ab_posint_backward_chk hyperg_1F1_ab_posint_backward
    dsimp only
    rw [if_pos hn, ih _ _ _ (by push_cast at hn ⊢; linarith)]
    split_ifs <;> rfl

/-- Every divisor of the forward loop of `hyperg_1F1_ab_pos` is at least any
bound below the starting index. -/
theorem ab_pos_forward_chk_eq (c b x stop : R) (k : ℕ) :
    ∀ (n u v : R), c ≤ n →
      hyperg_1F1_ab_pos_forward_chk (fun d => c ≤ d) b x stop k n u v
        = some (hyperg_1F1_ab_pos_forward b x stop k n u v) := by
  induction k with
  | zero => intro n u v _; rfl
  | succ k ih =>
    intro n u v hn
    unfold hyperg_1F1_ab_pos_forward_chk hyperg_1F1_ab_pos_forward
    dsimp only
    rw [if_pos hn, ih _ _ _ (by linarith)]
    split_ifs <;> rfl

/-- Every divisor of the backward loop of `hyperg_1F1_ab_pos` is at least any
bound below `b - n` for the starting index `n`. -/
theorem ab_pos_backward_chk_eq (c b x : R) (k : ℕ) :
    ∀ (n u v : R), c ≤ b - n →
      hyperg_1F1_ab_pos_backward_chk (fun d => c ≤ d) b x k n u v
        = some (hyperg_1F1_ab_pos_backward b x k n u v) := by
  induction k with
  | zero => intro n u v _; rfl
  | succ k ih =>
    intro n u v hn
    unfold hyperg_1F1_ab_pos_backward_chk hyperg_1F1_ab_pos_backward
    dsimp only
    rw [if_pos hn, ih _ _ _ (by linarith)]
    split_ifs <;> rfl

/-- Under `a ≥ 1`, `b ≥ 1` every divisor of the recurrences and of the seed
ratios of `hyperg_1F1_ab_posint` is `≥ 1`. -/
theorem ab_posint_par_congr (dv : R → R → R) (hdv : ∀ u d : R, 1 ≤ d → dv u d = u / d)
    (E : Env R) (a b : ℤ) (ha : 1 ≤ a) (hb : 1 ≤ b) (x : R) :
    hyperg_1F1_ab_posint_par dv E.GSL_SQRT_DBL_MIN E a b x = hyperg_1F1_ab_posint E a b x := by
  have ha1 : (1 : R) ≤ (a : R) := by exact_mod_cast ha
  unfold hyperg_1F1_ab_posint_par hyperg_1F1_ab_posint
  dsimp only
  by_cases c1 : a = b
  · rw [if_pos c1, if_pos c1]
  rw [if_neg c1, if_neg c1]
  by_cases c2 : a = 1
  · rw [if_pos c2, if_pos c2]
  rw [if_neg c2, if_neg c2]
  by_cases c3 : b = a + 1
  · rw [if_pos c3, if_pos c3]
  rw [if_neg c3, if_neg c3]
  by_cases c4 : a = b + 1
  · rw [if_pos c4, if_pos c4]
  rw [if_neg c4, if_neg c4]
  by_cases c5 : a = b + 2
  · rw [if_pos c5, if_pos c5]
  rw [if_neg c5, if_neg c5]
  by_cases c6 : b = 2 * a
  · rw [if_pos c6, if_pos c6]
  rw [if_neg c6, if_neg c6]
  by_cases c7 : (b < 10 ∧ a < 10 ∧ |x| < 5) ∨ ((b : R) > (a : R) * |x|) ∨ (b > a ∧ |x| < 5)
  · rw [if_pos c7, if_pos c7]
  rw [if_neg c7, if_neg c7]
  by_cases c8 : a > b
  · rw [if_pos c8, if_pos c8]
    rw [ab_posint_forward_par_congr dv hdv b x a _ (b + 1) _ _ (by omega)]
  rw [if_neg c8, if_neg c8]
  have hab : a < b := by omega
  by_cases c9 : 2 * a > b
  · rw [if_pos c9, if_pos c9]
    rw [ab_posint_forward_par_congr dv hdv b x a]
    have e1 : Int.tdiv b 2 = b / 2 := Int.tdiv_eq_ediv (by omega) (by omega)
    have e2 : Int.tdiv (b + 1) 2 = (b + 1) / 2 := Int.tdiv_eq_ediv (by omega) (by omega)
    split_ifs <;> dsimp only <;> omega
  rw [if_neg c9, if_neg c9]
  have hf := fun (k : ℕ) (u v : R) =>
    ab_posint_forward_par_congr dv hdv b x b k (a + 1) u v (by omega)
  have hbk := fun (k : ℕ) (u v : R) =>
    ab_posint_backward_par_congr dv hdv b x k a u v hab
  have hbam : (1 : R) ≤ ((b - a - 1 : ℤ) : R) := by
    have : (1 : ℤ) ≤ b - a - 1 := by omega
    exact_mod_cast this
  simp only [hf, hbk, hdv x _ ha1, hdv (-x) _ hbam]

/-- At `a = -1`, `b = -2`, `x = -1` the function `hyperg_1F1_ab_negint` takes
the Kummer branch: it evaluates the polynomial at `(b - a, b, -x) = (-1, -2,
1)`, which is `3/2`, and multiplies it by the exponential of `x`. -/
theorem ab_negint_kummer_example (E : Env R) (e : R)
    (hexp : E.gsl_sf_exp_impl (-1) = (e, .GSL_SUCCESS)) (hmax : 5 / 3 ≤ E.DBL_MAX) :
    hyperg_1F1_ab_negint E (-1) (-2) (-1) = (e * (3 / 2), .GSL_SUCCESS) := by
  have hpoly : hyperg_1F1_a_negint_poly E (-2 - -1) (((-2 : ℤ) : ℤ) : R) (- -1)
      = (3 / 2, .GSL_SUCCESS) := by
    simp only [hyperg_1F1_a_negint_poly, hyperg_1F1_a_negint_poly_loop]
    norm_num
    linarith
  unfold hyperg_1F1_ab_negint
  rw [if_neg (by norm_num), if_neg (by norm_num), hpoly, hexp]
  simp

/-- At `a = 3`, `b = 5`, `x = 6` the function `hyperg_1F1_ab_posint` takes
the branch `2a > b` with odd `b`; `a_start = 3 = a`, the loop does not run,
and the value returned is `Mn`, which line 885 has filled with the second
output (`Mabp1`) of `hyperg_1F1_diag_step(2, 4, x, M00, M12, &Mnm1, &Mn)`. -/
theorem ab_posint_odd_seed_example (E : Env R)
    (h0 : (hyperg_1F1_beq2a_pos E 2 6).2 = .GSL_SUCCESS)
    (h2 : (hyperg_1F1_beq2a_pos E 3 6).2 = .GSL_SUCCESS) :
    hyperg_1F1_ab_posint E 3 5 6
      = ((hyperg_1F1_diag_step 2 4 6 (hyperg_1F1_beq2a_pos E 2 6).1
          (hyperg_1F1_beq2a_pos E 3 6).1).2, .GSL_SUCCESS) := by
  have e1 : Int.tdiv (5 - 1) 2 = 2 := by decide
  have e2 : Int.tdiv (5 + 1) 2 = 3 := by decide
  unfold hyperg_1F1_ab_posint
  simp only [e1, e2]
  norm_num [h0, h2, Status.code, hyperg_1F1_ab_posint_forward, abs_of_pos]

/-- One pass of the loop without rescaling. -/
theorem luke_loop_norescale_succ (E : Env R) (a c x x3 : R) (k : ℕ) (s : LukeState R) :
    hyperg_1F1_luke_loop_norescale E a c x x3 (k + 1) s =
      if |(s.F - hyperg_1F1_luke_rec a c x x3 s.n s.Anm1 s.Anm2 s.Anm3
            / hyperg_1F1_luke_rec a c x x3 s.n s.Bnm1 s.Bnm2 s.Bnm3) / s.F| < E.GSL_MACH_EPS
          ∨ s.n > 5000 then
        { s with
          F := hyperg_1F1_luke_rec a c x x3 s.n s.Anm1 s.Anm2 s.Anm3
            / hyperg_1F1_luke_rec a c x x3 s.n s.Bnm1 s.Bnm2 s.Bnm3,
          prec := |(s.F - hyperg_1F1_luke_rec a c x x3 s.n s.Anm1 s.Anm2 s.Anm3
            / hyperg_1F1_luke_rec a c x x3 s.n s.Bnm1 s.Bnm2 s.Bnm3) / s.F| }
      else
        hyperg_1F1_luke_loop_norescale E a c x x3 k
          { n := s.n + 1,
            F := hyperg_1F1_luke_rec a c x x3 s.n s.Anm1 s.Anm2 s.Anm3
              / hyperg_1F1_luke_rec a c x x3 s.n s.Bnm1 s.Bnm2 s.Bnm3,
            prec := |(s.F - hyperg_1F1_luke_rec a c x x3 s.n s.Anm1 s.Anm2 s.Anm3
              / hyperg_1F1_luke_rec a c x x3 s.n s.Bnm1 s.Bnm2 s.Bnm3) / s.F|,
            Bnm3 := s.Bnm2, Bnm2 := s.Bnm1,
            Bnm1 := hyperg_1F1_luke_rec a c x x3 s.n s.Bnm1 s.Bnm2 s.Bnm3,
            Anm3 := s.Anm2, Anm2 := s.Anm1,
            Anm1 := hyperg_1F1_luke_rec a c x x3 s.n s.Anm1 s.Anm2 s.Anm3 } := rfl

/-- The loop of `hyperg_1F1_luke` and the loop without rescaling, started
from proportional states, are in proportional states after any number of
passes. -/
theorem luke_loop_proportional (E : Env R) (a c x x3 : R) (k : ℕ) :
    ∀ s t : LukeState R, s.Proportional t →
      (hyperg_1F1_luke_loop E a c x x3 k s).Proportional
        (hyperg_1F1_luke_loop_norescale E a c x x3 k t) := by
  induction k with
  | zero => intro s t h; exact h
  | succ k ih =>
    intro s t h
    obtain ⟨hn, hF, hp, lam, hlam, a1, a2, a3, b1, b2, b3⟩ := h
    rw [luke_loop_succ, luke_loop_norescale_succ]
    have eA : hyperg_1F1_luke_rec a c x x3 s.n s.Anm1 s.Anm2 s.Anm3
        = lam * hyperg_1F1_luke_rec a c x x3 t.n t.Anm1 t.Anm2 t.Anm3 := by
      rw [hn, a1, a2, a3, luke_rec_smul]
    have eB : hyperg_1F1_luke_rec a c x x3 s.n s.Bnm1 s.Bnm2 s.Bnm3
        = lam * hyperg_1F1_luke_rec a c x x3 t.n t.Bnm1 t.Bnm2 t.Bnm3 := by
      rw [hn, b1, b2, b3, luke_rec_smul]
    generalize hyperg_1F1_luke_rec a c x x3 t.n t.Anm1 t.Anm2 t.Anm3 = A at eA ⊢
    generalize hyperg_1F1_luke_rec a c x x3 t.n t.Bnm1 t.Bnm2 t.Bnm3 = B at eB ⊢
    rw [eA, eB, mul_div_mul_left _ _ hlam, hF, hn]
    have hbig : (10 : R) ^ 50 ≠ 0 := by positivity
    by_cases h1 : |(t.F - A / B) / t.F| < E.GSL_MACH_EPS ∨ t.n > 5000
    · rw [if_pos h1, if_pos h1]
      exact ⟨rfl, rfl, rfl, lam, hlam, a1, a2, a3, b1, b2, b3⟩
    · rw [if_neg h1, if_neg h1]
      by_cases h2 : |lam * A| > 10 ^ 50 ∨ |lam * B| > 10 ^ 50
      · rw [if_pos h2]
        apply ih
        refine ⟨rfl, rfl, rfl, lam / 10 ^ 50, div_ne_zero hlam hbig, ?_, ?_, ?_, ?_, ?_, ?_⟩
        · dsimp only; ring
        · dsimp only; rw [a1]; ring
        · dsimp only; rw [a2]; ring
        · dsimp only; ring
        · dsimp only; rw [b1]; ring
        · dsimp only; rw [b2]; ring
      · rw [if_neg h2]
        by_cases h3 : |lam * A| < 1 / 10 ^ 50 ∨ |lam * B| < 1 / 10 ^ 50
        · rw [if_pos h3]
          apply ih
          refine ⟨rfl, rfl, rfl, lam * 10 ^ 50, mul_ne_zero hlam hbig, ?_, ?_, ?_, ?_, ?_, ?_⟩
          · dsimp only; ring
          · dsimp only; rw [a1]; ring
          · dsimp only; rw [a2]; ring
          · dsimp only; ring
          · dsimp only; rw [b1]; ring
          · dsimp only; rw [b2]; ring
        · rw [if_neg h3]
          apply ih
          exact ⟨rfl, rfl, rfl, lam, hlam, rfl, a1, a2, rfl, b1, b2⟩

end RecurLemmas

section RecurFloorLemmas

variable {R : Type} [LinearOrderedField R] [FloorRing R]

/-- With the division and `GSL_SQRT_DBL_MIN` for its parameters,
`hyperg_1F1_ab_pos_par` is `hyperg_1F1_ab_pos`. -/
theorem ab_pos_eq_par (E : Env R) (fuel : ℕ) (a b x : R) :
    hyperg_1F1_ab_pos E fuel a b x
      = hyperg_1F1_ab_pos_par (fun u d => u / d) E.GSL_SQRT_DBL_MIN E fuel a b x := by
  unfold hyperg_1F1_ab_pos hyperg_1F1_ab_pos_par
  simp only [ab_pos_forward_par_eq _ (fun _ _ => rfl),
    ab_pos_backward_par_eq _ (fun _ _ => rfl)]

/-- The result of `hyperg_1F1_ab_pos_par` with the division is the same for
any two nonzero seeds. -/
theorem ab_pos_par_seed (E : Env R) (fuel : ℕ) (s t : R) (hs : s ≠ 0) (ht : t ≠ 0) (a b x : R) :
    hyperg_1F1_ab_pos_par (fun u d => u / d) s E fuel a b x
      = hyperg_1F1_ab_pos_par (fun u d => u / d) t E fuel a b x := by
  unfold hyperg_1F1_ab_pos_par
  simp only [ab_pos_forward_par_eq _ (fun _ _ => rfl),
    ab_pos_backward_par_eq _ (fun _ _ => rfl),
    (ab_pos_backward_seed b x s hs _ _ _).1, (ab_pos_backward_seed b x s hs _ _ _).2,
    (ab_pos_backward_seed b x t ht _ _ _).1, (ab_pos_backward_seed b x t ht _ _ _).2,
    (ab_pos_forward_seed b x _ s hs _ _ _).1, (ab_pos_forward_seed b x _ s hs _ _ _).2,
    (ab_pos_forward_seed b x _ t ht _ _ _).1, (ab_pos_forward_seed b x _ t ht _ _ _).2]

/-- Under `a > 0`, `b > 0` every divisor of the recurrences and of the seed
ratios of `hyperg_1F1_ab_pos` is positive. -/
theorem ab_pos_par_congr (dv : R → R → R) (hdv : ∀ u d : R, 0 < d → dv u d = u / d)
    (E : Env R) (fuel : ℕ) (a b x : R) (ha : 0 < a) (hb : 0 < b) :
    hyperg_1F1_ab_pos_par dv E.GSL_SQRT_DBL_MIN E fuel a b x = hyperg_1F1_ab_pos E fuel a b x := by
  unfold hyperg_1F1_ab_pos_par hyperg_1F1_ab_pos
  dsimp only
  by_cases c1 : (b < 10 ∧ a < 10 ∧ |x| < 5) ∨ (b > a * |x|) ∨ (b > a ∧ |x| < 5)
  · rw [if_pos c1, if_pos c1]
  rw [if_neg c1, if_neg c1]
  by_cases c2 : |b - a| ≤ 1
  · rw [if_pos c2, if_pos c2]
  rw [if_neg c2, if_neg c2]
  by_cases c3 : a > b + 1
  · rw [if_pos c3, if_pos c3]
    have hst : 0 < b + (a - b - ((⌊a - b⌋ : ℤ) : R)) := by
      have := Int.floor_le (a - b)
      linarith
    have hf := fun (stop : R) (k : ℕ) (u v : R) =>
      ab_pos_forward_par_congr dv hdv b x stop k _ u v hst
    simp only [hf]
  rw [if_neg c3, if_neg c3]
  have hba : 1 < b - a := by
    rcases lt_abs.mp (not_le.mp c2) with h | h
    · exact h
    · exfalso
      apply c3
      linarith
  have hf := fun (stop : R) (k : ℕ) (u v : R) =>
    ab_pos_forward_par_congr dv hdv b x stop k (a + 1) u v (by linarith)
  have hbk := fun (k : ℕ) (u v : R) =>
    ab_pos_backward_par_congr dv hdv b x k a u v (by linarith)
  simp only [hf, hbk, hdv x _ ha, hdv (-x) (b - a - 1) (by linarith)]

end RecurFloorLemmas

/-! ## Properties of the symmetric matrix-vector kernel -/

section BlasLemmas

variable {R : Type} [CommRing R]

/-- The scaling loop of `source_symv` with unit increment multiplies the
elements it passes by `beta`. -/
theorem source_symv_scale_apply (N : ℕ) (beta : R) (k : ℕ) :
    ∀ (i : ℕ) (Y : ℕ → R) (q : ℕ), source_symv_scale N beta 1 k i i Y q
      = if i ≤ q ∧ q < i + k ∧ q < N then Y q * beta else Y q := by
  induction k with
  | zero =>
    intro i Y q
    rw [if_neg (by omega)]
    rfl
  | succ k ih =>
    intro i Y q
    unfold source_symv_scale
    by_cases c : i < N
    · rw [if_pos c, ih]
      by_cases e : q = i
      · subst e
        rw [if_neg (by omega), if_pos (by omega), Function.update_same]
      · rw [Function.update_noteq e]
        by_cases c2 : i ≤ q ∧ q < i + (k + 1) ∧ q < N
        · rw [if_pos c2, if_pos (by omega)]
        · rw [if_neg c2, if_neg (by omega)]
    · rw [if_neg c, if_neg (by omega)]

/-- The inner loop of the upper case with unit increments, started at
`i = p + 1` with `ix = iy = p`. -/
theorem source_symv_upper_inner_apply (N : ℕ) (A X : ℕ → R) (lda j : ℕ) (tmp1 : R) (k : ℕ) :
    ∀ (p : ℕ) (Y : ℕ → R) (t : R), N ≤ p + 1 + k →
      (∀ q, (source_symv_upper_inner N A X lda 1 1 j tmp1 k (p + 1) p p Y t).1 q
        = Y q + if p + 1 ≤ q ∧ q < N then tmp1 * A (lda * j + q) else 0) ∧
      (source_symv_upper_inner N A X lda 1 1 j tmp1 k (p + 1) p p Y t).2
        = t + ∑ q in Finset.Ico (p + 1) N, A (lda * j + q) * X q := by
  induction k with
  | zero =>
    intro p Y t h
    refine ⟨fun q => ?_, ?_⟩
    · rw [if_neg (by omega), add_zero]
      rfl
    · rw [Finset.Ico_eq_empty (by omega), Finset.sum_empty, add_zero]
      rfl
  | succ k ih =>
    intro p Y t h
    unfold source_symv_upper_inner
    dsimp only
    by_cases c : p + 1 < N
    · rw [if_pos c]
      obtain ⟨h1, h2⟩ := ih (p + 1)
        (Function.update Y (p + 1) (Y (p + 1) + tmp1 * A (lda * j + (p + 1))))
        (t + A (lda * j + (p + 1)) * X (p + 1)) (by omega)
      refine ⟨fun q => ?_, ?_⟩
      · rw [h1]
        by_cases e : q = p + 1
        · subst e
          rw [Function.update_same, if_neg (by omega), if_pos ⟨le_rfl, c⟩, add_zero]
        · rw [Function.update_noteq e]
          by_cases c2 : p + 1 ≤ q ∧ q < N
          · rw [if_pos c2, if_pos (by omega)]
          · rw [if_neg c2, if_neg (by omega)]
      · rw [h2, Finset.sum_eq_sum_Ico_succ_bot c, add_assoc]
    · rw [if_neg c]
      refine ⟨fun q => ?_, ?_⟩
      · rw [if_neg (by omega), add_zero]
      · rw [Finset.Ico_eq_empty (by omega), Finset.sum_empty, add_zero]

/-- The inner loop of the lower case with unit increments, started at `i`
with `ix = iy = i`. -/
theorem source_symv_lower_inner_apply (A X : ℕ → R) (lda j : ℕ) (tmp1 : R) (k : ℕ) :
    ∀ (i : ℕ) (Y : ℕ → R) (t : R), j ≤ i + k →
      (∀ q, (source_symv_lower_inner A X lda 1 1 j tmp1 k i i i Y t).1 q
        = Y q + if i ≤ q ∧ q < j then tmp1 * A (lda * j + q) else 0) ∧
      (source_symv_lower_inner A X lda 1 1 j tmp1 k i i i Y t).2
        = t + ∑ q in Finset.Ico i j, A (lda * j + q) * X q := by
  induction k with
  | zero =>
    intro i Y t h
    refine ⟨fun q => ?_, ?_⟩
    · rw [if_neg (by omega), add_zero]
      rfl
    · rw [Finset.Ico_eq_empty (by omega), Finset.sum_empty, add_zero]
      rfl
  | succ k ih =>
    intro i Y t h
    unfold source_symv_lower_inner
    dsimp only
    by_cases c : i < j
    · rw [if_pos c]
      obtain ⟨h1, h2⟩ := ih (i + 1)
        (Function.update Y i (Y i + tmp1 * A (lda * j + i)))
        (t + A (lda * j + i) * X i) (by omega)
      refine ⟨fun q => ?_, ?_⟩
      · rw [h1]
        by_cases e : q = i
        · subst e
          rw [Function.update_same, if_neg (by omega), if_pos ⟨le_rfl, c⟩, add_zero]
        · rw [Function.update_noteq e]
          by_cases c2 : i ≤ q ∧ q < j
          · rw [if_pos c2, if_pos (by omega)]
          · rw [if_neg c2, if_neg (by omega)]
      · rw [h2, Finset.sum_eq_sum_Ico_succ_bot c, add_assoc]
    · rw [if_neg c]
      refine ⟨fun q => ?_, ?_⟩
      · rw [if_neg (by omega), add_zero]
      · rw [Finset.Ico_eq_empty (by omega), Finset.sum_empty, add_zero]

/-- The outer loop of the upper case with unit increments, started at column
`j`: each column `m` it passes adds its diagonal term and the sum over the
rest of row `m` to `Y[m]`, and `alpha * X[m] * A[lda*m + q]` to every `Y[q]`
with `m < q < N`. -/
theorem source_symv_upper_apply (N : ℕ) (alpha : R) (A X : ℕ → R) (lda : ℕ) (k : ℕ) :
    ∀ (j : ℕ) (Y : ℕ → R), N ≤ j + k → ∀ q,
      source_symv_upper N alpha A X lda 1 1 k j j j Y q
        = Y q + ∑ m in Finset.Ico j N,
            (if q = m then
              alpha * X m * A (lda * m + m)
                + alpha * ∑ i in Finset.Ico (m + 1) N, A (lda * m + i) * X i
            else if m < q ∧ q < N then alpha * X m * A (lda * m + q) else 0) := by
  induction k with
  | zero =>
    intro j Y h q
    rw [Finset.Ico_eq_empty (by omega), Finset.sum_empty, add_zero]
    rfl
  | succ k ih =>
    intro j Y h q
    unfold source_symv_upper
    dsimp only
    by_cases c : j < N
    · rw [if_pos c, ih _ _ (by omega), Finset.sum_eq_sum_Ico_succ_bot c, ← add_assoc (Y q)]
      congr 1
      obtain ⟨h1, h2⟩ := source_symv_upper_inner_apply N A X lda j (alpha * X j) N j
        (Function.update Y j (Y j + alpha * X j * A (lda * j + j))) 0 (by omega)
      by_cases e : q = j
      · subst e
        rw [Function.update_same, h1, h2, Function.update_same, if_neg (by omega), if_pos rfl]
        ring
      · rw [Function.update_noteq e, h1, Function.update_noteq e, if_neg e]
        by_cases c2 : j + 1 ≤ q ∧ q < N
        · rw [if_pos c2, if_pos (by omega)]
        · rw [if_neg c2, if_neg (by omega)]
    · rw [if_neg c, Finset.Ico_eq_empty (by omega), Finset.sum_empty, add_zero]

/-- The outer loop of the lower case with unit increments, started at column
`j`: each column `m` it passes adds its diagonal term and the sum over the
start of row `m` to `Y[m]`, and `alpha * X[m] * A[lda*m + q]` to every `Y[q]`
with `q < m`. -/
theorem source_symv_lower_apply (N : ℕ) (alpha : R) (A X : ℕ → R) (lda : ℕ) (k : ℕ) :
    ∀ (j : ℕ) (Y : ℕ → R), N ≤ j + k → ∀ q,
      source_symv_lower N alpha A X lda 1 1 k j j j Y q
        = Y q + ∑ m in Finset.Ico j N,
            (if q = m then
              alpha * X m * A (lda * m + m)
                + alpha * ∑ i in Finset.Ico 0 m, A (lda * m + i) * X i
            else if q < m then alpha * X m * A (lda * m + q) else 0) := by
  induction k with
  | zero =>
    intro j Y h q
    rw [Finset.Ico_eq_empty (by omega), Finset.sum_empty, add_zero]
    rfl
  | succ k ih =>
    intro j Y h q
    unfold source_symv_lower
    dsimp only
    by_cases c : j < N
    · rw [if_pos c, ih _ _ (by omega), Finset.sum_eq_sum_Ico_succ_bot c, ← add_assoc (Y q)]
      congr 1
      obtain ⟨h1, h2⟩ := source_symv_lower_inner_apply A X lda j (alpha * X j) j 0 Y 0
        (by omega)
      by_cases e : q = j
      · subst e
        rw [Function.update_same, h1, h2, if_neg (by omega), if_pos rfl]
        ring
      · rw [Function.update_noteq e, h1, if_neg e]
        by_cases c2 : 0 ≤ q ∧ q < j
        · rw [if_pos c2, if_pos (by omega)]
        · rw [if_neg c2, if_neg (by omega)]
    · rw [if_neg c, Finset.Ico_eq_empty (by omega), Finset.sum_empty, add_zero]

/-- A sum over the indices below `N` split at an index `q < N`. -/
theorem sum_Ico_split_at (g : ℕ → R) (N q : ℕ) (hq : q < N) :
    ∑ m in Finset.Ico 0 N, g m
      = ∑ m in Finset.Ico 0 q, g m + g q + ∑ m in Finset.Ico (q + 1) N, g m := by
  rw [← Finset.sum_Ico_consecutive g (Nat.zero_le q) (le_of_lt hq),
    Finset.sum_eq_sum_Ico_succ_bot hq, add_assoc]

/-- The upper case of `source_symv` with unit increments leaves
`beta*Y[i] + alpha * sum_j S(i,j)*X[j]` in `Y[i]`, with `S` read from the
upper triangle. -/
theorem source_symv_upper_result (N lda : ℕ) (alpha beta : R) (A X Y : ℕ → R) (i : ℕ)
    (hi : i < N) :
    source_symv .CblasUpper N alpha A lda X 1 beta Y 1 i
      = beta * Y i + alpha * ∑ j in Finset.range N, A (lda * min i j + max i j) * X j := by
  unfold source_symv
  rw [if_pos rfl, source_symv_upper_apply N alpha A X lda N 0 _ (by omega) i,
    source_symv_scale_apply, if_pos (by omega), Finset.range_eq_Ico,
    sum_Ico_split_at _ N i hi, sum_Ico_split_at _ N i hi, if_pos rfl]
  have hL1 : ∑ m in Finset.Ico 0 i,
      (if i = m then
        alpha * X m * A (lda * m + m)
          + alpha * ∑ k in Finset.Ico (m + 1) N, A (lda * m + k) * X k
      else if m < i ∧ i < N then alpha * X m * A (lda * m + i) else 0)
      = alpha * ∑ m in Finset.Ico 0 i, A (lda * m + i) * X m := by
    rw [Finset.mul_sum]
    refine Finset.sum_congr rfl (fun m hm => ?_)
    have := Finset.mem_Ico.mp hm
    rw [if_neg (by omega), if_pos (by omega)]
    ring
  have hL3 : ∑ m in Finset.Ico (i + 1) N,
      (if i = m then
        alpha * X m * A (lda * m + m)
          + alpha * ∑ k in Finset.Ico (m + 1) N, A (lda * m + k) * X k
      else if m < i ∧ i < N then alpha * X m * A (lda * m + i) else 0) = 0 := by
    refine Finset.sum_eq_zero (fun m hm => ?_)
    have := Finset.mem_Ico.mp hm
    rw [if_neg (by omega), if_neg (by omega)]
  have hR1 : ∑ m in Finset.Ico 0 i, A (lda * min i m + max i m) * X m
      = ∑ m in Finset.Ico 0 i, A (lda * m + i) * X m := by
    refine Finset.sum_congr rfl (fun m hm => ?_)
    have := Finset.mem_Ico.mp hm
    rw [min_eq_right (by omega), max_eq_left (by omega)]
  have hR3 : ∑ m in Finset.Ico (i + 1) N, A (lda * min i m + max i m) * X m
      = ∑ m in Finset.Ico (i + 1) N, A (lda * i + m) * X m := by
    refine Finset.sum_congr rfl (fun m hm => ?_)
    have := Finset.mem_Ico.mp hm
    rw [min_eq_left (by omega), max_eq_right (by omega)]
  rw [hL1, hL3, hR1, hR3, min_self, max_self]
  ring

/-- The lower case of `source_symv` with unit increments leaves
`beta*Y[i] + alpha * sum_j S(i,j)*X[j]` in `Y[i]`, with `S` read from the
lower triangle. -/
theorem source_symv_lower_result (N lda : ℕ) (alpha beta : R) (A X Y : ℕ → R) (i : ℕ)
    (hi : i < N) :
    source_symv .CblasLower N alpha A lda X 1 beta Y 1 i
      = beta * Y i + alpha * ∑ j in Finset.range N, A (lda * max i j + min i j) * X j := by
  unfold source_symv
  rw [if_neg (by decide), source_symv_lower_apply N alpha A X lda N 0 _ (by omega) i,
    source_symv_scale_apply, if_pos (by omega), Finset.range_eq_Ico,
    sum_Ico_split_at _ N i hi, sum_Ico_split_at _ N i hi, if_pos rfl]
  have hL1 : ∑ m in Finset.Ico 0 i,
      (if i = m then
        alpha * X m * A (lda * m + m)
          + alpha * ∑ k in Finset.Ico 0 m, A (lda * m + k) * X k
      else if i < m then alpha * X m * A (lda * m + i) else 0) = 0 := by
    refine Finset.sum_eq_zero (fun m hm => ?_)
    have := Finset.mem_Ico.mp hm
    rw [if_neg (by omega), if_neg (by omega)]
  have hL3 : ∑ m in Finset.Ico (i + 1) N,
      (if i = m then
        alpha * X m * A (lda * m + m)
          + alpha * ∑ k in Finset.Ico 0 m, A (lda * m + k) * X k
      else if i < m then alpha * X m * A (lda * m + i) else 0)
      = alpha * ∑ m in Finset.Ico (i + 1) N, A (lda * m + i) * X m := by
    rw [Finset.mul_sum]
    refine Finset.sum_congr rfl (fun m hm => ?_)
    have := Finset.mem_Ico.mp hm
    rw [if_neg (by omega), if_pos (by omega)]
    ring
  have hR1 : ∑ m in Finset.Ico 0 i, A (lda * max i m + min i m) * X m
      = ∑ m in Finset.Ico 0 i, A (lda * i + m) * X m := by
    refine Finset.sum_congr rfl (fun m hm => ?_)
    have := Finset.mem_Ico.mp hm
    rw [min_eq_right (by omega), max_eq_left (by omega)]
  have hR3 : ∑ m in Finset.Ico (i + 1) N, A (lda * max i m + min i m) * X m
      = ∑ m in Finset.Ico (i + 1) N, A (lda * m + i) * X m := by
    refine Finset.sum_congr rfl (fun m hm => ?_)
    have := Finset.mem_Ico.mp hm
    rw [min_eq_left (by omega), max_eq_right (by omega)]
  rw [hL1, hL3, hR1, hR3, min_self, max_self]
  ring

/-- Two offsets `lda*r + c` with columns below `lda` are equal only for equal
rows and columns. -/
theorem offset_inj (lda r c r0 c0 : ℕ) (hc : c < lda) (hc0 : c0 < lda)
    (h : lda * r + c = lda * r0 + c0) : r = r0 ∧ c = c0 := by
  have h1 : (lda * r + c) % lda = (lda * r0 + c0) % lda := by rw [h]
  rw [Nat.mul_add_mod, Nat.mul_add_mod, Nat.mod_eq_of_lt hc, Nat.mod_eq_of_lt hc0] at h1
  subst h1
  have h2 : lda * r = lda * r0 := by omega
  exact ⟨Nat.eq_of_mul_eq_mul_left (by omega) h2, rfl⟩

end BlasLemmas

/-! ## The claims -/

section Claims

variable {R : Type} [LinearOrderedField R] [FloorRing R]

/-- C1: at `x = 0` both dispatchers return the value 1 with status success,
for every `a` and `b` (also `b = 0` and `a = b = 0`): the test `x == 0.0`
comes before every other rule. -/
theorem C1_x_zero_wins (E : Env R) (fuel : ℕ) :
    (∀ a b : R, gsl_sf_hyperg_1F1_impl E fuel a b 0 = .ok (1, .GSL_SUCCESS)) ∧
    (∀ a b : ℤ, gsl_sf_hyperg_1F1_int_impl E a b (0 : R) = (1, .GSL_SUCCESS)) :=
  ⟨fun a b => impl_x_zero E fuel a b, fun a b => int_impl_x_zero E a b⟩

/-- C2: for every `x` and every `b ≠ 0` the real dispatcher returns exactly
`(1, Success)` at `a = 0`. -/
theorem C2_a_zero (E : Env R) (fuel : ℕ) (b x : R) (hb : b ≠ 0) :
    gsl_sf_hyperg_1F1_impl E fuel 0 b x = .ok (1, .GSL_SUCCESS) := by
  by_cases hx : x = 0
  · simp [gsl_sf_hyperg_1F1_impl, hx]
  · simp [gsl_sf_hyperg_1F1_impl, hx, hb]

/-- C2 at `b = -2`, `x = 7`. -/
theorem C2_a_zero_witness :
    (-2 : ℚ) ≠ 0 ∧ gsl_sf_hyperg_1F1_impl ratEnv 0 0 (-2) 7 = .ok (1, .GSL_SUCCESS) :=
  ⟨by norm_num, C2_a_zero ratEnv 0 (-2) 7 (by norm_num)⟩

/-- C3 as amended: for every `a ≠ 0` and every `x` the real dispatcher at
`(a, a, x)` returns the value and status of the exponential primitive at `x`
(the primitive giving `(1, Success)` at 0 covers the shortcut `x == 0.0`);
for `a = 0` and `x ≠ 0` it returns `(0, DomainError)` instead, because the
test `b == 0.0` comes before the test `a == b`. -/
theorem C3_a_eq_b (E : Env R) (fuel : ℕ) (hexp0 : E.gsl_sf_exp_impl 0 = (1, .GSL_SUCCESS))
    (a x : R) :
    (a ≠ 0 → gsl_sf_hyperg_1F1_impl E fuel a a x = .ok (E.gsl_sf_exp_impl x)) ∧
    (a = 0 → x ≠ 0 → gsl_sf_hyperg_1F1_impl E fuel a a x = .ok (0, .GSL_EDOM)) := by
  constructor
  · intro ha
    by_cases hx : x = 0
    · subst hx
      rw [hexp0]
      exact impl_x_zero E fuel a a
    · exact impl_a_eq_b E fuel a x hx ha
  · intro ha hx
    subst ha
    exact impl_b_zero E fuel 0 x hx

/-- C3 as amended, at `a = 3`, `x = 2`. -/
theorem C3_a_eq_b_witness :
    ratEnv.gsl_sf_exp_impl 0 = (1, .GSL_SUCCESS) ∧
    ((3 : ℚ) ≠ 0 → gsl_sf_hyperg_1F1_impl ratEnv 0 3 3 2 = .ok (ratEnv.gsl_sf_exp_impl 2)) ∧
    ((3 : ℚ) = 0 → (2 : ℚ) ≠ 0 → gsl_sf_hyperg_1F1_impl ratEnv 0 3 3 2 = .ok (0, .GSL_EDOM)) :=
  ⟨by norm_num [ratEnv], C3_a_eq_b ratEnv 0 (by norm_num [ratEnv]) 3 2⟩

/-- C3 as stated fails at `a = 0`: at `(0, 0, 1)` the dispatcher returns
`(0, DomainError)`, while the exponential primitive returns a status of
success there. -/
theorem C3_counterexample :
    gsl_sf_hyperg_1F1_impl ratEnv 0 0 0 1 = .ok (0, .GSL_EDOM) ∧
    (ratEnv.gsl_sf_exp_impl 1).2 = .GSL_SUCCESS ∧
    gsl_sf_hyperg_1F1_impl ratEnv 0 0 0 1 ≠ .ok (ratEnv.gsl_sf_exp_impl 1) := by
  have h1 : gsl_sf_hyperg_1F1_impl ratEnv 0 0 0 1 = .ok (0, .GSL_EDOM) :=
    impl_b_zero ratEnv 0 0 1 (by norm_num)
  refine ⟨h1, by norm_num [ratEnv], ?_⟩
  rw [h1]
  norm_num [ratEnv]

/-- C4: for every `a` (also `a = 0`) and every `x ≠ 0` the real dispatcher at
`b = 0` returns the value 0 with status domain error. -/
theorem C4_b_zero (E : Env R) (fuel : ℕ) (a x : R) (hx : x ≠ 0) :
    gsl_sf_hyperg_1F1_impl E fuel a 0 x = .ok (0, .GSL_EDOM) :=
  impl_b_zero E fuel a x hx

/-- C4 at `a = 0`, `x = 5`. -/
theorem C4_b_zero_witness :
    (5 : ℚ) ≠ 0 ∧ gsl_sf_hyperg_1F1_impl ratEnv 0 0 0 5 = .ok (0, .GSL_EDOM) :=
  ⟨by norm_num, C4_b_zero ratEnv 0 0 5 (by norm_num)⟩

/-- C5: for integers `b < 0` and `a < b` or `a > 0`, and `x ≠ 0`, the integer
dispatcher returns `(0, DomainError)`, and the real dispatcher called with the
same `a`, `b` as doubles returns the same. -/
theorem C5_negative_b_rejected (E : Env R) (h : E.EpsOK) (fuel : ℕ) (a b : ℤ) (x : R)
    (hb : b < 0) (hab : a < b ∨ a > 0) (hx : x ≠ 0) :
    gsl_sf_hyperg_1F1_int_impl E a b x = (0, .GSL_EDOM) ∧
    gsl_sf_hyperg_1F1_impl E fuel ((a : ℤ) : R) ((b : ℤ) : R) x = .ok (0, .GSL_EDOM) := by
  have hne : a ≠ b := by omega
  have hb0 : b ≠ 0 := by omega
  have ha0 : a ≠ 0 := by omega
  have hint : gsl_sf_hyperg_1F1_int_impl E a b x = (0, .GSL_EDOM) := by
    simp [gsl_sf_hyperg_1F1_int_impl, hx, hne, hb0, ha0, hb, hab]
  exact ⟨hint, by rw [impl_intCast E h fuel a b x hx ha0 hb0 hne, hint]⟩

/-- C5 at the case of the spec, `(1, -2, 1.0)`. -/
theorem C5_negative_b_rejected_witness :
    gsl_sf_hyperg_1F1_int_impl ratEnv 1 (-2) (1 : ℚ) = (0, .GSL_EDOM) ∧
    gsl_sf_hyperg_1F1_impl ratEnv 0 (((1 : ℤ) : ℤ) : ℚ) (((-2 : ℤ) : ℤ) : ℚ) 1
      = .ok (0, .GSL_EDOM) :=
  C5_negative_b_rejected ratEnv ratEnv_EpsOK 0 1 (-2) 1 (by decide) (Or.inr (by decide))
    (by norm_num)

/-- C6: for `x ≠ 0`, `b < -0.1` within `locEPS` of an integer and `a` not
within `locEPS` of any integer, the real dispatcher returns
`(0, DomainError)`: no earlier rule intercepts such an input. -/
theorem C6_negint_b_nonint_a (E : Env R) (h : E.EpsOK) (fuel : ℕ) (a b x : R)
    (hx : x ≠ 0) (hb : b < -(1 / 10))
    (hbint : ∃ n : ℤ, |b - (n : R)| < locEPS E)
    (haint : ¬ ∃ n : ℤ, |a - (n : R)| < locEPS E) :
    gsl_sf_hyperg_1F1_impl E fuel a b x = .ok (0, .GSL_EDOM) := by
  have hpos := locEPS_pos E h
  have hle := locEPS_le E h
  have hbI : |b - (rint b : R)| < locEPS E := (near_integer_iff E b).2 hbint
  have haI : ¬ |a - (rint a : R)| < locEPS E := fun hh => haint ((near_integer_iff E a).1 hh)
  have hb0 : b ≠ 0 := by
    intro h0; rw [h0] at hb; linarith
  have ha0 : a ≠ 0 := by
    intro h0
    apply haint
    exact ⟨0, by simpa [h0] using hpos⟩
  have hab : a ≠ b := by
    intro h0
    apply haint
    rw [h0]
    exact hbint
  have htiny : ¬ |b| < 10 * locEPS E := by
    intro hh
    rw [abs_lt] at hh
    linarith [hh.1]
  have hb' : b < -(10 : R)⁻¹ := by simpa [one_div] using hb
  simp [gsl_sf_hyperg_1F1_impl, hx, hb0, ha0, hab, htiny, hbI, haI, hb']

/-- C6 at `a = 1/2`, `b = -2`, `x = 1`. -/
theorem C6_negint_b_nonint_a_witness :
    gsl_sf_hyperg_1F1_impl ratEnv 0 (1 / 2) (-2) 1 = .ok (0, .GSL_EDOM) := by
  refine C6_negint_b_nonint_a ratEnv ratEnv_EpsOK 0 (1 / 2) (-2) 1 (by norm_num) (by norm_num)
    ⟨-2, ?_⟩ ?_
  · norm_num [locEPS, ratEnv]
  · rintro ⟨n, hn⟩
    have hle := locEPS_le ratEnv ratEnv_EpsOK
    rw [abs_lt] at hn
    rcases le_or_lt n 0 with h0 | h0
    · have : (n : ℚ) ≤ 0 := by exact_mod_cast h0
      linarith [hn.2]
    · have h1 : (1 : ℤ) ≤ n := h0
      have : (1 : ℚ) ≤ (n : ℚ) := by exact_mod_cast h1
      linarith [hn.1]

/-- C7 fails at `a = b = 0`, `x = 1`: the integer dispatcher tests `a == b`
before `b == 0` and returns what the exponential primitive returns, a
success, while the real dispatcher tests `b == 0.0` first and returns
`(0, DomainError)`. -/
theorem C7_int_path_differs_at_origin :
    gsl_sf_hyperg_1F1_int_impl ratEnv 0 0 (1 : ℚ) = ratEnv.gsl_sf_exp_impl 1 ∧
    (ratEnv.gsl_sf_exp_impl 1).2 = .GSL_SUCCESS ∧
    gsl_sf_hyperg_1F1_impl ratEnv 0 (((0 : ℤ) : ℤ) : ℚ) (((0 : ℤ) : ℤ) : ℚ) 1
      = .ok (0, .GSL_EDOM) := by
  refine ⟨by simp [gsl_sf_hyperg_1F1_int_impl], by norm_num [ratEnv], ?_⟩
  simpa using impl_b_zero ratEnv 0 (0 : ℚ) 1 (by norm_num)

/-- C8 as amended: for `x ≠ 0` the real dispatcher at `(1, 2, x)` returns
what the integer dispatcher returns, and that is the result of the primitive
`gsl_sf_exprel_n_impl(1, x)` when `|x| ≤ 100`, of `hyperg_1F1_asymp_posx(1,2,x)`
when `x > 100` and of `hyperg_1F1_asymp_negx(1,2,x)` when `x < -100`. -/
theorem C8_one_two (E : Env R) (h : E.EpsOK) (fuel : ℕ) (x : R) (hx : x ≠ 0) :
    gsl_sf_hyperg_1F1_impl E fuel 1 2 x = .ok (gsl_sf_hyperg_1F1_int_impl E 1 2 x) ∧
    (|x| ≤ 100 → gsl_sf_hyperg_1F1_int_impl E 1 2 x = E.gsl_sf_exprel_n_impl 1 x) ∧
    (x > 100 → gsl_sf_hyperg_1F1_int_impl E 1 2 x = hyperg_1F1_asymp_posx E 1 2 x) ∧
    (x < -100 → gsl_sf_hyperg_1F1_int_impl E 1 2 x = hyperg_1F1_asymp_negx E 1 2 x) := by
  refine ⟨?_, ?_, ?_, ?_⟩
  · have e := impl_intCast E h fuel 1 2 x hx (by decide) (by decide) (by decide)
    simpa using e
  · intro h100
    rw [abs_le] at h100
    have h1 : ¬ (100 < x ∧ (2 : R)⁻¹ * x > 1) := by
      rintro ⟨h2, _⟩; linarith [h100.2]
    have h2 : ¬ x < -100 := by
      intro h3; linarith [h100.1]
    have h3 : ¬ 100 < x := by
      intro h3; linarith [h100.2]
    simp [gsl_sf_hyperg_1F1_int_impl, hyperg_1F1_ab_posint, hx, locMAX, h2, h3]
  · intro h100
    have h1 : (1 : R) < 2⁻¹ * x := by linarith
    simp [gsl_sf_hyperg_1F1_int_impl, hx, locMAX, h100, h1]
  · intro h100
    have h0 : ¬ 100 < x := by
      intro h3; linarith
    have e : |x| = -x := abs_of_neg (by linarith)
    have h1 : ¬ -(2⁻¹ * x) ≤ 1 := by
      intro h3; linarith
    simp [gsl_sf_hyperg_1F1_int_impl, hx, locMAX, h100, h0, e, h1]

/-- C8 as amended, at `x = 3`. -/
theorem C8_one_two_witness :
    gsl_sf_hyperg_1F1_impl ratEnv 0 1 2 3 = .ok (gsl_sf_hyperg_1F1_int_impl ratEnv 1 2 3) ∧
    (|(3 : ℚ)| ≤ 100 →
      gsl_sf_hyperg_1F1_int_impl ratEnv 1 2 (3 : ℚ) = ratEnv.gsl_sf_exprel_n_impl 1 3) ∧
    ((3 : ℚ) > 100 →
      gsl_sf_hyperg_1F1_int_impl ratEnv 1 2 (3 : ℚ) = hyperg_1F1_asymp_posx ratEnv 1 2 3) ∧
    ((3 : ℚ) < -100 →
      gsl_sf_hyperg_1F1_int_impl ratEnv 1 2 (3 : ℚ) = hyperg_1F1_asymp_negx ratEnv 1 2 3) :=
  C8_one_two ratEnv ratEnv_EpsOK 0 3 (by norm_num)

/-- C8 as stated fails at `x = 101`: the integer dispatcher returns the
result of `hyperg_1F1_asymp_posx(1, 2, 101)`, which is not the result of the
relative-exponential primitive. -/
theorem C8_counterexample :
    gsl_sf_hyperg_1F1_int_impl ratEnv 1 2 (101 : ℚ) = hyperg_1F1_asymp_posx ratEnv 1 2 101 ∧
    gsl_sf_hyperg_1F1_int_impl ratEnv 1 2 (101 : ℚ) ≠ ratEnv.gsl_sf_exprel_n_impl 1 101 ∧
    gsl_sf_hyperg_1F1_int_impl ratEnv 1 2 (101 : ℚ) ≠ ratEnv.gsl_sf_exprel_impl 101 := by
  have e : gsl_sf_hyperg_1F1_int_impl ratEnv 1 2 (101 : ℚ)
      = hyperg_1F1_asymp_posx ratEnv 1 2 101 := by
    norm_num [gsl_sf_hyperg_1F1_int_impl, locMAX]
  have v : hyperg_1F1_asymp_posx ratEnv 1 2 (101 : ℚ) = (5 / 2, .GSL_SUCCESS) := by
    norm_num [hyperg_1F1_asymp_posx, ratEnv]
  refine ⟨e, ?_, ?_⟩
  · rw [e, v]
    norm_num [ratEnv]
  · rw [e, v]
    norm_num [ratEnv]

/-- C9 fails at `a = 20.5`, `b = -3.5`, `x = 6`: the real dispatcher hands
the input to `hyperg_1F1_ab_neg`, whose body is empty, so that no value and
no status come back. -/
theorem C9_generic_negative_returns_nothing :
    gsl_sf_hyperg_1F1_impl ratEnv 0 (41 / 2) (-7 / 2) 6 = .error .noReturn :=
  impl_generic_negative_example ratEnv ratEnv_EpsOK 0

/-- C10: whenever the real dispatcher takes the branch `a < 0.0 && b > 0.0`
and the reflected call `hyperg_1F1_ab_pos(b-a, b, -x)` returns `(K, Success)`,
it returns `(0, Success)` if `K = 0` and otherwise the result of
`gsl_sf_exp_sgn_impl(log|K| + x, K)`; the arguments of the reflected call
satisfy `b - a > b > 0`; and when that primitive keeps its contract and
succeeds, and `exp(log k + u) = k·exp(u)`, its value is `exp(x)·K`. -/
theorem C10_kummer_reflection (E : Env R) (fuel : ℕ) (a b x K : R)
    (hreg : gsl_sf_hyperg_1F1_regime E a b x = .kummer_pos)
    (hK : hyperg_1F1_ab_pos E fuel (b - a) b (-x) = .ok (K, .GSL_SUCCESS)) :
    gsl_sf_hyperg_1F1_impl E fuel a b x
      = .ok (if K = 0 then (0, .GSL_SUCCESS)
          else E.gsl_sf_exp_sgn_impl (E.log |K| + x) K)
    ∧ (b - a > b ∧ b > 0)
    ∧ (E.ExpSgnContract → E.ExpLogLaw → K ≠ 0 →
        (E.gsl_sf_exp_sgn_impl (E.log |K| + x) K).2 = .GSL_SUCCESS →
        (E.gsl_sf_exp_sgn_impl (E.log |K| + x) K).1 = E.exp x * K) := by
  obtain ⟨hg, himpl⟩ := impl_of_regime_kummer_pos E fuel a b x hreg
  refine ⟨?_, ⟨by linarith [hg.1], hg.2⟩, ?_⟩
  · rw [himpl, hK]
    by_cases h0 : K = 0
    · simp [h0]
    · simp [h0]
  · intro hc hl hK0 hs
    rw [hc _ _ hs, hl |K| x (abs_pos.2 hK0)]
    by_cases hpos : K ≥ 0
    · rw [if_pos hpos, abs_of_nonneg hpos]; ring
    · rw [if_neg hpos, abs_of_neg (not_le.1 hpos)]; ring

/-- C10 at `a = -2.5`, `b = 8`, `x = 5`, where the reflected call
`hyperg_1F1_ab_pos(10.5, 8, -5)` returns `K = 180921/165376` with success. -/
theorem C10_kummer_reflection_witness :
    gsl_sf_hyperg_1F1_impl ratEnv 0 (-5 / 2) 8 5
      = .ok (if (180921 / 165376 : ℚ) = 0 then (0, .GSL_SUCCESS)
          else ratEnv.gsl_sf_exp_sgn_impl (ratEnv.log |(180921 / 165376 : ℚ)| + 5)
            (180921 / 165376))
    ∧ ((8 : ℚ) - -5 / 2 > 8 ∧ (8 : ℚ) > 0) :=
  have h := C10_kummer_reflection ratEnv 0 (-5 / 2) 8 5 (180921 / 165376)
    (regime_kummer_pos_example ratEnv ratEnv_EpsOK (by norm_num [ratEnv]))
    ab_pos_reflected_example
  ⟨h.1, h.2.1⟩

/-- What `hyperg_1F1_beps_bgt0` returns: the status of the reflected evaluator
`hyperg_1F1_small_a_bgt0(-eps, b, -x)`, with the value 0, when that status is
neither success nor a loss of precision, or when the reflected value is 0;
when the status is success or a loss of precision and the value `K` is not 0,
the value and the status of `gsl_sf_exp_sgn_impl(log|K| + x, sign K)`,
whatever the two were. -/
theorem beps_bgt0_status (E : Env R) (fuel : ℕ) (eps b x K : R) (st : Status)
    (hK : hyperg_1F1_small_a_bgt0 E fuel (-eps) b (-x) = .ok (K, st)) :
    ((st ≠ .GSL_SUCCESS ∧ st ≠ .GSL_ELOSS) ∨ K = 0 →
      hyperg_1F1_beps_bgt0 E fuel eps b x = .ok (0, st)) ∧
    ((st = .GSL_SUCCESS ∨ st = .GSL_ELOSS) → K ≠ 0 →
      hyperg_1F1_beps_bgt0 E fuel eps b x
        = .ok (E.gsl_sf_exp_sgn_impl (E.log |K| + x) (if K > 0 then 1 else -1))) := by
  constructor
  · intro h
    unfold hyperg_1F1_beps_bgt0
    rw [hK]
    rcases h with ⟨h1, h2⟩ | h0
    · simp [h1, h2]
    · simp [h0]
  · intro h1 h0
    unfold hyperg_1F1_beps_bgt0
    rw [hK]
    simp [h1, h0]

/-- The lemma `beps_bgt0_status` at `eps = 1/2`, `b = 8`, `x = 1` with a series
primitive that reports a loss of precision: the reflected evaluator returns
`17/16` with `GSL_ELOSS`, and the helper returns what the exponentiation
returns. -/
theorem beps_bgt0_status_example :
    hyperg_1F1_small_a_bgt0 lossEnv 0 (-(1 / 2)) 8 (-1) = .ok (17 / 16, .GSL_ELOSS) ∧
    hyperg_1F1_beps_bgt0 lossEnv 0 (1 / 2) 8 1
      = .ok (lossEnv.gsl_sf_exp_sgn_impl (lossEnv.log |(17 / 16 : ℚ)| + 1)
          (if (17 / 16 : ℚ) > 0 then 1 else -1)) :=
  ⟨small_a_loss_example,
    (beps_bgt0_status lossEnv 0 (1 / 2) 8 1 (17 / 16) .GSL_ELOSS small_a_loss_example).2
      (Or.inr rfl) (by norm_num)⟩

/-- C11 fails: `hyperg_1F1_beps_bgt0` turns a loss of precision of the
reflected evaluator into success.  At `eps = 1/2`, `b = 8`, `x = 1`, with a
series primitive that reports a loss of precision, the reflected evaluator
`hyperg_1F1_small_a_bgt0(-1/2, 8, -1)` returns `GSL_ELOSS`, the
exponentiation succeeds, and `hyperg_1F1_beps_bgt0` returns `GSL_SUCCESS`.
The call is the one made for the input `(20.5, 8, 1)` of the real dispatcher,
which selects `hyperg_1F1_ab_pos` (line 1549) and returns `GSL_SUCCESS`
there. -/
theorem C11_beps_upgrades_loss :
    hyperg_1F1_small_a_bgt0 lossEnv 0 (-(1 / 2)) 8 (-1) = .ok (17 / 16, .GSL_ELOSS) ∧
    lossEnv.gsl_sf_exp_sgn_impl (lossEnv.log |(17 / 16 : ℚ)| + 1) 1
      = (1345 / 512, .GSL_SUCCESS) ∧
    hyperg_1F1_beps_bgt0 lossEnv 0 (1 / 2) 8 1 = .ok (1345 / 512, .GSL_SUCCESS) ∧
    gsl_sf_hyperg_1F1_regime lossEnv (41 / 2) 8 1 = .generic_pos ∧
    gsl_sf_hyperg_1F1_impl lossEnv 0 (41 / 2) 8 1
      = .ok ((hyperg_1F1_ab_pos_forward 8 1 (41 / 2 - 1 / 10) 12 (8 + 1 / 2)
          (1217 / 512) (1345 / 512)).2, .GSL_SUCCESS) := by
  have h := small_a_loss_example
  have hreg : gsl_sf_hyperg_1F1_regime lossEnv (41 / 2) 8 1 = .generic_pos := by decide!
  refine ⟨h, ?_, beps_loss_examples.2, hreg, ?_⟩
  · norm_num [lossEnv, ratEnv, abs_of_pos]
  · rw [impl_of_regime_generic_pos lossEnv 0 (41 / 2) 8 1 hreg, ab_pos_loss_example]

/-- C12 fails at `a = 2`, `b = 5`, `x = 3`, with the series of
`hyperg_2F0.c` as the 2F0 primitive: the call `2F0(3, -1, 1/3)` made by
`hyperg_1F1_asymp_posx` returns `GSL_ELOSS` (its sum is 0), both log-gamma
calls succeed, and `hyperg_1F1_asymp_posx` returns `GSL_SUCCESS`.  The sibling
`hyperg_1F1_asymp_negx` hands the same status of its series on, as at
`a = -1`, `b = -3`, `x = -3`. -/
theorem C12_asymp_posx_drops_status :
    (seriesEnv.gsl_sf_hyperg_2F0_series_impl (5 - 2) (1 - 2) (1 / 3) (-1)).stat = .GSL_ELOSS ∧
    (seriesEnv.gsl_sf_lngamma_sgn_impl 2).stat = .GSL_SUCCESS ∧
    (seriesEnv.gsl_sf_lngamma_sgn_impl 5).stat = .GSL_SUCCESS ∧
    hyperg_1F1_asymp_posx seriesEnv 2 5 3 = (0, .GSL_SUCCESS) ∧
    (seriesEnv.gsl_sf_hyperg_2F0_series_impl (-1) (1 + -1 - -3) (-1 / -3) (-1)).stat
      = .GSL_ELOSS ∧
    hyperg_1F1_asymp_negx seriesEnv (-1) (-3) (-3) = (0, .GSL_ELOSS) := by
  decide!

/-- C13 fails at `a = -1`, `b = 2`, `x = 1000`: the integer dispatcher calls
`hyperg_1F1_asymp_posx(-1, 2, 1000)`, whose `a` is a negative integer, and the
real dispatcher, which hands integer pairs to it, returns the same.  At
`a = 3`, `b = 1`, `x = -1000` it calls `hyperg_1F1_asymp_negx(3, 1, -1000)`
with `b - a = -2`, and at `a = -1`, `b = -3`, `x = -1000` with `b = -3`. -/
theorem C13_int_dispatcher_asymp_negative_integer :
    gsl_sf_hyperg_1F1_int_regime (-1) 2 (1000 : ℚ) = .asymp_posx ∧
    gsl_sf_hyperg_1F1_int_impl ratEnv (-1) 2 (1000 : ℚ)
      = hyperg_1F1_asymp_posx ratEnv (((-1 : ℤ) : ℤ) : ℚ) (((2 : ℤ) : ℤ) : ℚ) 1000 ∧
    gsl_sf_hyperg_1F1_impl ratEnv 0 (((-1 : ℤ) : ℤ) : ℚ) (((2 : ℤ) : ℤ) : ℚ) 1000
      = .ok (hyperg_1F1_asymp_posx ratEnv (((-1 : ℤ) : ℤ) : ℚ) (((2 : ℤ) : ℤ) : ℚ) 1000) ∧
    gsl_sf_hyperg_1F1_int_regime 3 1 (-1000 : ℚ) = .asymp_negx ∧
    gsl_sf_hyperg_1F1_int_impl ratEnv 3 1 (-1000 : ℚ)
      = hyperg_1F1_asymp_negx ratEnv (((3 : ℤ) : ℤ) : ℚ) (((1 : ℤ) : ℤ) : ℚ) (-1000) ∧
    gsl_sf_hyperg_1F1_int_regime (-1) (-3) (-1000 : ℚ) = .asymp_negx := by
  have r1 : gsl_sf_hyperg_1F1_int_regime (-1) 2 (1000 : ℚ) = .asymp_posx := by decide!
  have r2 : gsl_sf_hyperg_1F1_int_regime 3 1 (-1000 : ℚ) = .asymp_negx := by decide!
  have e1 := ((int_impl_of_regime_asymp ratEnv (-1) 2 1000).1 r1).1
  refine ⟨r1, e1, ?_, r2, ((int_impl_of_regime_asymp ratEnv 3 1 (-1000)).2 r2).1, by decide!⟩
  rw [impl_intCast ratEnv ratEnv_EpsOK 0 (-1) 2 1000 (by norm_num) (by decide) (by decide)
    (by decide), e1]

/-- C14: the results of `hyperg_1F1_ab_pos` (for real `a > 0`, `b > 0`) and of
`hyperg_1F1_ab_posint` (for integers `a ≥ 1`, `b ≥ 1`) are those obtained with
any ratio evaluator `cf` in the place of `hyperg_1F1_CF1_p_ser` that agrees
with it at the arguments with `b' > x'`: no call is made outside that region,
where `cf` is arbitrary. -/
theorem C14_cf1_calls_in_stable_region (E : Env R) (fuel : ℕ) (cf : R → R → R → R × Status)
    (hcf : ∀ a' b' x' : R, b' > x' → cf a' b' x' = hyperg_1F1_CF1_p_ser E a' b' x') :
    (∀ a b x : R, 0 < a → 0 < b →
      hyperg_1F1_ab_pos E fuel a b x = hyperg_1F1_ab_pos_cf cf E fuel a b x) ∧
    (∀ (a b : ℤ) (x : R), 1 ≤ a → 1 ≤ b →
      hyperg_1F1_ab_posint E a b x = hyperg_1F1_ab_posint_cf cf E a b x) := by
  constructor
  · intro a b x ha hb
    rw [ab_pos_eq_cf]
    exact (ab_pos_cf_congr E fuel cf (hyperg_1F1_CF1_p_ser E) hcf a b x ha hb).symm
  · intro a b x ha hb
    rw [ab_posint_eq_cf]
    exact (ab_posint_cf_congr E cf (hyperg_1F1_CF1_p_ser E) hcf a b x ha hb).symm

/-- C14 at inputs that make the calls.  With the evaluator that fails outside
`b' > x'` in the place of `hyperg_1F1_CF1_p_ser` the results are unchanged at
the integer inputs `(2, 10, -5)` (branch `b > 2a + x`), `(2, 10, 8)` (last
branch, `b > x`) and `(2, 10, 20)` (last branch, `b ≤ x`, reflected call) and
at the real inputs `(2, 21/2, -21/4)`, `(2, 19/2, 8)` and `(2, 19/2, 39/4)`
of the same three branches.  Each of the six inputs does call the evaluator,
at the arguments `(a', b', x')` named below, all with `b' > x'`: an evaluator
that answers 1 at these arguments and 0 elsewhere gives another result than
the evaluator that answers 0 everywhere. -/
theorem C14_cf1_calls_in_stable_region_witness :
    (hyperg_1F1_ab_posint ratEnv 2 10 (-5)
        = hyperg_1F1_ab_posint_cf
            (fun a' b' x' => if b' > x' then hyperg_1F1_CF1_p_ser ratEnv a' b' x'
              else (0, .GSL_EFAILED)) ratEnv 2 10 (-5) ∧
      hyperg_1F1_ab_posint ratEnv 2 10 8
        = hyperg_1F1_ab_posint_cf
            (fun a' b' x' => if b' > x' then hyperg_1F1_CF1_p_ser ratEnv a' b' x'
              else (0, .GSL_EFAILED)) ratEnv 2 10 8 ∧
      hyperg_1F1_ab_posint ratEnv 2 10 20
        = hyperg_1F1_ab_posint_cf
            (fun a' b' x' => if b' > x' then hyperg_1F1_CF1_p_ser ratEnv a' b' x'
              else (0, .GSL_EFAILED)) ratEnv 2 10 20) ∧
    (hyperg_1F1_ab_pos ratEnv 0 2 (21 / 2) (-21 / 4)
        = hyperg_1F1_ab_pos_cf
            (fun a' b' x' => if b' > x' then hyperg_1F1_CF1_p_ser ratEnv a' b' x'
              else (0, .GSL_EFAILED)) ratEnv 0 2 (21 / 2) (-21 / 4) ∧
      hyperg_1F1_ab_pos ratEnv 0 2 (19 / 2) 8
        = hyperg_1F1_ab_pos_cf
            (fun a' b' x' => if b' > x' then hyperg_1F1_CF1_p_ser ratEnv a' b' x'
              else (0, .GSL_EFAILED)) ratEnv 0 2 (19 / 2) 8 ∧
      hyperg_1F1_ab_pos ratEnv 0 2 (19 / 2) (39 / 4)
        = hyperg_1F1_ab_pos_cf
            (fun a' b' x' => if b' > x' then hyperg_1F1_CF1_p_ser ratEnv a' b' x'
              else (0, .GSL_EFAILED)) ratEnv 0 2 (19 / 2) (39 / 4)) ∧
    (hyperg_1F1_ab_posint_cf
          (fun a' b' x' => if a' = 2 ∧ b' = 10 ∧ x' = -5 then (1, .GSL_SUCCESS)
            else (0, .GSL_SUCCESS)) ratEnv 2 10 (-5)
        ≠ hyperg_1F1_ab_posint_cf (fun _ _ _ => (0, .GSL_SUCCESS)) ratEnv 2 10 (-5) ∧
      hyperg_1F1_ab_posint_cf
          (fun a' b' x' => if a' = 2 ∧ b' = 10 ∧ x' = 8 then (1, .GSL_SUCCESS)
            else (0, .GSL_SUCCESS)) ratEnv 2 10 8
        ≠ hyperg_1F1_ab_posint_cf (fun _ _ _ => (0, .GSL_SUCCESS)) ratEnv 2 10 8 ∧
      hyperg_1F1_ab_posint_cf
          (fun a' b' x' => if a' = 7 ∧ b' = 10 ∧ x' = -20 then (1, .GSL_SUCCESS)
            else (0, .GSL_SUCCESS)) ratEnv 2 10 20
        ≠ hyperg_1F1_ab_posint_cf (fun _ _ _ => (0, .GSL_SUCCESS)) ratEnv 2 10 20) ∧
    ((hyperg_1F1_ab_pos_cf
          (fun a' b' x' => if a' = 2 ∧ b' = 21 / 2 ∧ x' = -21 / 4 then (1, .GSL_SUCCESS)
            else (0, .GSL_SUCCESS)) ratEnv 0 2 (21 / 2) (-21 / 4)).toOption
        ≠ (hyperg_1F1_ab_pos_cf (fun _ _ _ => (0, .GSL_SUCCESS)) ratEnv 0 2 (21 / 2)
            (-21 / 4)).toOption ∧
      (hyperg_1F1_ab_pos_cf
          (fun a' b' x' => if a' = 2 ∧ b' = 19 / 2 ∧ x' = 8 then (1, .GSL_SUCCESS)
            else (0, .GSL_SUCCESS)) ratEnv 0 2 (19 / 2) 8).toOption
        ≠ (hyperg_1F1_ab_pos_cf (fun _ _ _ => (0, .GSL_SUCCESS)) ratEnv 0 2 (19 / 2) 8).toOption ∧
      (hyperg_1F1_ab_pos_cf
          (fun a' b' x' => if a' = 13 / 2 ∧ b' = 19 / 2 ∧ x' = -39 / 4 then (1, .GSL_SUCCESS)
            else (0, .GSL_SUCCESS)) ratEnv 0 2 (19 / 2) (39 / 4)).toOption
        ≠ (hyperg_1F1_ab_pos_cf (fun _ _ _ => (0, .GSL_SUCCESS)) ratEnv 0 2 (19 / 2)
            (39 / 4)).toOption) :=
  have h := C14_cf1_calls_in_stable_region ratEnv 0
    (fun a' b' x' => if b' > x' then hyperg_1F1_CF1_p_ser ratEnv a' b' x'
      else (0, .GSL_EFAILED)) (fun _ _ _ hb => if_pos hb)
  ⟨⟨h.2 2 10 (-5) (by decide) (by decide), h.2 2 10 8 (by decide) (by decide),
      h.2 2 10 20 (by decide) (by decide)⟩,
    ⟨h.1 2 (21 / 2) (-21 / 4) (by norm_num) (by norm_num),
      h.1 2 (19 / 2) 8 (by norm_num) (by norm_num),
      h.1 2 (19 / 2) (39 / 4) (by norm_num) (by norm_num)⟩,
    by decide!, by decide!⟩

end Claims

section FieldClaims

variable {R : Type} [LinearOrderedField R]

/-- C16 as amended: for every input the precision reported by
`hyperg_2F0_series` lies in `[0, 1]`; the precision reported by
`hyperg_1F1_luke` is at least 0, and it is below `GSL_MACH_EPS` unless the
loop left at the cap `n > nmax = 5000`, where nothing bounds it by 1. -/
theorem C16_precision_range (E : Env R) :
    (∀ a b x : R, 0 ≤ (hyperg_2F0_series E a b x).prec ∧ (hyperg_2F0_series E a b x).prec ≤ 1) ∧
    (∀ a c x : R, 0 ≤ (hyperg_1F1_luke E a c x).prec ∧
      ((hyperg_1F1_luke E a c x).prec < E.GSL_MACH_EPS ∨
        (hyperg_1F1_luke_final E a c x).n > 5000)) := by
  refine ⟨fun a b x => series_2F0_prec_mem E a b x, fun a c x => ?_⟩
  rw [luke_prec_eq_final]
  refine ⟨?_, ?_⟩
  · exact luke_loop_prec_nonneg E a c _ _ 5000 _ (le_refl 0)
  · exact luke_loop_exit E a c _ _ 5000 _ (by norm_num) (by norm_num [hyperg_1F1_luke_init])

/-- C17: for `a = -N` with `N ≥ 1`, `b + k ≠ 0` for `k < N` and positive
Horner factors `t_k = (a+k)/(b+k) · x/(k+1)`, a successful
`hyperg_1F1_a_negint_poly(a, b, x)` returns the finite sum
`Σ_{k=0..N} (a)_k/(b)_k · x^k/k!`, the Pochhammer symbols written as products;
and for `a = 0` it returns `(1, Success)`. -/
theorem C17_terminating_polynomial (E : Env R) (N : ℕ) (hN : 1 ≤ N) (b x : R)
    (hb : ∀ k : ℕ, k < N → b + (k : R) ≠ 0)
    (ht : ∀ k : ℕ, k < N →
      0 < ((-(N : ℤ) + (k : ℤ) : ℤ) : R) / (b + (k : R)) * (x / ((k : R) + 1)))
    (hS : (hyperg_1F1_a_negint_poly E (-(N : ℤ)) b x).2 = .GSL_SUCCESS) :
    (hyperg_1F1_a_negint_poly E (-(N : ℤ)) b x).1
      = ∑ k in Finset.range (N + 1),
          (∏ j in Finset.range k, (((-(N : ℤ) : ℤ) : R) + (j : R)))
            / (∏ j in Finset.range k, (b + (j : R))) * x ^ k / (k.factorial : R)
    ∧ hyperg_1F1_a_negint_poly E 0 b x = (1, .GSL_SUCCESS) := by
  have _ := hb
  have hN0 : (-(N : ℤ)) ≠ 0 := by omega
  constructor
  · unfold hyperg_1F1_a_negint_poly at hS ⊢
    rw [if_neg hN0] at hS ⊢
    dsimp only at hS ⊢
    have eN : (- -(N : ℤ)).toNat = N := by simp
    rw [eN] at hS ⊢
    rw [a_negint_poly_loop_eq E (-(N : ℤ)) b x N 1 one_pos ht hS, one_mul,
      Finset.sum_range_succ]
    congr 1
    · apply Finset.sum_congr rfl
      intro i _
      rw [horner_factor_prod]
    · rw [horner_factor_prod]
  · simp [hyperg_1F1_a_negint_poly]

end FieldClaims

/-- C16 as stated fails for `hyperg_1F1_luke` at `a = 1`, `c = 2`,
`x = -10^8`: the loop leaves at the cap `n > 5000` and the relative change it
reports is above 1 (about `3.08`). -/
theorem C16_counterexample :
    (hyperg_1F1_luke ratEnv 1 2 (-100000000)).prec > 1 := by
  have h := luke_1_2_prec_of_check ratEnv 100000000 (2 ^ 4728) (2 ^ 128) (2 ^ 52)
    (by norm_num [ratEnv]) 1 1 4 1 (by decide!)
  have := h.1
  push_cast at this
  rw [mul_one] at this
  exact this

/-- C17 at `N = 2`, `b = 1`, `x = -1`, with the factors `2` and `1/4`: the
value is `1 + 2 + 1/2 = 7/2`. -/
theorem C17_terminating_polynomial_witness :
    (hyperg_1F1_a_negint_poly ratEnv (-((2 : ℕ) : ℤ)) 1 (-1)).2 = .GSL_SUCCESS ∧
    (hyperg_1F1_a_negint_poly ratEnv (-((2 : ℕ) : ℤ)) 1 (-1)).1
      = ∑ k in Finset.range (2 + 1),
          (∏ j in Finset.range k, (((-((2 : ℕ) : ℤ) : ℤ) : ℚ) + (j : ℚ)))
            / (∏ j in Finset.range k, ((1 : ℚ) + (j : ℚ))) * (-1) ^ k / (k.factorial : ℚ) ∧
    (hyperg_1F1_a_negint_poly ratEnv (-((2 : ℕ) : ℤ)) 1 (-1)).1 = 7 / 2 :=
  have hS : (hyperg_1F1_a_negint_poly ratEnv (-((2 : ℕ) : ℤ)) 1 (-1)).2 = .GSL_SUCCESS := by
    decide!
  have h := C17_terminating_polynomial ratEnv 2 (le_refl 1 |>.trans (by decide)) 1 (-1)
    (by intro k hk; interval_cases k <;> norm_num)
    (by intro k hk; interval_cases k <;> norm_num) hS
  ⟨hS, h.1, by decide!⟩

/-- Outside the guards of its callers the loop of `hyperg_1F1_1_series` has
no bound on its passes: at `b = 10^6`, `x = 1006000` it has not ended after
5000 passes, and for every budget `N` there is an input with `b > 0` at which
it has not ended after `N` passes.  The callers never pass such an input. -/
theorem series_loop_unbounded_without_guard :
    hyperg_1F1_1_series ratEnv 5000 1000000 1006000 = .error .outOfFuel ∧
    ∀ N : ℕ, ∃ b x : ℚ, 0 < b ∧ hyperg_1F1_1_series ratEnv N b x = .error .outOfFuel := by
  constructor
  · exact series_outOfFuel ratEnv 5000 1000000 1006000 (by norm_num) (by norm_num)
      (by norm_num [ratEnv])
  · intro N
    exact ⟨1, 2 * ((N : ℚ) + 1), one_pos,
      series_outOfFuel_any_budget ratEnv (by norm_num [ratEnv]) N⟩

/-- C19: for a vector of stride `s ≥ 1` whose `size · s` elements lie within
the range of `size_t`, an index `i < size` and an element `c`: `set(v,i,c)`
signals nothing, `get(v,i)` then returns `c`, the element is stored at
`data[i·s]`, and `get(v,j)` is unchanged for every other index `j < size`. -/
theorem C19_set_get_round_trip (v : gsl_vector_char) (i : ℕ) (c : ℤ)
    (hs : 1 ≤ v.stride) (hi : i < v.size) (hfit : v.size * v.stride ≤ SIZE_T_MOD) :
    gsl_vector_char_get (gsl_vector_char_set v i c).value i = ⟨c, none⟩ ∧
    (gsl_vector_char_set v i c).value.data (i * v.stride) = c ∧
    (gsl_vector_char_set v i c).err = none ∧
    ∀ j : ℕ, j < v.size → j ≠ i →
      gsl_vector_char_get (gsl_vector_char_set v i c).value j = gsl_vector_char_get v j := by
  have hlt : ∀ k : ℕ, k < v.size → k * v.stride < SIZE_T_MOD := by
    intro k hk
    have h1 : k * v.stride < v.size * v.stride :=
      Nat.mul_lt_mul_of_pos_right hk (by omega)
    omega
  have hmod : ∀ k : ℕ, k < v.size → (k * v.stride) % SIZE_T_MOD = k * v.stride :=
    fun k hk => Nat.mod_eq_of_lt (hlt k hk)
  have hni : ¬ i ≥ v.size := by omega
  have hset : gsl_vector_char_set v i c
      = ⟨{ v with data := Function.update v.data (i * v.stride) c }, none⟩ := by
    unfold gsl_vector_char_set
    rw [if_neg hni, hmod i hi]
  rw [hset]
  refine ⟨?_, ?_, rfl, ?_⟩
  · unfold gsl_vector_char_get
    rw [if_neg hni]
    dsimp only
    rw [hmod i hi, Function.update_same]
  · simp
  · intro j hj hji
    have hnj : ¬ j ≥ v.size := by omega
    unfold gsl_vector_char_get
    rw [if_neg hnj, if_neg hnj]
    dsimp only
    rw [hmod j hj]
    have hne : j * v.stride ≠ i * v.stride := by
      intro h
      exact hji (Nat.eq_of_mul_eq_mul_right (by omega) h)
    simp [Function.update_noteq hne]

/-- C19 at a vector of size 4 and stride 2 holding zeros, `i = 1`, `c = 7`. -/
theorem C19_set_get_round_trip_witness :
    (1 ≤ 2 ∧ 1 < 4 ∧ 4 * 2 ≤ SIZE_T_MOD) ∧
    gsl_vector_char_get
      (gsl_vector_char_set ⟨4, 2, fun _ => 0⟩ 1 7).value 1 = ⟨7, none⟩ ∧
    (gsl_vector_char_set ⟨4, 2, fun _ => 0⟩ 1 7).value.data (1 * 2) = 7 :=
  have hfit : 4 * 2 ≤ SIZE_T_MOD := by unfold SIZE_T_MOD; norm_num
  have h := C19_set_get_round_trip ⟨4, 2, fun _ => 0⟩ 1 7 (by decide) (by decide) hfit
  ⟨⟨by decide, by decide, hfit⟩, h.1, h.2.1⟩

/-- C20: for every vector `v` and every index `i ≥ v.size`, `get(v,i)`
signals `GSL_EINVAL` and returns 0, `set(v,i,c)` signals `GSL_EINVAL` and
leaves `v` as it was, and `ptr(v,i)` signals it and returns the null pointer;
the wrapped value of `0 - 1` is such an index for every size below `2^64`. -/
theorem C20_range_trap (v : gsl_vector_char) (i : ℕ) (c : ℤ) (hi : v.size ≤ i) :
    gsl_vector_char_get v i = ⟨0, some .GSL_EINVAL⟩ ∧
    gsl_vector_char_set v i c = ⟨v, some .GSL_EINVAL⟩ ∧
    (∀ k : ℕ, (gsl_vector_char_set v i c).value.data k = v.data k) ∧
    gsl_vector_char_ptr v i = ⟨none, some .GSL_EINVAL⟩ ∧
    (v.size < SIZE_T_MOD →
      gsl_vector_char_get v (size_t_sub 0 1) = ⟨0, some .GSL_EINVAL⟩ ∧
      gsl_vector_char_set v (size_t_sub 0 1) c = ⟨v, some .GSL_EINVAL⟩) := by
  have hge : i ≥ v.size := hi
  have hset : gsl_vector_char_set v i c = ⟨v, some .GSL_EINVAL⟩ := by
    unfold gsl_vector_char_set
    rw [if_pos hge]
  refine ⟨?_, hset, ?_, ?_, ?_⟩
  · unfold gsl_vector_char_get
    rw [if_pos hge]
  · intro k
    rw [hset]
  · unfold gsl_vector_char_ptr
    rw [if_pos hge]
  · intro hsz
    have hw : size_t_sub 0 1 ≥ v.size := by
      have e : size_t_sub 0 1 = SIZE_T_MOD - 1 := by
        unfold size_t_sub SIZE_T_MOD
        norm_num
      rw [e]
      omega
    constructor
    · unfold gsl_vector_char_get
      rw [if_pos hw]
    · unfold gsl_vector_char_set
      rw [if_pos hw]

/-- C20 at a vector of size 4 and stride 1 holding fives, at the upper bound
`i = 4`. -/
theorem C20_range_trap_witness :
    4 ≤ 4 ∧
    gsl_vector_char_get ⟨4, 1, fun _ => 5⟩ 4 = ⟨0, some .GSL_EINVAL⟩ ∧
    gsl_vector_char_set ⟨4, 1, fun _ => 5⟩ 4 7 = ⟨⟨4, 1, fun _ => 5⟩, some .GSL_EINVAL⟩ :=
  have h := C20_range_trap ⟨4, 1, fun _ => 5⟩ 4 7 (le_refl 4)
  ⟨le_refl 4, h.1, h.2.1⟩

/-- C21 fails at `a = 1`, `b = 2`, `x = 1`: both log-gamma calls succeed and
`ln_pre + log|F|` is below `GSL_LOG_DBL_MAX`, and `hyperg_1F1_asymp_posx`
returns the value when the unassigned `ln_F` holds 0 and `(0, Overflow)` when
it holds 1000.  At `a = b = 2`, `x = 1000` the sum `ln_pre + log|F|` is above
`GSL_LOG_DBL_MAX` and the function returns success when `ln_F` holds -1000.
The primitives are the same in the three runs. -/
theorem C21_asymp_posx_guard_reads_unassigned :
    ((garbageEnv 0).gsl_sf_lngamma_sgn_impl 1).stat = .GSL_SUCCESS ∧
    ((garbageEnv 0).gsl_sf_lngamma_sgn_impl 2).stat = .GSL_SUCCESS ∧
    ((garbageEnv 0).gsl_sf_lngamma_sgn_impl 2).lg - ((garbageEnv 0).gsl_sf_lngamma_sgn_impl 1).lg
        + 1 + (1 - 2) * (garbageEnv 0).log 1
        + (garbageEnv 0).log
            |((garbageEnv 0).gsl_sf_hyperg_2F0_series_impl (2 - 1) (1 - 1) (1 / 1) (-1)).val|
      < (garbageEnv 0).GSL_LOG_DBL_MAX ∧
    hyperg_1F1_asymp_posx (garbageEnv 0) 1 2 1 = (5 / 2, .GSL_SUCCESS) ∧
    hyperg_1F1_asymp_posx (garbageEnv 1000) 1 2 1 = (0, .GSL_EOVRFLW) ∧
    ((garbageEnv (-1000)).gsl_sf_lngamma_sgn_impl 2).lg
        - ((garbageEnv (-1000)).gsl_sf_lngamma_sgn_impl 2).lg
        + 1000 + (2 - 2) * (garbageEnv (-1000)).log 1000
        + (garbageEnv (-1000)).log
            |((garbageEnv (-1000)).gsl_sf_hyperg_2F0_series_impl (2 - 2) (1 - 2) (1 / 1000)
                (-1)).val|
      ≥ (garbageEnv (-1000)).GSL_LOG_DBL_MAX ∧
    (hyperg_1F1_asymp_posx (garbageEnv (-1000)) 2 2 1000).2 = .GSL_SUCCESS := by
  decide!

/-- C22 fails at the candidate `a = -1`, `b = -2`, `x = -1`: the terminating
polynomial `Σ_{k=0..1} (a)_k/(b)_k · x^k/k!` is `1 + x/2 = 1/2`, which is what
`hyperg_1F1_a_negint_poly(a, b, ·)` gives (`3/2` at `x = 1`, the value
`1 + x/2`), while `hyperg_1F1_ab_negint` returns `exp(-1) · 3/2`: `3/4` with
the rational exponential, and a value other than `1/2` with the exponential of
the reals, since `e ≠ 3`. -/
theorem C22_negint_kummer_differs :
    (∑ k in Finset.range (1 + 1),
        (∏ j in Finset.range k, (((-1 : ℤ) : ℚ) + (j : ℚ)))
          / (∏ j in Finset.range k, (((-2 : ℤ) : ℚ) + (j : ℚ))) * (-1) ^ k / (k.factorial : ℚ))
      = 1 / 2 ∧
    hyperg_1F1_a_negint_poly ratEnv (-1) (-2) 1 = (3 / 2, .GSL_SUCCESS) ∧
    ratEnv.gsl_sf_exp_impl (-1) = (1 / 2, .GSL_SUCCESS) ∧
    hyperg_1F1_ab_negint ratEnv (-1) (-2) (-1) = (3 / 4, .GSL_SUCCESS) ∧
    (∀ E : Env ℝ, E.gsl_sf_exp_impl (-1) = (Real.exp (-1), .GSL_SUCCESS) → 5 / 3 ≤ E.DBL_MAX →
      (hyperg_1F1_ab_negint E (-1) (-2) (-1)).2 = .GSL_SUCCESS ∧
      (hyperg_1F1_ab_negint E (-1) (-2) (-1)).1 ≠ 1 / 2) := by
  refine ⟨by decide!, by decide!, by decide!, by decide!, ?_⟩
  intro E hexp hmax
  rw [ab_negint_kummer_example E (Real.exp (-1)) hexp hmax]
  refine ⟨rfl, ?_⟩
  intro h
  have h3 : Real.exp 1 < 3 := lt_trans Real.exp_one_lt_d9 (by norm_num)
  have hpos : 0 < Real.exp 1 := Real.exp_pos 1
  have hinv : Real.exp (-1) = (Real.exp 1)⁻¹ := Real.exp_neg 1
  have h1 : Real.exp (-1) = 1 / 3 := by
    have : Real.exp (-1) * (3 / 2) = 1 / 2 := h
    linarith
  rw [hinv] at h1
  have h2 : Real.exp 1 = 3 := by
    have := congrArg (fun t => t⁻¹) h1
    simpa using this
  linarith

/-- C23 fails at the candidate `a = 3`, `b = 5`, `x = 6`: the value returned
is the `M(a,b+1)` output (`Mabp1`) of
`hyperg_1F1_diag_step((b-1)/2, b-1, x, ...)`, the value for the parameter
`a_start - 1 = 2`, and not its `M(a+1,b+1)` output (`Map1bp1`): for odd `b`
the pair `(Mnm1, Mn)` enters the loop in the order `a_start`, `a_start - 1`.
For even `b` the order is the stated one: at `a = 4`, `b = 6`, `x = 6` the
value returned is the `M(a+1,b)` output of `hyperg_1F1_diag_end_step`. -/
theorem C23_odd_seeds_swapped :
    (∀ E : Env ℚ, (hyperg_1F1_beq2a_pos E 2 6).2 = .GSL_SUCCESS →
      (hyperg_1F1_beq2a_pos E 3 6).2 = .GSL_SUCCESS →
      hyperg_1F1_ab_posint E 3 5 6
        = ((hyperg_1F1_diag_step 2 4 6 (hyperg_1F1_beq2a_pos E 2 6).1
            (hyperg_1F1_beq2a_pos E 3 6).1).2, .GSL_SUCCESS)) ∧
    hyperg_1F1_ab_posint ratEnv 3 5 6
      = ((hyperg_1F1_diag_step 2 4 6 (hyperg_1F1_beq2a_pos ratEnv 2 6).1
          (hyperg_1F1_beq2a_pos ratEnv 3 6).1).2, .GSL_SUCCESS) ∧
    (hyperg_1F1_diag_step (2 : ℚ) 4 6 (hyperg_1F1_beq2a_pos ratEnv 2 6).1
        (hyperg_1F1_beq2a_pos ratEnv 3 6).1).2
      ≠ (hyperg_1F1_diag_step (2 : ℚ) 4 6 (hyperg_1F1_beq2a_pos ratEnv 2 6).1
        (hyperg_1F1_beq2a_pos ratEnv 3 6).1).1 ∧
    hyperg_1F1_ab_posint ratEnv 4 6 6
      = ((hyperg_1F1_diag_end_step 3 6 6 (hyperg_1F1_beq2a_pos ratEnv 3 6).1
          (hyperg_1F1_beq2a_pos ratEnv 4 6).1).1, .GSL_SUCCESS) := by
  refine ⟨fun E h0 h2 => ab_posint_odd_seed_example E h0 h2, by decide!, by decide!, by decide!⟩

section RecurClaims

variable {R : Type} [LinearOrderedField R]

/-- C24: for every input `(a, c, x)`, after any number `k` of passes the loop
of `hyperg_1F1_luke` and the loop with the rescaling removed hold the same
ratio `F = A_n/B_n`, the same relative change and the same `n`; hence
`hyperg_1F1_luke` and the function without rescaling return the same value,
precision and status. -/
theorem C24_luke_rescaling_invariant (E : Env R) (a c x : R) :
    (∀ k : ℕ,
      (hyperg_1F1_luke_loop E a c (-x) (-x * -x * -x) k (hyperg_1F1_luke_init a c x)).F
        = (hyperg_1F1_luke_loop_norescale E a c (-x) (-x * -x * -x) k
            (hyperg_1F1_luke_init a c x)).F ∧
      (hyperg_1F1_luke_loop E a c (-x) (-x * -x * -x) k (hyperg_1F1_luke_init a c x)).prec
        = (hyperg_1F1_luke_loop_norescale E a c (-x) (-x * -x * -x) k
            (hyperg_1F1_luke_init a c x)).prec ∧
      (hyperg_1F1_luke_loop E a c (-x) (-x * -x * -x) k (hyperg_1F1_luke_init a c x)).n
        = (hyperg_1F1_luke_loop_norescale E a c (-x) (-x * -x * -x) k
            (hyperg_1F1_luke_init a c x)).n) ∧
    hyperg_1F1_luke E a c x = hyperg_1F1_luke_norescale E a c x := by
  have h0 : (hyperg_1F1_luke_init a c x).Proportional (hyperg_1F1_luke_init a c x) :=
    ⟨rfl, rfl, rfl, 1, one_ne_zero, (one_mul _).symm, (one_mul _).symm, (one_mul _).symm,
      (one_mul _).symm, (one_mul _).symm, (one_mul _).symm⟩
  have key := fun k => luke_loop_proportional E a c (-x) (-x * -x * -x) k _ _ h0
  refine ⟨fun k => ⟨(key k).2.1, (key k).2.2.1, (key k).1⟩, ?_⟩
  rw [luke_eq_final]
  unfold hyperg_1F1_luke_norescale hyperg_1F1_luke_final
  dsimp only
  rw [(key 5000).2.1, (key 5000).2.2.1]

/-- C27: one pass of the forward loop of `hyperg_1F1_ab_pos` at the index
`n` is the step `F_n(u,v) = ((b-n)·u + (2n-b+x)·v)/n`, one pass of its
backward loop is the step `B_n(w,v) = (n·w - (2n-b+x)·v)/(b-n)` (the loops of
`hyperg_1F1_ab_posint` make the same steps at integers), and for all `b`,
`x`, `u`, `v`, `w` and every `n` with `n ≠ 0` and `n ≠ b` the two steps are
inverse to each other: `B_n(F_n(u,v), v) = u` and `F_n(B_n(w,v), v) = w`. -/
theorem C27_recur_steps_inverse (b x n u v w : R) (hn : n ≠ 0) (hb : n ≠ b) :
    (hyperg_1F1_recur_backward b x n (hyperg_1F1_recur_forward b x n u v) v = u ∧
      hyperg_1F1_recur_forward b x n (hyperg_1F1_recur_backward b x n w v) v = w) ∧
    (∀ (stop : R) (k : ℕ), hyperg_1F1_ab_pos_forward b x stop (k + 1) n u v
      = if n < stop then
          hyperg_1F1_ab_pos_forward b x stop k (n + 1) v (hyperg_1F1_recur_forward b x n u v)
        else (n, v)) ∧
    (∀ k : ℕ, hyperg_1F1_ab_pos_backward b x (k + 1) n w v
      = if n > 1 / 2 then
          hyperg_1F1_ab_pos_backward b x k (n - 1) v (hyperg_1F1_recur_backward b x n w v)
        else (n, v)) ∧
    (∀ (bi ni stop : ℤ) (k : ℕ), hyperg_1F1_ab_posint_forward bi x stop (k + 1) ni u v
      = if ni < stop then
          hyperg_1F1_ab_posint_forward bi x stop k (ni + 1) v
            (hyperg_1F1_recur_forward (bi : R) x (ni : R) u v)
        else v) ∧
    (∀ (bi ni : ℤ) (k : ℕ), hyperg_1F1_ab_posint_backward bi x (k + 1) ni w v
      = if ni > 0 then
          hyperg_1F1_ab_posint_backward bi x k (ni - 1) v
            (hyperg_1F1_recur_backward (bi : R) x (ni : R) w v)
        else v) := by
  have hbn : b - n ≠ 0 := sub_ne_zero.mpr (Ne.symm hb)
  refine ⟨⟨?_, ?_⟩, fun stop k => ab_pos_forward_succ b x stop k n u v,
    fun k => ab_pos_backward_succ b x k n w v,
    fun bi ni stop k => ab_posint_forward_succ bi x stop k ni u v,
    fun bi ni k => ab_posint_backward_succ bi x k ni w v⟩
  · unfold hyperg_1F1_recur_backward hyperg_1F1_recur_forward
    field_simp
  · unfold hyperg_1F1_recur_backward hyperg_1F1_recur_forward
    field_simp

/-- C28: for every integer `b ≥ 1` and every `x`, the value that
`hyperg_1F1_ab_posint` returns for `a = b + 2`, the closed form
`exp(x)·(1 + x/b·(2 + x/(b+1)))`, is what its forward loop gives in one pass,
at `n = b + 1`, from the seeds `exp(x)` and `exp(x)·(1 + x/b)` of the branch
`a > b`. -/
theorem C28_closed_form_is_forward_step (E : Env R) (b : ℤ) (hb : 1 ≤ b) (x : R) :
    hyperg_1F1_ab_posint E (b + 2) b x
      = (E.exp x * (1 + x / (b : R) * (2 + x / ((b + 1 : ℤ) : R))), .GSL_SUCCESS) ∧
    hyperg_1F1_ab_posint_forward b x (b + 2) ((b + 2) - (b + 1)).toNat (b + 1)
        (E.exp x) (E.exp x * (1 + x / (b : R)))
      = E.exp x * (1 + x / (b : R) * (2 + x / ((b + 1 : ℤ) : R))) ∧
    hyperg_1F1_recur_forward (b : R) x ((b + 1 : ℤ) : R) (E.exp x) (E.exp x * (1 + x / (b : R)))
      = E.exp x * (1 + x / (b : R) * (2 + x / ((b + 1 : ℤ) : R))) := by
  have hb0 : (b : R) ≠ 0 := by
    have : (0 : R) < (b : R) := by exact_mod_cast (by omega : (0 : ℤ) < b)
    exact ne_of_gt this
  have hb1 : ((b + 1 : ℤ) : R) ≠ 0 := by
    have : (0 : R) < ((b + 1 : ℤ) : R) := by exact_mod_cast (by omega : (0 : ℤ) < b + 1)
    exact ne_of_gt this
  have step : hyperg_1F1_recur_forward (b : R) x ((b + 1 : ℤ) : R) (E.exp x)
      (E.exp x * (1 + x / (b : R)))
      = E.exp x * (1 + x / (b : R) * (2 + x / ((b + 1 : ℤ) : R))) := by
    unfold hyperg_1F1_recur_forward
    field_simp
    ring
  refine ⟨?_, ?_, step⟩
  · unfold hyperg_1F1_ab_posint
    dsimp only
    rw [if_neg (by omega), if_neg (by omega), if_neg (by omega), if_neg (by omega),
      if_pos rfl]
  · have e : ((b + 2) - (b + 1)).toNat = 0 + 1 := by
      have : (b + 2) - (b + 1) = 1 := by ring
      rw [this]
      rfl
    rw [e, ab_posint_forward_succ, if_pos (by omega), step]
    rfl

end RecurClaims

section RecurFloorClaims

variable {R : Type} [LinearOrderedField R] [FloorRing R]

/-- C25: in exact arithmetic the results of `hyperg_1F1_ab_posint` and of
`hyperg_1F1_ab_pos` do not change when the seed `GSL_SQRT_DBL_MIN` of their
normalised recurrences is replaced by any other nonzero seed: the quotient
`Ma/Mn` of the backward recurrence (branch `b > 2a + x`) and the final index
are the same for both seeds, and so are the values and statuses returned, on
every input. -/
theorem C25_seed_independence (E : Env R) (seed : R) (hseed : seed ≠ 0)
    (hmin : E.GSL_SQRT_DBL_MIN ≠ 0) :
    (∀ (b : ℤ) (x : R) (k : ℕ) (n : ℤ) (ra : R),
      seed / hyperg_1F1_ab_posint_backward b x k n (ra * seed) seed
        = E.GSL_SQRT_DBL_MIN / hyperg_1F1_ab_posint_backward b x k n
            (ra * E.GSL_SQRT_DBL_MIN) E.GSL_SQRT_DBL_MIN) ∧
    (∀ (b x : R) (k : ℕ) (n ra : R),
      (hyperg_1F1_ab_pos_backward b x k n (ra * seed) seed).1
        = (hyperg_1F1_ab_pos_backward b x k n
            (ra * E.GSL_SQRT_DBL_MIN) E.GSL_SQRT_DBL_MIN).1 ∧
      seed / (hyperg_1F1_ab_pos_backward b x k n (ra * seed) seed).2
        = E.GSL_SQRT_DBL_MIN / (hyperg_1F1_ab_pos_backward b x k n
            (ra * E.GSL_SQRT_DBL_MIN) E.GSL_SQRT_DBL_MIN).2) ∧
    (∀ (a b : ℤ) (x : R),
      hyperg_1F1_ab_posint_par (fun u d => u / d) seed E a b x = hyperg_1F1_ab_posint E a b x) ∧
    (∀ (fuel : ℕ) (a b x : R),
      hyperg_1F1_ab_pos_par (fun u d => u / d) seed E fuel a b x
        = hyperg_1F1_ab_pos E fuel a b x) := by
  refine ⟨?_, ?_, ?_, ?_⟩
  · intro b x k n ra
    rw [ab_posint_backward_seed b x seed hseed, ab_posint_backward_seed b x _ hmin]
  · intro b x k n ra
    have h1 := ab_pos_backward_seed b x seed hseed k n ra
    have h2 := ab_pos_backward_seed b x _ hmin k n ra
    exact ⟨h1.1.trans h2.1.symm, h1.2.trans h2.2.symm⟩
  · intro a b x
    rw [ab_posint_eq_par]
    exact ab_posint_par_seed E seed _ hseed hmin a b x
  · intro fuel a b x
    rw [ab_pos_eq_par]
    exact ab_pos_par_seed E fuel seed _ hseed hmin a b x

/-- C26: when `GSL_MACH_EPS ≥ 0` and `GSL_SQRT_MACH_EPS ≤ 1`, the guard
`b > locEPS && |b-a| < GSL_SQRT_MACH_EPS && |b| > |x|` of the branch
"approximate a==b" (line 1463) implies the second test
`b > 0.8*locMAX(|b-a|,1)*|x|` of the Kummer-series branch (line 1427), which
stands before it in the ladder; so no input `(a, b, x)` selects the branch. -/
theorem C26_a_near_b_unreachable (E : Env R) (heps : 0 ≤ E.GSL_MACH_EPS)
    (hsq : E.GSL_SQRT_MACH_EPS ≤ 1) :
    (∀ a b x : R, b > locEPS E → |b - a| < E.GSL_SQRT_MACH_EPS → |b| > |x| →
      b > 8 / 10 * locMAX |b - a| 1 * |x|) ∧
    (∀ a b x : R, gsl_sf_hyperg_1F1_regime E a b x ≠ .a_near_b) := by
  have key : ∀ a b x : R, b > locEPS E → |b - a| < E.GSL_SQRT_MACH_EPS → |b| > |x| →
      b > 8 / 10 * locMAX |b - a| 1 * |x| := by
    intro a b x hb hbma hbx
    have hloc : 0 ≤ locEPS E := by unfold locEPS; linarith
    have hbpos : 0 < b := lt_of_le_of_lt hloc hb
    have hmax : locMAX |b - a| 1 = 1 := by
      unfold locMAX
      rw [if_neg (by rw [not_lt]; linarith)]
    rw [hmax, abs_of_pos hbpos] at *
    have hx0 : 0 ≤ |x| := abs_nonneg x
    linarith
  refine ⟨key, ?_⟩
  intro a b x hreg
  unfold gsl_sf_hyperg_1F1_regime at hreg
  obtain ⟨_, hreg⟩ := ite_else_of_ne hreg (by decide)
  obtain ⟨_, hreg⟩ := ite_else_of_ne hreg (by decide)
  obtain ⟨_, hreg⟩ := ite_else_of_ne hreg (by decide)
  obtain ⟨_, hreg⟩ := ite_else_of_ne hreg (by decide)
  obtain ⟨_, hreg⟩ := ite_else_of_ne hreg (by decide)
  obtain ⟨_, hreg⟩ := ite_else_of_ne hreg (by decide)
  obtain ⟨_, hreg⟩ := ite_else_of_ne hreg (by decide)
  obtain ⟨_, hreg⟩ := ite_else_of_ne hreg (by decide)
  obtain ⟨h9, hreg⟩ := ite_else_of_ne hreg (by decide)
  obtain ⟨_, hreg⟩ := ite_else_of_ne hreg (by decide)
  obtain ⟨_, hreg⟩ := ite_else_of_ne hreg (by decide)
  by_cases h12 : b > locEPS E ∧ |b - a| < E.GSL_SQRT_MACH_EPS ∧ |b| > |x|
  · exact h9 (Or.inr (key a b x h12.1 h12.2.1 h12.2.2))
  · rw [if_neg h12] at hreg
    obtain ⟨_, hreg⟩ := ite_else_of_ne hreg (by decide)
    obtain ⟨_, hreg⟩ := ite_else_of_ne hreg (by decide)
    obtain ⟨_, hreg⟩ := ite_else_of_ne hreg (by decide)
    obtain ⟨_, hreg⟩ := ite_else_of_ne hreg (by decide)
    exact absurd hreg (by decide)

/-- C29: no recurrence step of `hyperg_1F1_ab_posint` or `hyperg_1F1_ab_pos`
divides by zero.  In each of the four loops every divisor is at least the
first one (the starting index `n` of a forward loop, `b - n` for the starting
index `n` of a backward loop): the loop that checks each divisor returns the
result of the loop.  In the whole functions, for integers `a ≥ 1`, `b ≥ 1`
(for reals `a > 0`, `b > 0`), the result is the same whatever the division of
the recurrence steps and of the seed ratios gives for a divisor that is not
`≥ 1` (not `> 0`), so the divisors `n`, `ap`, `b - n`, `a` and `b - a - 1` met
are `≥ 1` (`> 0`).  And the backward loop of `hyperg_1F1_ab_pos` ends with an
index in `(-1/2, 1/2]`. -/
theorem C29_no_zero_divisor (E : Env R) :
    (∀ (b : ℤ) (x : R) (stop : ℤ) (k : ℕ) (n : ℤ) (u v : R),
      hyperg_1F1_ab_posint_forward_chk (fun d => (n : R) ≤ d) b x stop k n u v
        = some (hyperg_1F1_ab_posint_forward b x stop k n u v)) ∧
    (∀ (b : ℤ) (x : R) (k : ℕ) (n : ℤ) (u v : R),
      hyperg_1F1_ab_posint_backward_chk (fun d => ((b - n : ℤ) : R) ≤ d) b x k n u v
        = some (hyperg_1F1_ab_posint_backward b x k n u v)) ∧
    (∀ (b x stop : R) (k : ℕ) (n u v : R),
      hyperg_1F1_ab_pos_forward_chk (fun d => n ≤ d) b x stop k n u v
        = some (hyperg_1F1_ab_pos_forward b x stop k n u v)) ∧
    (∀ (b x : R) (k : ℕ) (n u v : R),
      hyperg_1F1_ab_pos_backward_chk (fun d => b - n ≤ d) b x k n u v
        = some (hyperg_1F1_ab_pos_backward b x k n u v)) ∧
    (∀ dv : R → R → R, (∀ u d : R, 1 ≤ d → dv u d = u / d) →
      ∀ (a b : ℤ) (x : R), 1 ≤ a → 1 ≤ b →
        hyperg_1F1_ab_posint_par dv E.GSL_SQRT_DBL_MIN E a b x = hyperg_1F1_ab_posint E a b x) ∧
    (∀ dv : R → R → R, (∀ u d : R, 0 < d → dv u d = u / d) →
      ∀ (fuel : ℕ) (a b x : R), 0 < a → 0 < b →
        hyperg_1F1_ab_pos_par dv E.GSL_SQRT_DBL_MIN E fuel a b x
          = hyperg_1F1_ab_pos E fuel a b x) ∧
    (∀ (a b x u v : R), 0 < a →
      -(1 / 2) < (hyperg_1F1_ab_pos_backward b x ⌈a - 1 / 2⌉.toNat a u v).1 ∧
      (hyperg_1F1_ab_pos_backward b x ⌈a - 1 / 2⌉.toNat a u v).1 ≤ 1 / 2) := by
  refine ⟨?_, ?_, ?_, ?_, ?_, ?_, ?_⟩
  · intro b x stop k n u v
    exact ab_posint_forward_chk_eq _ b x stop k n u v le_rfl
  · intro b x k n u v
    exact ab_posint_backward_chk_eq _ b x k n u v le_rfl
  · intro b x stop k n u v
    exact ab_pos_forward_chk_eq _ b x stop k n u v le_rfl
  · intro b x k n u v
    exact ab_pos_backward_chk_eq _ b x k n u v le_rfl
  · intro dv hdv a b x ha hb
    exact ab_posint_par_congr dv hdv E a b ha hb x
  · intro dv hdv fuel a b x ha hb
    exact ab_pos_par_congr dv hdv E fuel a b x ha hb
  · intro a b x u v ha
    apply ab_pos_backward_index b x _ a u v (by linarith)
    have h1 : a - 1 / 2 ≤ ((⌈a - 1 / 2⌉ : ℤ) : R) := Int.le_ceil _
    have h2 : ((⌈a - 1 / 2⌉ : ℤ) : R) ≤ ((⌈a - 1 / 2⌉.toNat : ℕ) : R) := by
      have := Int.self_le_toNat ⌈a - 1 / 2⌉
      exact_mod_cast this
    linarith

end RecurFloorClaims

section BlasClaims

variable {R : Type} [CommRing R]

/-- C30: with unit increments and `lda ≥ N` the kernel `source_symv` leaves
`Y[i] = beta*Y0[i] + alpha * sum over j < N of S(i,j)*X[j]` for every
`i < N`, where `S(i,j) = A[lda*min(i,j) + max(i,j)]` for `Uplo = CblasUpper`
and `S(i,j) = A[lda*max(i,j) + min(i,j)]` otherwise; and changing an entry of
`A` in the other triangle does not change `Y[i]`. -/
theorem C30_symv_result (Uplo : CBLAS_UPLO) (N lda : ℕ) (hlda : N ≤ lda) (alpha beta : R)
    (A X Y : ℕ → R) (i : ℕ) (hi : i < N) :
    (source_symv Uplo N alpha A lda X 1 beta Y 1 i
      = beta * Y i + alpha * ∑ j in Finset.range N,
          (if Uplo = .CblasUpper then A (lda * min i j + max i j)
            else A (lda * max i j + min i j)) * X j) ∧
    (∀ (r c : ℕ) (v : R), r < N → c < N → (if Uplo = .CblasUpper then c < r else r < c) →
      source_symv Uplo N alpha (Function.update A (lda * r + c) v) lda X 1 beta Y 1 i
        = source_symv Uplo N alpha A lda X 1 beta Y 1 i) := by
  cases Uplo
  · refine ⟨?_, ?_⟩
    · rw [source_symv_upper_result N lda alpha beta A X Y i hi]
      simp only [if_true]
    · intro r c v hr hc hrc
      rw [if_pos rfl] at hrc
      rw [source_symv_upper_result N lda alpha beta _ X Y i hi,
        source_symv_upper_result N lda alpha beta A X Y i hi]
      congr 2
      refine Finset.sum_congr rfl (fun j hj => ?_)
      have hj2 := Finset.mem_range.mp hj
      rw [Function.update_noteq]
      intro e
      have := offset_inj lda (min i j) (max i j) r c (by omega) (by omega) e
      omega
  · refine ⟨?_, ?_⟩
    · rw [source_symv_lower_result N lda alpha beta A X Y i hi]
      simp only [if_neg (show ¬ CBLAS_UPLO.CblasLower = CBLAS_UPLO.CblasUpper by decide)]
    · intro r c v hr hc hrc
      rw [if_neg (by decide)] at hrc
      rw [source_symv_lower_result N lda alpha beta _ X Y i hi,
        source_symv_lower_result N lda alpha beta A X Y i hi]
      congr 2
      refine Finset.sum_congr rfl (fun j hj => ?_)
      have hj2 := Finset.mem_range.mp hj
      rw [Function.update_noteq]
      intro e
      have := offset_inj lda (max i j) (min i j) r c (by omega) (by omega) e
      omega

end BlasClaims

/-- C25 at a concrete input: in `ratEnv` the seed 1 gives the results of the
seed `GSL_SQRT_DBL_MIN` at the integer input (2, 10, -5) and at the real
input (2, 21/2, -21/4), both in the branch `b > 2a + x`. -/
theorem C25_seed_independence_witness :
    (1 : ℚ) ≠ 0 ∧ ratEnv.GSL_SQRT_DBL_MIN ≠ 0 ∧
    hyperg_1F1_ab_posint_par (fun u d => u / d) 1 ratEnv 2 10 (-5)
      = hyperg_1F1_ab_posint ratEnv 2 10 (-5) ∧
    hyperg_1F1_ab_pos_par (fun u d => u / d) 1 ratEnv 0 2 (21 / 2) (-21 / 4)
      = hyperg_1F1_ab_pos ratEnv 0 2 (21 / 2) (-21 / 4) :=
  ⟨by decide, by decide!,
    (C25_seed_independence ratEnv 1 (by decide) (by decide!)).2.2.1 2 10 (-5),
    (C25_seed_independence ratEnv 1 (by decide) (by decide!)).2.2.2 0 2 (21 / 2) (-21 / 4)⟩

/-- C26 with the constants of IEEE double precision, at `a = 1`,
`b = 1 + 2^-30`, `x = 1/2`, an input that passes the guard of the branch:
it selects the branch of the direct series. -/
theorem C26_a_near_b_unreachable_witness :
    (0 ≤ ratEnv.GSL_MACH_EPS ∧ ratEnv.GSL_SQRT_MACH_EPS ≤ 1) ∧
    ((1 + 1 / 2 ^ 30 : ℚ) > locEPS ratEnv ∧ |(1 + 1 / 2 ^ 30 : ℚ) - 1| < ratEnv.GSL_SQRT_MACH_EPS
      ∧ |(1 + 1 / 2 ^ 30 : ℚ)| > |(1 / 2 : ℚ)|) ∧
    (1 + 1 / 2 ^ 30 : ℚ) > 8 / 10 * locMAX |(1 + 1 / 2 ^ 30 : ℚ) - 1| 1 * |(1 / 2 : ℚ)| ∧
    gsl_sf_hyperg_1F1_regime ratEnv 1 (1 + 1 / 2 ^ 30) (1 / 2) ≠ .a_near_b :=
  have h0 : 0 ≤ ratEnv.GSL_MACH_EPS := by norm_num [ratEnv]
  have h1 : ratEnv.GSL_SQRT_MACH_EPS ≤ 1 := by norm_num [ratEnv]
  have h := C26_a_near_b_unreachable ratEnv h0 h1
  have g : (1 + 1 / 2 ^ 30 : ℚ) > locEPS ratEnv ∧
      |(1 + 1 / 2 ^ 30 : ℚ) - 1| < ratEnv.GSL_SQRT_MACH_EPS
      ∧ |(1 + 1 / 2 ^ 30 : ℚ)| > |(1 / 2 : ℚ)| := by decide!
  ⟨⟨h0, h1⟩, g, h.1 1 (1 + 1 / 2 ^ 30) (1 / 2) g.1 g.2.1 g.2.2, h.2 1 (1 + 1 / 2 ^ 30) (1 / 2)⟩

/-- C27 at `b = 5`, `x = 2`, `n = 3`, `u = 1`, `v = 4`, `w = 7`. -/
theorem C27_recur_steps_inverse_witness :
    ((3 : ℚ) ≠ 0 ∧ (3 : ℚ) ≠ 5) ∧
    hyperg_1F1_recur_backward (5 : ℚ) 2 3 (hyperg_1F1_recur_forward 5 2 3 1 4) 4 = 1 ∧
    hyperg_1F1_recur_forward (5 : ℚ) 2 3 (hyperg_1F1_recur_backward 5 2 3 7 4) 4 = 7 :=
  ⟨⟨by norm_num, by norm_num⟩,
    (C27_recur_steps_inverse 5 2 3 1 4 7 (by norm_num) (by norm_num)).1⟩

/-- C28 at `b = 3`, `x = 2`. -/
theorem C28_closed_form_is_forward_step_witness :
    (1 : ℤ) ≤ 3 ∧
    hyperg_1F1_ab_posint ratEnv (3 + 2) 3 2
      = (ratEnv.exp 2 * (1 + 2 / ((3 : ℤ) : ℚ) * (2 + 2 / ((3 + 1 : ℤ) : ℚ))), .GSL_SUCCESS) ∧
    hyperg_1F1_ab_posint_forward 3 2 (3 + 2) (((3 : ℤ) + 2) - (3 + 1)).toNat (3 + 1)
        (ratEnv.exp 2) (ratEnv.exp 2 * (1 + 2 / ((3 : ℤ) : ℚ)))
      = ratEnv.exp 2 * (1 + 2 / ((3 : ℤ) : ℚ) * (2 + 2 / ((3 + 1 : ℤ) : ℚ))) :=
  have h := C28_closed_form_is_forward_step ratEnv 3 (by decide) 2
  ⟨by decide, h.1, h.2.1⟩

/-- C29 at concrete inputs in `ratEnv`: with a division that gives 17 for a
divisor that is not `≥ 1` (not `> 0`) the results at the integer input
(2, 10, -5) and at the real input (2, 21/2, -21/4) are those of the division,
and the backward loop started at `a = 5/2` ends at an index in
`(-1/2, 1/2]`. -/
theorem C29_no_zero_divisor_witness :
    ((1 : ℤ) ≤ 2 ∧ (1 : ℤ) ≤ 10 ∧
      hyperg_1F1_ab_posint_par (fun u d => if 1 ≤ d then u / d else 17)
          ratEnv.GSL_SQRT_DBL_MIN ratEnv 2 10 (-5)
        = hyperg_1F1_ab_posint ratEnv 2 10 (-5)) ∧
    ((0 : ℚ) < 2 ∧ (0 : ℚ) < 21 / 2 ∧
      hyperg_1F1_ab_pos_par (fun u d => if 0 < d then u / d else 17)
          ratEnv.GSL_SQRT_DBL_MIN ratEnv 0 2 (21 / 2) (-21 / 4)
        = hyperg_1F1_ab_pos ratEnv 0 2 (21 / 2) (-21 / 4)) ∧
    ((0 : ℚ) < 5 / 2 ∧
      -(1 / 2) < (hyperg_1F1_ab_pos_backward (21 / 2 : ℚ) (-21 / 4)
        ⌈(5 / 2 : ℚ) - 1 / 2⌉.toNat (5 / 2) 3 1).1 ∧
      (hyperg_1F1_ab_pos_backward (21 / 2 : ℚ) (-21 / 4)
        ⌈(5 / 2 : ℚ) - 1 / 2⌉.toNat (5 / 2) 3 1).1 ≤ 1 / 2) :=
  ⟨⟨by decide, by decide,
      (C29_no_zero_divisor ratEnv).2.2.2.2.1 (fun u d => if 1 ≤ d then u / d else 17)
        (fun _ _ h => if_pos h) 2 10 (-5) (by decide) (by decide)⟩,
    ⟨by decide!, by decide!,
      (C29_no_zero_divisor ratEnv).2.2.2.2.2.1 (fun u d => if 0 < d then u / d else 17)
        (fun _ _ h => if_pos h) 0 2 (21 / 2) (-21 / 4) (by decide!) (by decide!)⟩,
    ⟨by decide!,
      (C29_no_zero_divisor ratEnv).2.2.2.2.2.2 (5 / 2) (21 / 2) (-21 / 4) 3 1 (by decide!)⟩⟩

/-- C30 at a concrete input: the matrix with `A[0] = 1`, `A[1] = 2`,
`A[2] = 1000`, `A[3] = 4` (`N = lda = 2`), `X = (5, 6)`, `Y = (7, 8)`,
`alpha = 3`, `beta = 2`: the upper case leaves `Y[0] = 2*7 + 3*(1*5 + 2*6)`
and `Y[1] = 2*8 + 3*(2*5 + 4*6)`, reading `A[1]` for both off-diagonal
entries and `A[2]` not at all. -/
theorem C30_symv_result_witness :
    (2 ≤ 2 ∧ 1 < 2) ∧
    (source_symv .CblasUpper 2 (3 : ℤ) (fun k => if k = 0 then 1 else if k = 1 then 2
        else if k = 2 then 1000 else 4) 2 (fun k => if k = 0 then 5 else 6) 1 2
        (fun k => if k = 0 then 7 else 8) 1 1
      = 2 * (fun k => if k = 0 then 7 else 8) 1 + 3 * ∑ j in Finset.range 2,
          (if CBLAS_UPLO.CblasUpper = .CblasUpper then
            (fun k => if k = 0 then 1 else if k = 1 then 2
              else if k = 2 then 1000 else (4 : ℤ)) (2 * min 1 j + max 1 j)
            else (fun k => if k = 0 then 1 else if k = 1 then 2
              else if k = 2 then 1000 else (4 : ℤ)) (2 * max 1 j + min 1 j))
            * (fun k => if k = 0 then 5 else 6) j) ∧
    source_symv .CblasUpper 2 (3 : ℤ) (fun k => if k = 0 then 1 else if k = 1 then 2
        else if k = 2 then 1000 else 4) 2 (fun k => if k = 0 then 5 else 6) 1 2
        (fun k => if k = 0 then 7 else 8) 1 0 = 65 ∧
    source_symv .CblasUpper 2 (3 : ℤ) (fun k => if k = 0 then 1 else if k = 1 then 2
        else if k = 2 then 1000 else 4) 2 (fun k => if k = 0 then 5 else 6) 1 2
        (fun k => if k = 0 then 7 else 8) 1 1 = 118 :=
  ⟨⟨by decide, by decide⟩,
    (C30_symv_result .CblasUpper 2 2 (by decide) (3 : ℤ) 2
      (fun k => if k = 0 then 1 else if k = 1 then 2 else if k = 2 then 1000 else 4)
      (fun k => if k = 0 then 5 else 6) (fun k => if k = 0 then 7 else 8) 1 (by decide)).1,
    by decide, by decide⟩

section SeriesBoundClaims

variable {R : Type} [LinearOrderedField R] [FloorRing R]

end SeriesBoundClaims

end Gsl
